import Mathlib

/-! Shallow embedding of the per-batch tracking cycle `tracked_boxes_cb` of
`PredictKfAbstract` (src/track_people_py/track_people_py/predict_kf_abstract.py),
together with the `PredictKfBuffer` registry state, the per-track constant
velocity Kalman filter (filterpy `KalmanFilter` with the matrices set up in the
source), the per-track fps estimation, and the missing-track lifecycle.

Modelling conventions: timestamps are rationals (seconds; the source stores
`rclpy.time.Time` and converts differences via `.nanoseconds/1e9`), positions
and velocities are rationals, Python dicts are association lists keyed by the
integer track id, `collections.deque(maxlen=n)` is a list together with an
explicit bounded append, and every fallible Python operation (`dict[key]`
lookup that may raise `KeyError`, `deque[-1]` on an empty deque raising
`IndexError`, division that may raise `ZeroDivisionError`) is threaded through
`Except`.  The abstract hooks `on_tracked_boxes_cb` and the diagnostics tick
have no effect on the registry state and are omitted, as is the pure
visualization code. -/

abbrev TrackId := Nat

abbrev Time := ℚ

namespace CabotTrack

/-- Python exceptions that the modelled code can raise. -/
inductive PyErr where
  | zeroDivisionError
  | keyError
  | indexError
deriving DecidableEq, Repr

/-! ### Association lists modelling Python dicts -/

/-- Dict lookup `m.get(k)`: value of the first entry with key `k`. -/
def alGet {α : Type} : List (TrackId × α) → TrackId → Option α
  | [], _ => none
  | (k, v) :: rest, id => if k = id then some v else alGet rest id

/-- Dict store `m[k] = v`: replace the existing entry in place, else append
(Python dicts preserve insertion order and append fresh keys at the end). -/
def alSet {α : Type} : List (TrackId × α) → TrackId → α → List (TrackId × α)
  | [], id, v => [(id, v)]
  | (k, w) :: rest, id, v => if k = id then (id, v) :: rest else (k, w) :: alSet rest id v

/-- Dict delete `del m[k]` (used in the source either where the key is known
present or guarded by `if k in m`). -/
def alErase {α : Type} : List (TrackId × α) → TrackId → List (TrackId × α)
  | [], _ => []
  | (k, w) :: rest, id => if k = id then alErase rest id else (k, w) :: alErase rest id

/-- Dict key list `m.keys()`. -/
def alKeys {α : Type} (m : List (TrackId × α)) : List TrackId := m.map Prod.fst

/-! ### Bounded deque append -/

/-- `collections.deque(maxlen).append`: append on the right, evicting from the
left when the capacity is exceeded. -/
def dequeAppend {α : Type} (maxlen : Nat) (q : List α) (a : α) : List α :=
  (q ++ [a]).drop ((q ++ [a]).length - maxlen)

/-! ### The Kalman filter of the source

The source builds a filterpy `KalmanFilter(dim_x=4, dim_z=2)` with
state `(x, vx, y, vy)`, transition matrix `F` with unit time step,
measurement matrix `H` extracting `(x, y)`, measurement noise `R = 5·I₂`,
process noise `Q = block_diag(q, q)` where
`q = Q_discrete_white_noise(dim=2, dt=1, var=0.05)
   = 0.05 * [[0.25, 0.5], [0.5, 1]] = [[1/80, 1/40], [1/40, 1/20]]`,
initial state `x = (px, 0, py, 0)` and initial covariance `P = 500·I₄`. -/

def matVecMul {m n : Nat} (A : Fin m → Fin n → ℚ) (v : Fin n → ℚ) : Fin m → ℚ :=
  fun i => ∑ j, A i j * v j

def matMul {m n p : Nat} (A : Fin m → Fin n → ℚ) (B : Fin n → Fin p → ℚ) :
    Fin m → Fin p → ℚ :=
  fun i k => ∑ j, A i j * B j k

def matAdd {m n : Nat} (A B : Fin m → Fin n → ℚ) : Fin m → Fin n → ℚ :=
  fun i j => A i j + B i j

def matSub {m n : Nat} (A B : Fin m → Fin n → ℚ) : Fin m → Fin n → ℚ :=
  fun i j => A i j - B i j

def matT {m n : Nat} (A : Fin m → Fin n → ℚ) : Fin n → Fin m → ℚ :=
  fun i j => A j i

def idMat (n : Nat) : Fin n → Fin n → ℚ :=
  fun i j => if i = j then 1 else 0

/-- Explicit inverse of a 2×2 matrix (`numpy.linalg.inv` on the innovation
covariance `S`; with the source's `R = 5·I₂` and an exact-arithmetic positive
semidefinite covariance, `S` is never singular on reachable states). -/
def inv2 (S : Fin 2 → Fin 2 → ℚ) : Fin 2 → Fin 2 → ℚ :=
  let det := S 0 0 * S 1 1 - S 0 1 * S 1 0
  ![![S 1 1 / det, -(S 0 1) / det], ![-(S 1 0) / det, S 0 0 / det]]

def kfF : Fin 4 → Fin 4 → ℚ := ![![1, 1, 0, 0], ![0, 1, 0, 0], ![0, 0, 1, 1], ![0, 0, 0, 1]]

def kfH : Fin 2 → Fin 4 → ℚ := ![![1, 0, 0, 0], ![0, 0, 1, 0]]

def kfR : Fin 2 → Fin 2 → ℚ := ![![5, 0], ![0, 5]]

def kfQ : Fin 4 → Fin 4 → ℚ :=
  ![![1/80, 1/40, 0, 0], ![1/40, 1/20, 0, 0],
    ![0, 0, 1/80, 1/40], ![0, 0, 1/40, 1/20]]

/-- Pointwise-eager copy of a length-2 vector (numpy arrays are strict; the
copy is extensionally the identity and keeps evaluation cost linear). -/
def tabV2 (v : Fin 2 → ℚ) : Fin 2 → ℚ := ![v 0, v 1]

/-- Pointwise-eager copy of a length-4 vector. -/
def tabV4 (v : Fin 4 → ℚ) : Fin 4 → ℚ := ![v 0, v 1, v 2, v 3]

/-- Pointwise-eager copy of a 2×2 matrix. -/
def tabM22 (A : Fin 2 → Fin 2 → ℚ) : Fin 2 → Fin 2 → ℚ := ![tabV2 (A 0), tabV2 (A 1)]

/-- Pointwise-eager copy of a 4×2 matrix. -/
def tabM42 (A : Fin 4 → Fin 2 → ℚ) : Fin 4 → Fin 2 → ℚ :=
  ![tabV2 (A 0), tabV2 (A 1), tabV2 (A 2), tabV2 (A 3)]

/-- Pointwise-eager copy of a 4×4 matrix. -/
def tabM44 (A : Fin 4 → Fin 4 → ℚ) : Fin 4 → Fin 4 → ℚ :=
  ![tabV4 (A 0), tabV4 (A 1), tabV4 (A 2), tabV4 (A 3)]

structure KalmanFilter where
  x : Fin 4 → ℚ
  P : Fin 4 → Fin 4 → ℚ

instance : DecidableEq KalmanFilter := fun a b =>
  decidable_of_iff (a.x = b.x ∧ a.P = b.P) (by cases a; cases b; simp)

/-- Filter construction at lines 277-290 of the source: state seeded with the
last observed position and zero velocity. -/
def kfInit (px py : ℚ) : KalmanFilter :=
  { x := ![px, 0, py, 0], P := fun i j => if i = j then 500 else 0 }

/-- filterpy `KalmanFilter.predict` (`u = 0`): `x ← F x`, `P ← F P Fᵀ + Q`. -/
def kfPredict (t : KalmanFilter) : KalmanFilter :=
  { x := tabV4 (matVecMul kfF t.x),
    P := tabM44 (matAdd (matMul (matMul kfF t.P) (matT kfF)) kfQ) }

/-- filterpy `KalmanFilter.update z`: innovation `y = z - H x`,
`S = H P Hᵀ + R`, gain `K = P Hᵀ S⁻¹`, `x ← x + K y`, and the Joseph form
covariance update `P ← (I - K H) P (I - K H)ᵀ + K R Kᵀ`. -/
def kfUpdate (z : Fin 2 → ℚ) (t : KalmanFilter) : KalmanFilter :=
  let y : Fin 2 → ℚ := tabV2 (fun i => z i - matVecMul kfH t.x i)
  let S := tabM22 (matAdd (matMul (matMul kfH t.P) (matT kfH)) kfR)
  let K := tabM42 (matMul (matMul t.P (matT kfH)) (inv2 S))
  let IKH := tabM44 (matSub (idMat 4) (matMul K kfH))
  { x := tabV4 (fun i => t.x i + matVecMul K y i),
    P := tabM44 (matAdd (matMul (matMul IKH t.P) (matT IKH)) (matMul (matMul K kfR) (matT K))) }

/-! ### Input and state types -/

/-- One `TrackedBox` of the incoming message: class name, track id, 3D
center, display color, and the per-box header stamp. -/
structure Box where
  class_name : String
  track_id : TrackId
  center3d : ℚ × ℚ × ℚ
  color : ℚ × ℚ × ℚ
  stamp : Time
deriving DecidableEq

/-- One `TrackedBoxes` message: header stamp and box list. -/
structure Batch where
  stamp : Time
  tracked_boxes : List Box
deriving DecidableEq

/-- Node configuration (constructor arguments of `PredictKfAbstract`). -/
structure Config where
  input_time : Nat
  duration_inactive_to_remove : ℚ
  duration_inactive_to_stop_publish : ℚ
  fps_est_time : Nat
deriving DecidableEq

/-- The mutable per-track registry: the `PredictKfBuffer` dictionaries plus the
fps-estimation and velocity-history dictionaries living on the node itself. -/
structure TState where
  track_input_queue_dict : List (TrackId × List (ℚ × ℚ × ℚ))
  track_color_dict : List (TrackId × (ℚ × ℚ × ℚ))
  track_id_kf_model_dict : List (TrackId × KalmanFilter)
  track_id_missing_time_dict : List (TrackId × Time)
  track_predict_fps : List (TrackId × ℚ)
  track_prev_predict_timestamp : List (TrackId × List Time)
  track_vel_hist_dict : List (TrackId × List (Time × (ℚ × ℚ)))
deriving DecidableEq

/-- The state right after node construction: every dictionary empty. -/
def initialState : TState :=
  { track_input_queue_dict := []
    track_color_dict := []
    track_id_kf_model_dict := []
    track_id_missing_time_dict := []
    track_predict_fps := []
    track_prev_predict_timestamp := []
    track_vel_hist_dict := [] }

/-- The arguments handed to the abstract `pub_result` at the end of the cycle. -/
structure CycleOutput where
  alive_track_id_list : List TrackId
  track_pos_dict : List (TrackId × (ℚ × ℚ))
  track_vel_dict : List (TrackId × (ℚ × ℚ))
  track_vel_hist_dict : List (TrackId × List (Time × (ℚ × ℚ)))
deriving DecidableEq

/-- `tbox.box.class_name == "person" or tbox.box.class_name == "obstacle"`. -/
def isTracked (b : Box) : Bool :=
  b.class_name == "person" || b.class_name == "obstacle"

/-! ### Phase 1: the update-queue loop (source lines 236-265) -/

structure Ingest1 where
  st : TState
  alive : List TrackId
deriving DecidableEq

/-- Processing of one `tbox` in the first loop of `tracked_boxes_cb`:
enqueue the position, record the color, mark the id alive, clear its missing
time, and run the fps bookkeeping.  A box whose per-box stamp is strictly
older than the newest recorded timestamp hits the `continue` at line 258,
which skips both the fps recomputation and the timestamp append.  The fps
recomputation divides `len(window)` by
`(msg_stamp - window[0])` seconds and raises `ZeroDivisionError` when that
difference is zero. -/
def processBox (cfg : Config) (msgStamp : Time) (acc : Ingest1) (tbox : Box) :
    Except PyErr Ingest1 :=
  if isTracked tbox then
    let s := acc.st
    let q0 := (alGet s.track_input_queue_dict tbox.track_id).getD []
    let s1 : TState :=
      { s with
        track_input_queue_dict :=
          alSet s.track_input_queue_dict tbox.track_id
            (dequeAppend cfg.input_time q0 tbox.center3d)
        track_color_dict := alSet s.track_color_dict tbox.track_id tbox.color
        track_id_missing_time_dict := alErase s.track_id_missing_time_dict tbox.track_id }
    let alive1 := acc.alive ++ [tbox.track_id]
    match alGet s1.track_prev_predict_timestamp tbox.track_id with
    | some ts =>
      match ts.getLast? with
      | none => .error .indexError
      | some last =>
        if tbox.stamp < last then
          .ok { st := s1, alive := alive1 }
        else
          match ts.head? with
          | none => .error .indexError
          | some first =>
            if msgStamp - first = 0 then .error .zeroDivisionError
            else
              .ok
                { st :=
                    { s1 with
                      track_predict_fps :=
                        alSet s1.track_predict_fps tbox.track_id
                          ((ts.length : ℚ) / (msgStamp - first))
                      track_prev_predict_timestamp :=
                        alSet s1.track_prev_predict_timestamp tbox.track_id
                          (dequeAppend cfg.fps_est_time ts msgStamp) }
                  alive := alive1 }
    | none =>
      .ok
        { st :=
            { s1 with
              track_prev_predict_timestamp :=
                alSet s1.track_prev_predict_timestamp tbox.track_id
                  (dequeAppend cfg.fps_est_time [] msgStamp) }
          alive := alive1 }
  else
    .ok acc

/-! ### Phase 2: the predict loop over alive tracks (source lines 267-310) -/

structure Predict2 where
  st : TState
  pos : List (TrackId × (ℚ × ℚ))
  vel : List (TrackId × (ℚ × ℚ))
deriving DecidableEq

/-- Tail of the predict-loop body shared by the bootstrap and steady-state
branches (source lines 300-310): store the filter, record the raw last
position, scale the filter velocity by the track's estimated fps (a plain
dict lookup that raises `KeyError` when no fps was ever computed for the
track), and append to the velocity history. -/
def finishAlive (cfg : Config) (acc : Predict2) (track_id : TrackId)
    (lastp : ℚ × ℚ) (tracker1 : KalmanFilter) : Except PyErr Predict2 :=
  let s1 : TState :=
    { acc.st with
      track_id_kf_model_dict := alSet acc.st.track_id_kf_model_dict track_id tracker1 }
  match alGet s1.track_predict_fps track_id with
  | none => .error .keyError
  | some fps =>
    let v : ℚ × ℚ := (tracker1.x 1 * fps, tracker1.x 3 * fps)
    match alGet s1.track_prev_predict_timestamp track_id with
    | none => .error .keyError
    | some ts =>
      match ts.getLast? with
      | none => .error .indexError
      | some lastTs =>
        let hist0 := (alGet s1.track_vel_hist_dict track_id).getD []
        .ok
          { st :=
              { s1 with
                track_vel_hist_dict :=
                  alSet s1.track_vel_hist_dict track_id
                    (dequeAppend cfg.fps_est_time hist0 (lastTs, v)) }
            pos := alSet acc.pos track_id lastp
            vel := alSet acc.vel track_id v }

/-- Body of the predict loop for one alive track id: skip tracks that have no
filter yet and fewer than `input_time` buffered positions; otherwise either
bootstrap a fresh filter and replay the whole queue, or feed only the most
recent observation to the existing filter, one predict step then one update
step per consumed observation. -/
def processAlive (cfg : Config) (acc : Predict2) (track_id : TrackId) :
    Except PyErr Predict2 :=
  match alGet acc.st.track_input_queue_dict track_id with
  | none => .error .keyError
  | some q =>
    if (alGet acc.st.track_id_kf_model_dict track_id) = none ∧ q.length < cfg.input_time then
      .ok acc
    else
      let past : List (ℚ × ℚ) := q.map (fun c => (c.1, c.2.1))
      match alGet acc.st.track_id_kf_model_dict track_id with
      | none =>
        match past.getLast? with
        | none => .error .indexError
        | some lastp =>
          let tracker1 :=
            past.foldl (fun t p => kfUpdate ![p.1, p.2] (kfPredict t)) (kfInit lastp.1 lastp.2)
          finishAlive cfg acc track_id lastp tracker1
      | some tracker0 =>
        match past.getLast? with
        | none => .error .indexError
        | some lastp =>
          finishAlive cfg acc track_id lastp (kfUpdate ![lastp.1, lastp.2] (kfPredict tracker0))

/-! ### Phase 3: the missing-track cleanup loop (source lines 312-336) -/

structure Cleanup3 where
  st : TState
  stopList : List TrackId
deriving DecidableEq

/-- Body of the cleanup loop for one missing track id: record the batch stamp
as the missing time on the first absent cycle, flag the id for publish
suppression when the absence exceeds `duration_inactive_to_stop_publish`,
and delete the whole per-track state (except the velocity history, which the
source never deletes) when the absence exceeds `duration_inactive_to_remove`.
The unguarded `del` statements on the queue and color dicts raise `KeyError`
when the key is absent. -/
def processMissing (cfg : Config) (now : Time) (acc : Cleanup3) (track_id : TrackId) :
    Except PyErr Cleanup3 :=
  let s := acc.st
  let mt := (alGet s.track_id_missing_time_dict track_id).getD now
  let s1 : TState :=
    { s with track_id_missing_time_dict := alSet s.track_id_missing_time_dict track_id mt }
  let stop1 :=
    if now - mt > cfg.duration_inactive_to_stop_publish then acc.stopList ++ [track_id]
    else acc.stopList
  if now - mt > cfg.duration_inactive_to_remove then
    if (alGet s1.track_input_queue_dict track_id).isSome ∧
        (alGet s1.track_color_dict track_id).isSome then
      .ok
        { st :=
            { track_predict_fps := alErase s1.track_predict_fps track_id
              track_prev_predict_timestamp := alErase s1.track_prev_predict_timestamp track_id
              track_input_queue_dict := alErase s1.track_input_queue_dict track_id
              track_color_dict := alErase s1.track_color_dict track_id
              track_id_missing_time_dict := alErase s1.track_id_missing_time_dict track_id
              track_id_kf_model_dict := alErase s1.track_id_kf_model_dict track_id
              track_vel_hist_dict := s1.track_vel_hist_dict }
          stopList := stop1 }
    else .error .keyError
  else .ok { st := s1, stopList := stop1 }

/-! ### Phase 4: dead-reckoning of missing-but-published tracks (lines 338-352) -/

/-- Body of the dead-reckoning loop for one missing-but-not-suppressed track
id: tracks without a filter are skipped; otherwise the published velocity is
the stored filter's velocity components scaled by the last recorded fps
(a dict lookup that can raise `KeyError`), and the published position is the
raw last queued observation.  No predict or update step runs and the registry
state is untouched. -/
def processPubMissing (acc : Predict2) (track_id : TrackId) : Except PyErr Predict2 :=
  match alGet acc.st.track_id_kf_model_dict track_id with
  | none => .ok acc
  | some tracker =>
    match alGet acc.st.track_predict_fps track_id with
    | none => .error .keyError
    | some fps =>
      let lastVel : ℚ × ℚ := (tracker.x 1 * fps, tracker.x 3 * fps)
      match alGet acc.st.track_input_queue_dict track_id with
      | none => .error .keyError
      | some q =>
        match q.getLast? with
        | none => .error .indexError
        | some c =>
          .ok
            { acc with
              pos := alSet acc.pos track_id (c.1, c.2.1)
              vel := alSet acc.vel track_id lastVel }

/-! ### The whole cycle -/

/-- Track ids of the person/obstacle boxes of a box list, in order. -/
def detIds (boxes : List Box) : List TrackId :=
  (boxes.filter isTracked).map Box.track_id

/-- Track ids of the person/obstacle boxes of a batch: exactly the ids
appended to `alive_track_id_list` during ingestion. -/
def detectedIds (msg : Batch) : List TrackId :=
  detIds msg.tracked_boxes

/-- The whole `tracked_boxes_cb` cycle: ingestion, prediction for alive
tracks, cleanup of missing tracks, dead-reckoning of missing-but-published
tracks, and the `pub_result` argument tuple. -/
def tracked_boxes_cb (cfg : Config) (s : TState) (msg : Batch) :
    Except PyErr (TState × CycleOutput) := do
  let i1 ← msg.tracked_boxes.foldlM (processBox cfg msg.stamp) ⟨s, []⟩
  let p2 ← i1.alive.foldlM (processAlive cfg) ⟨i1.st, [], []⟩
  let missingList :=
    (alKeys p2.st.track_input_queue_dict).filter (fun id => decide (id ∉ i1.alive))
  let c3 ← missingList.foldlM (processMissing cfg msg.stamp) ⟨p2.st, []⟩
  let pubMissing := missingList.filter (fun id => decide (id ∉ c3.stopList))
  let p4 ← pubMissing.foldlM processPubMissing ⟨c3.st, p2.pos, p2.vel⟩
  pure
    (p4.st,
      { alive_track_id_list := i1.alive
        track_pos_dict := p4.pos
        track_vel_dict := p4.vel
        track_vel_hist_dict := p4.st.track_vel_hist_dict })

/-! ### Association-list lemmas -/

theorem alGet_alSet_self {α : Type} (m : List (TrackId × α)) (k : TrackId) (v : α) :
    alGet (alSet m k v) k = some v := by
  induction m with
  | nil => simp [alSet, alGet]
  | cons p rest ih =>
    obtain ⟨k', w⟩ := p
    by_cases h : k' = k
    · simp [alSet, alGet, h]
    · simp [alSet, alGet, h, ih]

theorem alGet_alSet_ne {α : Type} (m : List (TrackId × α)) (k : TrackId) (v : α)
    (k' : TrackId) (h : k' ≠ k) : alGet (alSet m k v) k' = alGet m k' := by
  induction m with
  | nil =>
    simp only [alSet, alGet]
    rw [if_neg (show ¬ (k = k') from fun hh => h hh.symm)]
  | cons p rest ih =>
    obtain ⟨k0, w⟩ := p
    by_cases h0 : k0 = k
    · simp only [alSet, if_pos h0, alGet]
      rw [if_neg (show ¬ (k = k') from fun hh => h hh.symm),
        if_neg (show ¬ (k0 = k') from fun hh => h (h0.symm.trans hh).symm)]
    · simp only [alSet, if_neg h0, alGet]
      by_cases h1 : k0 = k'
      · rw [if_pos h1, if_pos h1]
      · rw [if_neg h1, if_neg h1, ih]

theorem alGet_alErase_self {α : Type} (m : List (TrackId × α)) (k : TrackId) :
    alGet (alErase m k) k = none := by
  induction m with
  | nil => simp [alErase, alGet]
  | cons p rest ih =>
    obtain ⟨k0, w⟩ := p
    by_cases h0 : k0 = k
    · simp [alErase, h0, ih]
    · simp [alErase, alGet, h0, ih]

theorem alGet_alErase_ne {α : Type} (m : List (TrackId × α)) (k : TrackId)
    (k' : TrackId) (h : k' ≠ k) : alGet (alErase m k) k' = alGet m k' := by
  induction m with
  | nil => simp [alErase]
  | cons p rest ih =>
    obtain ⟨k0, w⟩ := p
    by_cases h0 : k0 = k
    · simp only [alErase, if_pos h0, alGet]
      rw [if_neg (show ¬ (k0 = k') from fun hh => h (h0.symm.trans hh).symm), ih]
    · simp only [alErase, if_neg h0, alGet]
      by_cases h1 : k0 = k'
      · rw [if_pos h1, if_pos h1]
      · rw [if_neg h1, if_neg h1, ih]

theorem alGet_isSome_of_mem_alKeys {α : Type} (m : List (TrackId × α)) (k : TrackId)
    (h : k ∈ alKeys m) : (alGet m k).isSome := by
  induction m with
  | nil => simp [alKeys] at h
  | cons p rest ih =>
    obtain ⟨k0, w⟩ := p
    by_cases h0 : k0 = k
    · simp [alGet, h0]
    · simp [alKeys] at h
      rcases h with h | h
      · exact absurd h.symm h0
      · simpa [alGet, h0] using ih (by simpa [alKeys] using h)

theorem mem_alKeys_of_alGet_isSome {α : Type} (m : List (TrackId × α)) (k : TrackId)
    (h : (alGet m k).isSome) : k ∈ alKeys m := by
  induction m with
  | nil => simp [alGet] at h
  | cons p rest ih =>
    obtain ⟨k0, w⟩ := p
    by_cases h0 : k0 = k
    · simp [alKeys, h0]
    · simp [alGet, h0] at h
      simp [alKeys]
      exact Or.inr (by simpa [alKeys] using ih h)

theorem alKeys_alSet_of_mem {α : Type} (m : List (TrackId × α)) (k : TrackId) (v : α)
    (h : k ∈ alKeys m) : alKeys (alSet m k v) = alKeys m := by
  induction m with
  | nil => simp [alKeys] at h
  | cons p rest ih =>
    obtain ⟨k0, w⟩ := p
    by_cases h0 : k0 = k
    · simp [alSet, alKeys, h0]
    · simp [alKeys] at h
      rcases h with h | h
      · exact absurd h.symm h0
      · simp [alSet, alKeys, h0]
        simpa [alKeys] using ih (by simpa [alKeys] using h)

theorem alKeys_cons {α : Type} (a : TrackId) (b : α) (m : List (TrackId × α)) :
    alKeys ((a, b) :: m) = a :: alKeys m := rfl

theorem alKeys_alSet_of_not_mem {α : Type} (m : List (TrackId × α)) (k : TrackId) (v : α)
    (h : k ∉ alKeys m) : alKeys (alSet m k v) = alKeys m ++ [k] := by
  induction m with
  | nil => simp [alSet, alKeys]
  | cons p rest ih =>
    obtain ⟨k0, w⟩ := p
    rw [alKeys_cons] at h
    simp only [List.mem_cons, not_or] at h
    simp only [alSet, if_neg (show ¬ (k0 = k) from fun hh => h.1 hh.symm), alKeys_cons, ih h.2]
    simp

theorem alKeys_alSet_nodup {α : Type} (m : List (TrackId × α)) (k : TrackId) (v : α)
    (h : (alKeys m).Nodup) : (alKeys (alSet m k v)).Nodup := by
  by_cases hm : k ∈ alKeys m
  · rw [alKeys_alSet_of_mem m k v hm]; exact h
  · rw [alKeys_alSet_of_not_mem m k v hm]
    simpa [List.nodup_append] using ⟨h, hm⟩

/-! ### Bounded-deque lemmas -/

theorem dequeAppend_eq_drop_concat {α : Type} (maxlen : Nat) (q : List α) (a : α)
    (h : 1 ≤ maxlen) :
    dequeAppend maxlen q a = q.drop ((q.length + 1) - maxlen) ++ [a] := by
  unfold dequeAppend
  rw [List.drop_append_of_le_length]
  · simp
  · simp
    omega

theorem getLast?_dequeAppend {α : Type} (maxlen : Nat) (q : List α) (a : α)
    (h : 1 ≤ maxlen) : (dequeAppend maxlen q a).getLast? = some a := by
  rw [dequeAppend_eq_drop_concat maxlen q a h]
  exact List.getLast?_concat _

theorem dequeAppend_ne_nil {α : Type} (maxlen : Nat) (q : List α) (a : α)
    (h : 1 ≤ maxlen) : dequeAppend maxlen q a ≠ [] := by
  rw [dequeAppend_eq_drop_concat maxlen q a h]
  simp

theorem length_dequeAppend {α : Type} (maxlen : Nat) (q : List α) (a : α) :
    (dequeAppend maxlen q a).length = min (q.length + 1) maxlen := by
  unfold dequeAppend
  simp
  omega

theorem dequeAppend_of_le {α : Type} (maxlen : Nat) (q : List α) (a : α)
    (h : q.length + 1 ≤ maxlen) : dequeAppend maxlen q a = q ++ [a] := by
  unfold dequeAppend
  have h0 : (q ++ [a]).length - maxlen = 0 := by simp; omega
  rw [h0, List.drop_zero]

theorem mem_of_mem_dequeAppend {α : Type} (maxlen : Nat) (q : List α) (a b : α)
    (h : b ∈ dequeAppend maxlen q a) : b ∈ q ∨ b = a := by
  unfold dequeAppend at h
  have h2 := List.mem_of_mem_drop h
  simpa using h2

/-! ### Branch characterization of `processBox` -/

theorem processBox_untracked (cfg : Config) (ms : Time) (acc : Ingest1) (b : Box)
    (h1 : ¬ isTracked b = true) : processBox cfg ms acc b = .ok acc := by
  simp [processBox, h1]

theorem processBox_fresh_eq (cfg : Config) (ms : Time) (acc : Ingest1) (b : Box)
    (h1 : isTracked b = true)
    (h2 : alGet acc.st.track_prev_predict_timestamp b.track_id = none) :
    processBox cfg ms acc b =
      .ok
        { st :=
            { acc.st with
              track_input_queue_dict :=
                alSet acc.st.track_input_queue_dict b.track_id
                  (dequeAppend cfg.input_time
                    ((alGet acc.st.track_input_queue_dict b.track_id).getD []) b.center3d)
              track_color_dict := alSet acc.st.track_color_dict b.track_id b.color
              track_id_missing_time_dict := alErase acc.st.track_id_missing_time_dict b.track_id
              track_prev_predict_timestamp :=
                alSet acc.st.track_prev_predict_timestamp b.track_id
                  (dequeAppend cfg.fps_est_time [] ms) }
          alive := acc.alive ++ [b.track_id] } := by
  simp only [processBox, h1, if_true, h2]

theorem processBox_stale_eq (cfg : Config) (ms : Time) (acc : Ingest1) (b : Box)
    (ts : List Time) (l : Time) (h1 : isTracked b = true)
    (h2 : alGet acc.st.track_prev_predict_timestamp b.track_id = some ts)
    (h3 : ts.getLast? = some l) (h4 : b.stamp < l) :
    processBox cfg ms acc b =
      .ok
        { st :=
            { acc.st with
              track_input_queue_dict :=
                alSet acc.st.track_input_queue_dict b.track_id
                  (dequeAppend cfg.input_time
                    ((alGet acc.st.track_input_queue_dict b.track_id).getD []) b.center3d)
              track_color_dict := alSet acc.st.track_color_dict b.track_id b.color
              track_id_missing_time_dict := alErase acc.st.track_id_missing_time_dict b.track_id }
          alive := acc.alive ++ [b.track_id] } := by
  simp only [processBox, h1, if_true, h2, h3, if_pos h4]

theorem processBox_zerodiv (cfg : Config) (ms : Time) (acc : Ingest1) (b : Box)
    (ts : List Time) (l f : Time) (h1 : isTracked b = true)
    (h2 : alGet acc.st.track_prev_predict_timestamp b.track_id = some ts)
    (h3 : ts.getLast? = some l) (h4 : ¬ b.stamp < l) (h5 : ts.head? = some f)
    (h6 : ms - f = 0) :
    processBox cfg ms acc b = .error .zeroDivisionError := by
  simp only [processBox, h1, if_true, h2, h3, if_neg h4, h5, if_pos h6]

theorem processBox_accept_eq (cfg : Config) (ms : Time) (acc : Ingest1) (b : Box)
    (ts : List Time) (l f : Time) (h1 : isTracked b = true)
    (h2 : alGet acc.st.track_prev_predict_timestamp b.track_id = some ts)
    (h3 : ts.getLast? = some l) (h4 : ¬ b.stamp < l) (h5 : ts.head? = some f)
    (h6 : ¬ ms - f = 0) :
    processBox cfg ms acc b =
      .ok
        { st :=
            { acc.st with
              track_input_queue_dict :=
                alSet acc.st.track_input_queue_dict b.track_id
                  (dequeAppend cfg.input_time
                    ((alGet acc.st.track_input_queue_dict b.track_id).getD []) b.center3d)
              track_color_dict := alSet acc.st.track_color_dict b.track_id b.color
              track_id_missing_time_dict := alErase acc.st.track_id_missing_time_dict b.track_id
              track_predict_fps :=
                alSet acc.st.track_predict_fps b.track_id ((ts.length : ℚ) / (ms - f))
              track_prev_predict_timestamp :=
                alSet acc.st.track_prev_predict_timestamp b.track_id
                  (dequeAppend cfg.fps_est_time ts ms) }
          alive := acc.alive ++ [b.track_id] } := by
  simp only [processBox, h1, if_true, h2, h3, if_neg h4, h5, if_neg h6]

/-- Everything a successful `processBox` can have done, independent of which
fps branch ran: an untracked box is a no-op; a tracked box appends its id to
the alive list, enqueues its position, stores its color, erases its missing
time, leaves the filter and velocity-history dicts untouched, and touches the
fps and timestamp dicts only at its own id. -/
theorem processBox_ok_cases (cfg : Config) (ms : Time) (acc : Ingest1) (b : Box)
    (r : Ingest1) (h : processBox cfg ms acc b = .ok r) :
    (¬ isTracked b = true ∧ r = acc) ∨
    (isTracked b = true ∧ r.alive = acc.alive ++ [b.track_id] ∧
      r.st.track_id_kf_model_dict = acc.st.track_id_kf_model_dict ∧
      r.st.track_vel_hist_dict = acc.st.track_vel_hist_dict ∧
      r.st.track_input_queue_dict =
        alSet acc.st.track_input_queue_dict b.track_id
          (dequeAppend cfg.input_time
            ((alGet acc.st.track_input_queue_dict b.track_id).getD []) b.center3d) ∧
      r.st.track_color_dict = alSet acc.st.track_color_dict b.track_id b.color ∧
      r.st.track_id_missing_time_dict = alErase acc.st.track_id_missing_time_dict b.track_id ∧
      (r.st.track_predict_fps = acc.st.track_predict_fps ∨
        ∃ v, r.st.track_predict_fps = alSet acc.st.track_predict_fps b.track_id v) ∧
      (r.st.track_prev_predict_timestamp = acc.st.track_prev_predict_timestamp ∨
        ∃ w, r.st.track_prev_predict_timestamp =
          alSet acc.st.track_prev_predict_timestamp b.track_id w)) := by
  simp only [processBox] at h
  split at h
  · split at h
    · split at h
      · exact absurd h (by simp)
      · split at h
        · injection h with h
          subst h
          refine Or.inr ⟨by assumption, rfl, rfl, rfl, rfl, rfl, rfl, Or.inl rfl, Or.inl rfl⟩
        · split at h
          · exact absurd h (by simp)
          · split at h
            · exact absurd h (by simp)
            · injection h with h
              subst h
              refine Or.inr ⟨by assumption, rfl, rfl, rfl, rfl, rfl, rfl,
                Or.inr ⟨_, rfl⟩, Or.inr ⟨_, rfl⟩⟩
    · injection h with h
      subst h
      refine Or.inr ⟨by assumption, rfl, rfl, rfl, rfl, rfl, rfl, Or.inl rfl, Or.inr ⟨_, rfl⟩⟩
  · injection h with h
    subst h
    exact Or.inl ⟨by assumption, rfl⟩

/-! ### Phase-1 fold lemmas -/

theorem exceptBind_ok {ε α β : Type} (x : α) (f : α → Except ε β) :
    (Except.ok x >>= f) = f x := rfl

theorem exceptBind_error {ε α β : Type} (e : ε) (f : α → Except ε β) :
    ((Except.error e : Except ε α) >>= f) = Except.error e := rfl

theorem detIds_cons (b : Box) (rest : List Box) :
    detIds (b :: rest) =
      if isTracked b then b.track_id :: detIds rest else detIds rest := by
  by_cases h : isTracked b
  · simp [detIds, List.filter_cons, h]
  · simp [detIds, List.filter_cons, h]

theorem mem_detIds_of_mem (b : Box) (boxes : List Box) (hb : b ∈ boxes)
    (ht : isTracked b = true) : b.track_id ∈ detIds boxes := by
  induction boxes with
  | nil => simp at hb
  | cons c rest ih =>
    rcases List.mem_cons.mp hb with h | h
    · subst h
      simp [detIds_cons, ht]
    · by_cases hc : isTracked c
      · simp [detIds_cons, hc]
        exact Or.inr (ih h)
      · simpa [detIds_cons, hc] using ih h

/-- The first loop only ever appends the tracked box ids, in order, to the
alive list. -/
theorem phase1_fold_alive (cfg : Config) (ms : Time) :
    ∀ (boxes : List Box) (acc r : Ingest1),
      boxes.foldlM (processBox cfg ms) acc = .ok r →
      r.alive = acc.alive ++ detIds boxes := by
  intro boxes
  induction boxes with
  | nil =>
    intro acc r h
    rw [List.foldlM_nil] at h
    injection h with h
    simp [detIds, h]
  | cons b rest ih =>
    intro acc r h
    rw [List.foldlM_cons] at h
    cases hb : processBox cfg ms acc b with
    | error e => rw [hb, exceptBind_error] at h; exact absurd h (by simp)
    | ok a =>
      rw [hb, exceptBind_ok] at h
      have ha := ih a r h
      rcases processBox_ok_cases cfg ms acc b a hb with ⟨hn, he⟩ | ⟨ht, hal, _⟩
      · rw [he] at ha
        rw [detIds_cons, if_neg hn]
        exact ha
      · rw [detIds_cons, if_pos ht]
        rw [ha, hal]
        simp

/-- The first loop never touches the filter dict or the velocity-history
dict. -/
theorem phase1_fold_kf_velhist (cfg : Config) (ms : Time) :
    ∀ (boxes : List Box) (acc r : Ingest1),
      boxes.foldlM (processBox cfg ms) acc = .ok r →
      r.st.track_id_kf_model_dict = acc.st.track_id_kf_model_dict ∧
      r.st.track_vel_hist_dict = acc.st.track_vel_hist_dict := by
  intro boxes
  induction boxes with
  | nil =>
    intro acc r h
    rw [List.foldlM_nil] at h
    injection h with h
    rw [h]
    exact ⟨rfl, rfl⟩
  | cons b rest ih =>
    intro acc r h
    rw [List.foldlM_cons] at h
    cases hb : processBox cfg ms acc b with
    | error e => rw [hb, exceptBind_error] at h; exact absurd h (by simp)
    | ok a =>
      rw [hb, exceptBind_ok] at h
      have ha := ih a r h
      rcases processBox_ok_cases cfg ms acc b a hb with ⟨hn, he⟩ | ⟨ht, hal, hkf, hvh, _⟩
      · rw [he] at ha; exact ha
      · exact ⟨ha.1.trans hkf, ha.2.trans hvh⟩

/-- The first loop leaves every per-track entry of an undetected id
untouched. -/
theorem phase1_fold_preserve (cfg : Config) (ms : Time) :
    ∀ (boxes : List Box) (acc r : Ingest1) (id : TrackId),
      boxes.foldlM (processBox cfg ms) acc = .ok r →
      id ∉ detIds boxes →
      alGet r.st.track_input_queue_dict id = alGet acc.st.track_input_queue_dict id ∧
      alGet r.st.track_color_dict id = alGet acc.st.track_color_dict id ∧
      alGet r.st.track_id_missing_time_dict id = alGet acc.st.track_id_missing_time_dict id ∧
      alGet r.st.track_predict_fps id = alGet acc.st.track_predict_fps id ∧
      alGet r.st.track_prev_predict_timestamp id =
        alGet acc.st.track_prev_predict_timestamp id := by
  intro boxes
  induction boxes with
  | nil =>
    intro acc r id h hid
    rw [List.foldlM_nil] at h
    injection h with h
    rw [h]
    exact ⟨rfl, rfl, rfl, rfl, rfl⟩
  | cons b rest ih =>
    intro acc r id h hid
    rw [List.foldlM_cons] at h
    cases hb : processBox cfg ms acc b with
    | error e => rw [hb, exceptBind_error] at h; exact absurd h (by simp)
    | ok a =>
      rw [hb, exceptBind_ok] at h
      rcases processBox_ok_cases cfg ms acc b a hb with ⟨hn, he⟩ | ⟨ht, hal, hkf, hvh, hq, hc, hm, hf, hp⟩
      · rw [he] at h
        refine ih acc r id h ?_
        rw [detIds_cons, if_neg hn] at hid
        exact hid
      · rw [detIds_cons, if_pos ht] at hid
        have hne : id ≠ b.track_id := fun hh => hid (by simp [hh])
        have hrest : id ∉ detIds rest := fun hh => hid (by simp [hh])
        have ha := ih a r id h hrest
        refine ⟨ha.1.trans ?_, ha.2.1.trans ?_, ha.2.2.1.trans ?_, ha.2.2.2.1.trans ?_,
          ha.2.2.2.2.trans ?_⟩
        · rw [hq, alGet_alSet_ne _ _ _ _ hne]
        · rw [hc, alGet_alSet_ne _ _ _ _ hne]
        · rw [hm, alGet_alErase_ne _ _ _ hne]
        · rcases hf with hf | ⟨v, hf⟩
          · rw [hf]
          · rw [hf, alGet_alSet_ne _ _ _ _ hne]
        · rcases hp with hp | ⟨w, hp⟩
          · rw [hp]
          · rw [hp, alGet_alSet_ne _ _ _ _ hne]

/-- After the first loop, a tracked box whose id is detected exactly once has
its position enqueued on top of the pre-batch queue and its missing time
cleared. -/
theorem phase1_fold_at_detected (cfg : Config) (ms : Time) :
    ∀ (boxes : List Box) (acc r : Ingest1) (b : Box),
      boxes.foldlM (processBox cfg ms) acc = .ok r →
      b ∈ boxes → isTracked b = true → (detIds boxes).Nodup →
      alGet r.st.track_input_queue_dict b.track_id =
        some (dequeAppend cfg.input_time
          ((alGet acc.st.track_input_queue_dict b.track_id).getD []) b.center3d) ∧
      alGet r.st.track_id_missing_time_dict b.track_id = none := by
  intro boxes
  induction boxes with
  | nil => intro acc r b h hb; simp at hb
  | cons c rest ih =>
    intro acc r b h hb ht hnd
    rw [List.foldlM_cons] at h
    cases hc : processBox cfg ms acc c with
    | error e => rw [hc, exceptBind_error] at h; exact absurd h (by simp)
    | ok a =>
      rw [hc, exceptBind_ok] at h
      rcases List.mem_cons.mp hb with hbc | hbr
      · subst hbc
        have hnotin : b.track_id ∉ detIds rest := by
          rw [detIds_cons, if_pos ht] at hnd
          exact (List.nodup_cons.mp hnd).1
        have hpres := phase1_fold_preserve cfg ms rest a r b.track_id h hnotin
        rcases processBox_ok_cases cfg ms acc b a hc with ⟨hn, _⟩ | ⟨_, _, _, _, hq, _, hm, _, _⟩
        · exact absurd ht (by simpa using hn)
        · constructor
          · rw [hpres.1, hq, alGet_alSet_self]
          · rw [hpres.2.2.1, hm, alGet_alErase_self]
      · have hbid : b.track_id ∈ detIds rest := mem_detIds_of_mem b rest hbr ht
        have hndr : (detIds rest).Nodup := by
          by_cases hct : isTracked c
          · rw [detIds_cons, if_pos hct] at hnd
            exact (List.nodup_cons.mp hnd).2
          · rwa [detIds_cons, if_neg hct] at hnd
        have hmain := ih a r b h hbr ht hndr
        rcases processBox_ok_cases cfg ms acc c a hc with ⟨hn, he⟩ | ⟨hct, hal, hkf, hvh, hq, hcq, hm, hf, hp⟩
        · rw [he] at hmain; exact hmain
        · have hne : b.track_id ≠ c.track_id := by
            rw [detIds_cons, if_pos hct] at hnd
            intro hh
            exact (List.nodup_cons.mp hnd).1 (hh ▸ hbid)
          refine ⟨?_, hmain.2⟩
          rw [hmain.1, hq, alGet_alSet_ne _ _ _ _ hne]

/-- The first loop preserves key-uniqueness of the queue dict. -/
theorem phase1_fold_queue_keys_nodup (cfg : Config) (ms : Time) :
    ∀ (boxes : List Box) (acc r : Ingest1),
      boxes.foldlM (processBox cfg ms) acc = .ok r →
      (alKeys acc.st.track_input_queue_dict).Nodup →
      (alKeys r.st.track_input_queue_dict).Nodup := by
  intro boxes
  induction boxes with
  | nil =>
    intro acc r h hnd
    rw [List.foldlM_nil] at h
    injection h with h
    exact h ▸ hnd
  | cons b rest ih =>
    intro acc r h hnd
    rw [List.foldlM_cons] at h
    cases hb : processBox cfg ms acc b with
    | error e => rw [hb, exceptBind_error] at h; exact absurd h (by simp)
    | ok a =>
      rw [hb, exceptBind_ok] at h
      rcases processBox_ok_cases cfg ms acc b a hb with ⟨hn, he⟩ | ⟨ht, hal, hkf, hvh, hq, _⟩
      · rw [he] at h
        exact ih acc r h hnd
      · refine ih a r h ?_
        rw [hq]
        exact alKeys_alSet_nodup _ _ _ hnd

/-- The first loop never (re)creates a missing-time entry. -/
theorem phase1_fold_missing_none_mono (cfg : Config) (ms : Time) :
    ∀ (boxes : List Box) (acc r : Ingest1) (id : TrackId),
      boxes.foldlM (processBox cfg ms) acc = .ok r →
      alGet acc.st.track_id_missing_time_dict id = none →
      alGet r.st.track_id_missing_time_dict id = none := by
  intro boxes
  induction boxes with
  | nil =>
    intro acc r id h hnone
    rw [List.foldlM_nil] at h
    injection h with h
    exact h ▸ hnone
  | cons b rest ih =>
    intro acc r id h hnone
    rw [List.foldlM_cons] at h
    cases hb : processBox cfg ms acc b with
    | error e => rw [hb, exceptBind_error] at h; exact absurd h (by simp)
    | ok a =>
      rw [hb, exceptBind_ok] at h
      rcases processBox_ok_cases cfg ms acc b a hb with ⟨hn, he⟩ | ⟨_, _, _, _, _, _, hm, _⟩
      · rw [he] at h
        exact ih acc r id h hnone
      · refine ih a r id h ?_
        rw [hm]
        by_cases hid : id = b.track_id
        · subst hid
          exact alGet_alErase_self _ _
        · rw [alGet_alErase_ne _ _ _ hid]
          exact hnone

/-- After the first loop, every detected id has no missing-time entry. -/
theorem phase1_fold_missing_none (cfg : Config) (ms : Time) :
    ∀ (boxes : List Box) (acc r : Ingest1) (id : TrackId),
      boxes.foldlM (processBox cfg ms) acc = .ok r →
      id ∈ detIds boxes →
      alGet r.st.track_id_missing_time_dict id = none := by
  intro boxes
  induction boxes with
  | nil => intro acc r id h hmem; simp [detIds] at hmem
  | cons b rest ih =>
    intro acc r id h hmem
    rw [List.foldlM_cons] at h
    cases hb : processBox cfg ms acc b with
    | error e => rw [hb, exceptBind_error] at h; exact absurd h (by simp)
    | ok a =>
      rw [hb, exceptBind_ok] at h
      by_cases hrest : id ∈ detIds rest
      · exact ih a r id h hrest
      · rcases processBox_ok_cases cfg ms acc b a hb with ⟨hn, he⟩ | ⟨ht, _, _, _, _, _, hm, _⟩
        · rw [detIds_cons, if_neg hn] at hmem
          exact absurd hmem hrest
        · have hid : id = b.track_id := by
            rw [detIds_cons, if_pos ht] at hmem
            rcases List.mem_cons.mp hmem with hh | hh
            · exact hh
            · exact absurd hh hrest
          refine phase1_fold_missing_none_mono cfg ms rest a r id h ?_
          rw [hm, hid]
          exact alGet_alErase_self _ _

/-! ### Phase-2 lemmas -/

/-- A successful `finishAlive` call found an fps entry and a nonempty
timestamp window for the track, stored the new filter, the raw position, and
the fps-scaled velocity, and appended to the velocity history. -/
theorem finishAlive_ok_cases (cfg : Config) (acc : Predict2) (id : TrackId)
    (lastp : ℚ × ℚ) (t1 : KalmanFilter) (p : Predict2)
    (h : finishAlive cfg acc id lastp t1 = .ok p) :
    ∃ f ts lt, alGet acc.st.track_predict_fps id = some f ∧
      alGet acc.st.track_prev_predict_timestamp id = some ts ∧ ts.getLast? = some lt ∧
      p = { st :=
              { acc.st with
                track_id_kf_model_dict := alSet acc.st.track_id_kf_model_dict id t1
                track_vel_hist_dict :=
                  alSet acc.st.track_vel_hist_dict id
                    (dequeAppend cfg.fps_est_time
                      ((alGet acc.st.track_vel_hist_dict id).getD [])
                      (lt, (t1.x 1 * f, t1.x 3 * f))) }
            pos := alSet acc.pos id lastp
            vel := alSet acc.vel id (t1.x 1 * f, t1.x 3 * f) } := by
  simp only [finishAlive] at h
  split at h
  case h_1 => exact absurd h (by simp)
  case h_2 f hf =>
    split at h
    case h_1 => exact absurd h (by simp)
    case h_2 ts hts =>
      split at h
      case h_1 => exact absurd h (by simp)
      case h_2 lt hlt =>
        injection h with h
        exact ⟨f, ts, lt, hf, hts, hlt, h.symm⟩

/-- The predict-loop body for a track that has no filter and fewer than
`input_time` buffered positions is a no-op (line 271-272 of the source). -/
theorem processAlive_skip (cfg : Config) (acc : Predict2) (id : TrackId)
    (q : List (ℚ × ℚ × ℚ)) (hq : alGet acc.st.track_input_queue_dict id = some q)
    (hkf : alGet acc.st.track_id_kf_model_dict id = none)
    (hlen : q.length < cfg.input_time) : processAlive cfg acc id = .ok acc := by
  simp only [processAlive, hq, hkf, true_and]
  rw [if_pos hlen]

/-- The predict-loop body for a track with an existing filter applies exactly
one predict step followed by one update step, consuming only the most recent
queued observation. -/
theorem processAlive_steady_eq (cfg : Config) (acc : Predict2) (id : TrackId)
    (q : List (ℚ × ℚ × ℚ)) (t0 : KalmanFilter)
    (hq : alGet acc.st.track_input_queue_dict id = some q)
    (hkf : alGet acc.st.track_id_kf_model_dict id = some t0)
    (lastp : ℚ × ℚ) (hlast : (q.map (fun c => (c.1, c.2.1))).getLast? = some lastp) :
    processAlive cfg acc id =
      finishAlive cfg acc id lastp (kfUpdate ![lastp.1, lastp.2] (kfPredict t0)) := by
  simp only [processAlive, hq, hkf, hlast]
  rw [if_neg (by simp)]

/-- The predict-loop body for a filterless track whose queue has reached
`input_time` bootstraps a fresh filter seeded at the last observation and
replays the whole queue through predict/update pairs. -/
theorem processAlive_boot_eq (cfg : Config) (acc : Predict2) (id : TrackId)
    (q : List (ℚ × ℚ × ℚ))
    (hq : alGet acc.st.track_input_queue_dict id = some q)
    (hkf : alGet acc.st.track_id_kf_model_dict id = none)
    (hlen : ¬ q.length < cfg.input_time)
    (lastp : ℚ × ℚ) (hlast : (q.map (fun c => (c.1, c.2.1))).getLast? = some lastp) :
    processAlive cfg acc id =
      finishAlive cfg acc id lastp
        ((q.map (fun c => (c.1, c.2.1))).foldl
          (fun t p => kfUpdate ![p.1, p.2] (kfPredict t)) (kfInit lastp.1 lastp.2)) := by
  simp only [processAlive, hq, hkf, hlast]
  rw [if_neg (by simp [hlen])]

/-- Shape of any successful predict-loop iteration: the queue, color, missing,
fps and timestamp dicts are untouched, and the filter, history, position and
velocity dicts are either untouched or written at the processed id only. -/
theorem processAlive_ok_shape (cfg : Config) (acc : Predict2) (id : TrackId)
    (p : Predict2) (h : processAlive cfg acc id = .ok p) :
    p.st.track_input_queue_dict = acc.st.track_input_queue_dict ∧
    p.st.track_color_dict = acc.st.track_color_dict ∧
    p.st.track_id_missing_time_dict = acc.st.track_id_missing_time_dict ∧
    p.st.track_predict_fps = acc.st.track_predict_fps ∧
    p.st.track_prev_predict_timestamp = acc.st.track_prev_predict_timestamp ∧
    ((p.st.track_id_kf_model_dict = acc.st.track_id_kf_model_dict ∧
      p.st.track_vel_hist_dict = acc.st.track_vel_hist_dict ∧
      p.pos = acc.pos ∧ p.vel = acc.vel) ∨
     (∃ t1 w lp v,
       p.st.track_id_kf_model_dict = alSet acc.st.track_id_kf_model_dict id t1 ∧
       p.st.track_vel_hist_dict = alSet acc.st.track_vel_hist_dict id w ∧
       p.pos = alSet acc.pos id lp ∧ p.vel = alSet acc.vel id v)) := by
  simp only [processAlive] at h
  split at h
  · exact absurd h (by simp)
  · split at h
    · injection h with h
      rw [h.symm]
      exact ⟨rfl, rfl, rfl, rfl, rfl, Or.inl ⟨rfl, rfl, rfl, rfl⟩⟩
    · split at h
      · split at h
        · exact absurd h (by simp)
        · obtain ⟨f, ts, lt, hf, hts, hlt, hp⟩ := finishAlive_ok_cases _ _ _ _ _ _ h
          rw [hp]
          exact ⟨rfl, rfl, rfl, rfl, rfl, Or.inr ⟨_, _, _, _, rfl, rfl, rfl, rfl⟩⟩
      · split at h
        · exact absurd h (by simp)
        · obtain ⟨f, ts, lt, hf, hts, hlt, hp⟩ := finishAlive_ok_cases _ _ _ _ _ _ h
          rw [hp]
          exact ⟨rfl, rfl, rfl, rfl, rfl, Or.inr ⟨_, _, _, _, rfl, rfl, rfl, rfl⟩⟩

/-- The predict loop leaves the queue, color, missing, fps and timestamp
dicts untouched. -/
theorem phase2_fold_shape (cfg : Config) :
    ∀ (ids : List TrackId) (acc r : Predict2),
      ids.foldlM (processAlive cfg) acc = .ok r →
      r.st.track_input_queue_dict = acc.st.track_input_queue_dict ∧
      r.st.track_color_dict = acc.st.track_color_dict ∧
      r.st.track_id_missing_time_dict = acc.st.track_id_missing_time_dict ∧
      r.st.track_predict_fps = acc.st.track_predict_fps ∧
      r.st.track_prev_predict_timestamp = acc.st.track_prev_predict_timestamp := by
  intro ids
  induction ids with
  | nil =>
    intro acc r h
    rw [List.foldlM_nil] at h
    injection h with h
    rw [h]
    exact ⟨rfl, rfl, rfl, rfl, rfl⟩
  | cons j rest ih =>
    intro acc r h
    rw [List.foldlM_cons] at h
    cases hj : processAlive cfg acc j with
    | error e => rw [hj, exceptBind_error] at h; exact absurd h (by simp)
    | ok a =>
      rw [hj, exceptBind_ok] at h
      have ha := ih a r h
      have hs := processAlive_ok_shape cfg acc j a hj
      exact ⟨ha.1.trans hs.1, ha.2.1.trans hs.2.1, ha.2.2.1.trans hs.2.2.1,
        ha.2.2.2.1.trans hs.2.2.2.1, ha.2.2.2.2.trans hs.2.2.2.2.1⟩

/-- The predict loop leaves the filter, history, position and velocity
entries of every id it does not process untouched. -/
theorem phase2_fold_preserve (cfg : Config) :
    ∀ (ids : List TrackId) (acc r : Predict2) (id : TrackId),
      ids.foldlM (processAlive cfg) acc = .ok r →
      id ∉ ids →
      alGet r.st.track_id_kf_model_dict id = alGet acc.st.track_id_kf_model_dict id ∧
      alGet r.st.track_vel_hist_dict id = alGet acc.st.track_vel_hist_dict id ∧
      alGet r.pos id = alGet acc.pos id ∧
      alGet r.vel id = alGet acc.vel id := by
  intro ids
  induction ids with
  | nil =>
    intro acc r id h hid
    rw [List.foldlM_nil] at h
    injection h with h
    rw [h]
    exact ⟨rfl, rfl, rfl, rfl⟩
  | cons j rest ih =>
    intro acc r id h hid
    rw [List.foldlM_cons] at h
    cases hj : processAlive cfg acc j with
    | error e => rw [hj, exceptBind_error] at h; exact absurd h (by simp)
    | ok a =>
      rw [hj, exceptBind_ok] at h
      have hne : id ≠ j := fun hh => hid (by simp [hh])
      have hrest : id ∉ rest := fun hh => hid (by simp [hh])
      have ha := ih a r id h hrest
      have hs := processAlive_ok_shape cfg acc j a hj
      rcases hs.2.2.2.2.2 with ⟨hkf, hvh, hpos, hvel⟩ | ⟨t1, w, lp, v, hkf, hvh, hpos, hvel⟩
      · exact ⟨ha.1.trans (by rw [hkf]), ha.2.1.trans (by rw [hvh]),
          ha.2.2.1.trans (by rw [hpos]), ha.2.2.2.trans (by rw [hvel])⟩
      · exact ⟨ha.1.trans (by rw [hkf, alGet_alSet_ne _ _ _ _ hne]),
          ha.2.1.trans (by rw [hvh, alGet_alSet_ne _ _ _ _ hne]),
          ha.2.2.1.trans (by rw [hpos, alGet_alSet_ne _ _ _ _ hne]),
          ha.2.2.2.trans (by rw [hvel, alGet_alSet_ne _ _ _ _ hne])⟩

/-- An alive id with an existing filter, visited exactly once by the predict
loop, gets exactly one predict step followed by one update step on the most
recent queued observation; the published position is that raw observation and
the published velocity is the updated filter velocity scaled by the stored
fps. -/
theorem phase2_fold_at_steady (cfg : Config) :
    ∀ (ids : List TrackId) (acc r : Predict2) (id : TrackId)
      (q : List (ℚ × ℚ × ℚ)) (t0 : KalmanFilter) (lastp : ℚ × ℚ),
      ids.foldlM (processAlive cfg) acc = .ok r → ids.Nodup → id ∈ ids →
      alGet acc.st.track_input_queue_dict id = some q →
      alGet acc.st.track_id_kf_model_dict id = some t0 →
      (q.map (fun c => (c.1, c.2.1))).getLast? = some lastp →
      ∃ f, alGet acc.st.track_predict_fps id = some f ∧
        alGet r.st.track_id_kf_model_dict id =
          some (kfUpdate ![lastp.1, lastp.2] (kfPredict t0)) ∧
        alGet r.pos id = some lastp ∧
        alGet r.vel id =
          some ((kfUpdate ![lastp.1, lastp.2] (kfPredict t0)).x 1 * f,
            (kfUpdate ![lastp.1, lastp.2] (kfPredict t0)).x 3 * f) := by
  intro ids
  induction ids with
  | nil => intro acc r id q t0 lastp h hnd hmem; simp at hmem
  | cons j rest ih =>
    intro acc r id q t0 lastp h hnd hmem hq hkf hlast
    rw [List.foldlM_cons] at h
    cases hj : processAlive cfg acc j with
    | error e => rw [hj, exceptBind_error] at h; exact absurd h (by simp)
    | ok a =>
      rw [hj, exceptBind_ok] at h
      by_cases hji : j = id
      · subst hji
        rw [processAlive_steady_eq cfg acc j q t0 hq hkf lastp hlast] at hj
        obtain ⟨f, ts, lt, hf, hts, hlt, hp⟩ := finishAlive_ok_cases _ _ _ _ _ _ hj
        have hjr : j ∉ rest := (List.nodup_cons.mp hnd).1
        have hmain := phase2_fold_preserve cfg rest a r j h hjr
        refine ⟨f, hf, ?_, ?_, ?_⟩
        · rw [hmain.1, hp, alGet_alSet_self]
        · rw [hmain.2.2.1, hp, alGet_alSet_self]
        · rw [hmain.2.2.2, hp, alGet_alSet_self]
      · have hmem2 : id ∈ rest := by
          rcases List.mem_cons.mp hmem with hh | hh
          · exact absurd hh.symm hji
          · exact hh
        have hne : id ≠ j := fun hh => hji hh.symm
        have hs := processAlive_ok_shape cfg acc j a hj
        have hkfa : alGet a.st.track_id_kf_model_dict id = some t0 := by
          rcases hs.2.2.2.2.2 with ⟨hk, _⟩ | ⟨t1, w, lp, v, hk, _⟩
          · rw [hk]; exact hkf
          · rw [hk, alGet_alSet_ne _ _ _ _ hne]; exact hkf
        obtain ⟨f, hf, hrest⟩ := ih a r id q t0 lastp h (List.nodup_cons.mp hnd).2 hmem2
          (by rw [hs.1]; exact hq) hkfa hlast
        exact ⟨f, by rw [hs.2.2.2.1] at hf; exact hf, hrest⟩

/-- An alive id with no filter and fewer than `input_time` buffered positions
is skipped by the predict loop: no filter is created and no output entry or
velocity-history entry is written for it. -/
theorem phase2_fold_at_skip (cfg : Config) :
    ∀ (ids : List TrackId) (acc r : Predict2) (id : TrackId)
      (q : List (ℚ × ℚ × ℚ)),
      ids.foldlM (processAlive cfg) acc = .ok r → id ∈ ids →
      alGet acc.st.track_input_queue_dict id = some q →
      alGet acc.st.track_id_kf_model_dict id = none →
      q.length < cfg.input_time →
      alGet r.st.track_id_kf_model_dict id = none ∧
      alGet r.st.track_vel_hist_dict id = alGet acc.st.track_vel_hist_dict id ∧
      alGet r.pos id = alGet acc.pos id ∧
      alGet r.vel id = alGet acc.vel id := by
  intro ids
  induction ids with
  | nil => intro acc r id q h hmem; simp at hmem
  | cons j rest ih =>
    intro acc r id q h hmem hq hkf hlen
    rw [List.foldlM_cons] at h
    cases hj : processAlive cfg acc j with
    | error e => rw [hj, exceptBind_error] at h; exact absurd h (by simp)
    | ok a =>
      rw [hj, exceptBind_ok] at h
      by_cases hji : j = id
      · subst hji
        rw [processAlive_skip cfg acc j q hq hkf hlen] at hj
        injection hj with hj
        rw [hj.symm] at h
        by_cases hjr : j ∈ rest
        · exact ih acc r j q h hjr hq hkf hlen
        · have hmain := phase2_fold_preserve cfg rest acc r j h hjr
          exact ⟨hmain.1.trans hkf, hmain.2.1, hmain.2.2.1, hmain.2.2.2⟩
      · have hmem2 : id ∈ rest := by
          rcases List.mem_cons.mp hmem with hh | hh
          · exact absurd hh.symm hji
          · exact hh
        have hne : id ≠ j := fun hh => hji hh.symm
        have hs := processAlive_ok_shape cfg acc j a hj
        have hkfa : alGet a.st.track_id_kf_model_dict id = none := by
          rcases hs.2.2.2.2.2 with ⟨hk, _⟩ | ⟨t1, w, lp, v, hk, _⟩
          · rw [hk]; exact hkf
          · rw [hk, alGet_alSet_ne _ _ _ _ hne]; exact hkf
        have hrest := ih a r id q h hmem2 (by rw [hs.1]; exact hq) hkfa hlen
        rcases hs.2.2.2.2.2 with ⟨hk, hvh, hpos, hvel⟩ | ⟨t1, w, lp, v, hk, hvh, hpos, hvel⟩
        · exact ⟨hrest.1, hrest.2.1.trans (by rw [hvh]),
            hrest.2.2.1.trans (by rw [hpos]), hrest.2.2.2.trans (by rw [hvel])⟩
        · exact ⟨hrest.1, hrest.2.1.trans (by rw [hvh, alGet_alSet_ne _ _ _ _ hne]),
            hrest.2.2.1.trans (by rw [hpos, alGet_alSet_ne _ _ _ _ hne]),
            hrest.2.2.2.trans (by rw [hvel, alGet_alSet_ne _ _ _ _ hne])⟩

/-! ### Phase-3 lemmas -/

/-- Everything a successful cleanup-loop iteration can have done: the velocity
history is untouched; the id is appended to the stop list exactly when its
absence exceeds the stop-publish threshold; and either the absence is within
the removal threshold and only the missing time of this id is (re)written, or
the absence exceeds it and every per-track dict except the velocity history
is erased at this id. -/
theorem processMissing_ok_cases (cfg : Config) (now : Time) (acc : Cleanup3)
    (id : TrackId) (c : Cleanup3) (h : processMissing cfg now acc id = .ok c) :
    c.st.track_vel_hist_dict = acc.st.track_vel_hist_dict ∧
    c.stopList =
      (if now - (alGet acc.st.track_id_missing_time_dict id).getD now >
          cfg.duration_inactive_to_stop_publish
        then acc.stopList ++ [id] else acc.stopList) ∧
    ((¬ now - (alGet acc.st.track_id_missing_time_dict id).getD now >
        cfg.duration_inactive_to_remove ∧
      c.st.track_input_queue_dict = acc.st.track_input_queue_dict ∧
      c.st.track_color_dict = acc.st.track_color_dict ∧
      c.st.track_id_kf_model_dict = acc.st.track_id_kf_model_dict ∧
      c.st.track_predict_fps = acc.st.track_predict_fps ∧
      c.st.track_prev_predict_timestamp = acc.st.track_prev_predict_timestamp ∧
      c.st.track_id_missing_time_dict =
        alSet acc.st.track_id_missing_time_dict id
          ((alGet acc.st.track_id_missing_time_dict id).getD now)) ∨
     (now - (alGet acc.st.track_id_missing_time_dict id).getD now >
        cfg.duration_inactive_to_remove ∧
      c.st.track_input_queue_dict = alErase acc.st.track_input_queue_dict id ∧
      c.st.track_color_dict = alErase acc.st.track_color_dict id ∧
      c.st.track_id_kf_model_dict = alErase acc.st.track_id_kf_model_dict id ∧
      c.st.track_predict_fps = alErase acc.st.track_predict_fps id ∧
      c.st.track_prev_predict_timestamp = alErase acc.st.track_prev_predict_timestamp id ∧
      c.st.track_id_missing_time_dict =
        alErase (alSet acc.st.track_id_missing_time_dict id
          ((alGet acc.st.track_id_missing_time_dict id).getD now)) id)) := by
  simp only [processMissing] at h
  split at h
  · split at h
    · injection h with h
      rw [h.symm]
      exact ⟨rfl, rfl, Or.inr ⟨by assumption, rfl, rfl, rfl, rfl, rfl, rfl⟩⟩
    · exact absurd h (by simp)
  · injection h with h
    rw [h.symm]
    exact ⟨rfl, rfl, Or.inl ⟨by assumption, rfl, rfl, rfl, rfl, rfl, rfl⟩⟩

/-- The cleanup loop never touches the velocity-history dict. -/
theorem phase3_fold_velhist (cfg : Config) (now : Time) :
    ∀ (ids : List TrackId) (acc r : Cleanup3),
      ids.foldlM (processMissing cfg now) acc = .ok r →
      r.st.track_vel_hist_dict = acc.st.track_vel_hist_dict := by
  intro ids
  induction ids with
  | nil =>
    intro acc r h
    rw [List.foldlM_nil] at h
    injection h with h
    rw [h]
  | cons j rest ih =>
    intro acc r h
    rw [List.foldlM_cons] at h
    cases hj : processMissing cfg now acc j with
    | error e => rw [hj, exceptBind_error] at h; exact absurd h (by simp)
    | ok a =>
      rw [hj, exceptBind_ok] at h
      exact (ih a r h).trans (processMissing_ok_cases cfg now acc j a hj).1

/-- The cleanup loop leaves every per-track entry of an id it does not visit
untouched and never adds such an id to the stop list. -/
theorem phase3_fold_preserve (cfg : Config) (now : Time) :
    ∀ (ids : List TrackId) (acc r : Cleanup3) (id : TrackId),
      ids.foldlM (processMissing cfg now) acc = .ok r →
      id ∉ ids →
      alGet r.st.track_input_queue_dict id = alGet acc.st.track_input_queue_dict id ∧
      alGet r.st.track_color_dict id = alGet acc.st.track_color_dict id ∧
      alGet r.st.track_id_kf_model_dict id = alGet acc.st.track_id_kf_model_dict id ∧
      alGet r.st.track_predict_fps id = alGet acc.st.track_predict_fps id ∧
      alGet r.st.track_prev_predict_timestamp id =
        alGet acc.st.track_prev_predict_timestamp id ∧
      alGet r.st.track_id_missing_time_dict id =
        alGet acc.st.track_id_missing_time_dict id ∧
      (id ∈ r.stopList ↔ id ∈ acc.stopList) := by
  intro ids
  induction ids with
  | nil =>
    intro acc r id h hid
    rw [List.foldlM_nil] at h
    injection h with h
    rw [h]
    exact ⟨rfl, rfl, rfl, rfl, rfl, rfl, Iff.rfl⟩
  | cons j rest ih =>
    intro acc r id h hid
    rw [List.foldlM_cons] at h
    cases hj : processMissing cfg now acc j with
    | error e => rw [hj, exceptBind_error] at h; exact absurd h (by simp)
    | ok a =>
      rw [hj, exceptBind_ok] at h
      have hne : id ≠ j := fun hh => hid (by simp [hh])
      have hrest : id ∉ rest := fun hh => hid (by simp [hh])
      have ha := ih a r id h hrest
      obtain ⟨hvh, hstop, hcase⟩ := processMissing_ok_cases cfg now acc j a hj
      have hstopm : id ∈ a.stopList ↔ id ∈ acc.stopList := by
        rw [hstop]
        split
        · simp [hne]
        · exact Iff.rfl
      rcases hcase with ⟨hlt, hq, hc, hk, hf, hp, hm⟩ | ⟨hgt, hq, hc, hk, hf, hp, hm⟩
      · exact ⟨ha.1.trans (by rw [hq]), ha.2.1.trans (by rw [hc]),
          ha.2.2.1.trans (by rw [hk]), ha.2.2.2.1.trans (by rw [hf]),
          ha.2.2.2.2.1.trans (by rw [hp]),
          ha.2.2.2.2.2.1.trans (by rw [hm, alGet_alSet_ne _ _ _ _ hne]),
          ha.2.2.2.2.2.2.trans hstopm⟩
      · exact ⟨ha.1.trans (by rw [hq, alGet_alErase_ne _ _ _ hne]),
          ha.2.1.trans (by rw [hc, alGet_alErase_ne _ _ _ hne]),
          ha.2.2.1.trans (by rw [hk, alGet_alErase_ne _ _ _ hne]),
          ha.2.2.2.1.trans (by rw [hf, alGet_alErase_ne _ _ _ hne]),
          ha.2.2.2.2.1.trans (by rw [hp, alGet_alErase_ne _ _ _ hne]),
          ha.2.2.2.2.2.1.trans
            (by rw [hm, alGet_alErase_ne _ _ _ hne, alGet_alSet_ne _ _ _ _ hne]),
          ha.2.2.2.2.2.2.trans hstopm⟩

/-- A missing id whose absence is within the removal threshold keeps all its
per-track state, has its missing time pinned to the first-absence stamp, and
lands on the stop list exactly when its absence exceeds the stop-publish
threshold. -/
theorem phase3_fold_at_keep (cfg : Config) (now : Time) :
    ∀ (ids : List TrackId) (acc r : Cleanup3) (id : TrackId),
      ids.foldlM (processMissing cfg now) acc = .ok r →
      id ∈ ids →
      ¬ now - (alGet acc.st.track_id_missing_time_dict id).getD now >
        cfg.duration_inactive_to_remove →
      alGet r.st.track_input_queue_dict id = alGet acc.st.track_input_queue_dict id ∧
      alGet r.st.track_color_dict id = alGet acc.st.track_color_dict id ∧
      alGet r.st.track_id_kf_model_dict id = alGet acc.st.track_id_kf_model_dict id ∧
      alGet r.st.track_predict_fps id = alGet acc.st.track_predict_fps id ∧
      alGet r.st.track_prev_predict_timestamp id =
        alGet acc.st.track_prev_predict_timestamp id ∧
      alGet r.st.track_id_missing_time_dict id =
        some ((alGet acc.st.track_id_missing_time_dict id).getD now) ∧
      (id ∈ r.stopList ↔ id ∈ acc.stopList ∨
        now - (alGet acc.st.track_id_missing_time_dict id).getD now >
          cfg.duration_inactive_to_stop_publish) := by
  intro ids
  induction ids with
  | nil => intro acc r id h hmem; simp at hmem
  | cons j rest ih =>
    intro acc r id h hmem hkeep
    rw [List.foldlM_cons] at h
    cases hj : processMissing cfg now acc j with
    | error e => rw [hj, exceptBind_error] at h; exact absurd h (by simp)
    | ok a =>
      rw [hj, exceptBind_ok] at h
      obtain ⟨hvh, hstop, hcase⟩ := processMissing_ok_cases cfg now acc j a hj
      by_cases hji : j = id
      · subst hji
        rcases hcase with ⟨hlt, hq, hc, hk, hf, hp, hm⟩ | ⟨hgt, _⟩
        · have hma : alGet a.st.track_id_missing_time_dict j =
              some ((alGet acc.st.track_id_missing_time_dict j).getD now) := by
            rw [hm, alGet_alSet_self]
          have hstopa : j ∈ a.stopList ↔ j ∈ acc.stopList ∨
              now - (alGet acc.st.track_id_missing_time_dict j).getD now >
                cfg.duration_inactive_to_stop_publish := by
            rw [hstop]
            split
            · simp
              exact Or.inr (by assumption)
            · simp
              intro hc2
              exact absurd hc2 (by assumption)
          by_cases hjr : j ∈ rest
          · have hmain := ih a r j h hjr (by rw [hma]; simpa using hkeep)
            rw [hma] at hmain
            simp only [Option.getD_some] at hmain
            refine ⟨hmain.1.trans (by rw [hq]), hmain.2.1.trans (by rw [hc]),
              hmain.2.2.1.trans (by rw [hk]), hmain.2.2.2.1.trans (by rw [hf]),
              hmain.2.2.2.2.1.trans (by rw [hp]), hmain.2.2.2.2.2.1, ?_⟩
            rw [hmain.2.2.2.2.2.2]
            constructor
            · intro hor
              rcases hor with hor | hor
              · exact hstopa.mp hor
              · exact Or.inr hor
            · intro hor
              rcases hor with hor | hor
              · exact Or.inl (hstopa.mpr (Or.inl hor))
              · exact Or.inl (hstopa.mpr (Or.inr hor))
          · have hmain := phase3_fold_preserve cfg now rest a r j h hjr
            refine ⟨hmain.1.trans (by rw [hq]), hmain.2.1.trans (by rw [hc]),
              hmain.2.2.1.trans (by rw [hk]), hmain.2.2.2.1.trans (by rw [hf]),
              hmain.2.2.2.2.1.trans (by rw [hp]), hmain.2.2.2.2.2.1.trans hma, ?_⟩
            rw [hmain.2.2.2.2.2.2]
            exact hstopa
        · exact absurd hgt hkeep
      · have hmem2 : id ∈ rest := by
          rcases List.mem_cons.mp hmem with hh | hh
          · exact absurd hh.symm hji
          · exact hh
        have hne : id ≠ j := fun hh => hji hh.symm
        have hstopa : id ∈ a.stopList ↔ id ∈ acc.stopList := by
          rw [hstop]
          split
          · simp [hne]
          · exact Iff.rfl
        have hpres : alGet a.st.track_id_missing_time_dict id =
            alGet acc.st.track_id_missing_time_dict id := by
          rcases hcase with ⟨_, _, _, _, _, _, hm⟩ | ⟨_, _, _, _, _, _, hm⟩
          · rw [hm, alGet_alSet_ne _ _ _ _ hne]
          · rw [hm, alGet_alErase_ne _ _ _ hne, alGet_alSet_ne _ _ _ _ hne]
        have hmain := ih a r id h hmem2 (by rw [hpres]; exact hkeep)
        rw [hpres] at hmain
        rcases hcase with ⟨_, hq, hc, hk, hf, hp, _⟩ | ⟨_, hq, hc, hk, hf, hp, _⟩
        · exact ⟨hmain.1.trans (by rw [hq]), hmain.2.1.trans (by rw [hc]),
            hmain.2.2.1.trans (by rw [hk]), hmain.2.2.2.1.trans (by rw [hf]),
            hmain.2.2.2.2.1.trans (by rw [hp]), hmain.2.2.2.2.2.1,
            hmain.2.2.2.2.2.2.trans (by rw [or_congr_left hstopa])⟩
        · exact ⟨hmain.1.trans (by rw [hq, alGet_alErase_ne _ _ _ hne]),
            hmain.2.1.trans (by rw [hc, alGet_alErase_ne _ _ _ hne]),
            hmain.2.2.1.trans (by rw [hk, alGet_alErase_ne _ _ _ hne]),
            hmain.2.2.2.1.trans (by rw [hf, alGet_alErase_ne _ _ _ hne]),
            hmain.2.2.2.2.1.trans (by rw [hp, alGet_alErase_ne _ _ _ hne]),
            hmain.2.2.2.2.2.1,
            hmain.2.2.2.2.2.2.trans (by rw [or_congr_left hstopa])⟩

/-- A missing id whose absence exceeds the removal threshold, visited once,
loses every per-track entry except its velocity history. -/
theorem phase3_fold_at_purge (cfg : Config) (now : Time) :
    ∀ (ids : List TrackId) (acc r : Cleanup3) (id : TrackId),
      ids.foldlM (processMissing cfg now) acc = .ok r →
      id ∈ ids → ids.Nodup →
      now - (alGet acc.st.track_id_missing_time_dict id).getD now >
        cfg.duration_inactive_to_remove →
      alGet r.st.track_input_queue_dict id = none ∧
      alGet r.st.track_color_dict id = none ∧
      alGet r.st.track_id_kf_model_dict id = none ∧
      alGet r.st.track_predict_fps id = none ∧
      alGet r.st.track_prev_predict_timestamp id = none ∧
      alGet r.st.track_id_missing_time_dict id = none := by
  intro ids
  induction ids with
  | nil => intro acc r id h hmem; simp at hmem
  | cons j rest ih =>
    intro acc r id h hmem hnd hgt
    rw [List.foldlM_cons] at h
    cases hj : processMissing cfg now acc j with
    | error e => rw [hj, exceptBind_error] at h; exact absurd h (by simp)
    | ok a =>
      rw [hj, exceptBind_ok] at h
      obtain ⟨hvh, hstop, hcase⟩ := processMissing_ok_cases cfg now acc j a hj
      by_cases hji : j = id
      · subst hji
        rcases hcase with ⟨hlt, _⟩ | ⟨_, hq, hc, hk, hf, hp, hm⟩
        · exact absurd hgt hlt
        · have hjr : j ∉ rest := (List.nodup_cons.mp hnd).1
          have hmain := phase3_fold_preserve cfg now rest a r j h hjr
          exact ⟨hmain.1.trans (by rw [hq, alGet_alErase_self]),
            hmain.2.1.trans (by rw [hc, alGet_alErase_self]),
            hmain.2.2.1.trans (by rw [hk, alGet_alErase_self]),
            hmain.2.2.2.1.trans (by rw [hf, alGet_alErase_self]),
            hmain.2.2.2.2.1.trans (by rw [hp, alGet_alErase_self]),
            hmain.2.2.2.2.2.1.trans (by rw [hm, alGet_alErase_self])⟩
      · have hmem2 : id ∈ rest := by
          rcases List.mem_cons.mp hmem with hh | hh
          · exact absurd hh.symm hji
          · exact hh
        have hne : id ≠ j := fun hh => hji hh.symm
        have hpres : alGet a.st.track_id_missing_time_dict id =
            alGet acc.st.track_id_missing_time_dict id := by
          rcases hcase with ⟨_, _, _, _, _, _, hm⟩ | ⟨_, _, _, _, _, _, hm⟩
          · rw [hm, alGet_alSet_ne _ _ _ _ hne]
          · rw [hm, alGet_alErase_ne _ _ _ hne, alGet_alSet_ne _ _ _ _ hne]
        exact ih a r id h hmem2 (List.nodup_cons.mp hnd).2 (by rw [hpres]; exact hgt)

/-! ### Phase-4 lemmas -/

theorem processPubMissing_ok_shape (acc : Predict2) (id : TrackId) (p : Predict2)
    (h : processPubMissing acc id = .ok p) :
    p.st = acc.st ∧
    ((p.pos = acc.pos ∧ p.vel = acc.vel) ∨
      ∃ lp v, p.pos = alSet acc.pos id lp ∧ p.vel = alSet acc.vel id v) := by
  simp only [processPubMissing] at h
  split at h
  · injection h with h
    rw [h.symm]
    exact ⟨rfl, Or.inl ⟨rfl, rfl⟩⟩
  · split at h
    · exact absurd h (by simp)
    · split at h
      · exact absurd h (by simp)
      · split at h
        · exact absurd h (by simp)
        · injection h with h
          rw [h.symm]
          exact ⟨rfl, Or.inr ⟨_, _, rfl, rfl⟩⟩

theorem processPubMissing_none (acc : Predict2) (id : TrackId)
    (hkf : alGet acc.st.track_id_kf_model_dict id = none) :
    processPubMissing acc id = .ok acc := by
  simp only [processPubMissing, hkf]

theorem processPubMissing_some_eq (acc : Predict2) (id : TrackId) (t : KalmanFilter)
    (f : ℚ) (q : List (ℚ × ℚ × ℚ)) (c : ℚ × ℚ × ℚ)
    (hkf : alGet acc.st.track_id_kf_model_dict id = some t)
    (hf : alGet acc.st.track_predict_fps id = some f)
    (hq : alGet acc.st.track_input_queue_dict id = some q)
    (hc : q.getLast? = some c) :
    processPubMissing acc id =
      .ok { acc with
            pos := alSet acc.pos id (c.1, c.2.1)
            vel := alSet acc.vel id (t.x 1 * f, t.x 3 * f) } := by
  simp only [processPubMissing, hkf, hf, hq, hc]

/-- The dead-reckoning loop never changes the registry state. -/
theorem phase4_fold_st :
    ∀ (ids : List TrackId) (acc r : Predict2),
      ids.foldlM processPubMissing acc = .ok r → r.st = acc.st := by
  intro ids
  induction ids with
  | nil =>
    intro acc r h
    rw [List.foldlM_nil] at h
    injection h with h
    rw [h]
  | cons j rest ih =>
    intro acc r h
    rw [List.foldlM_cons] at h
    cases hj : processPubMissing acc j with
    | error e => rw [hj, exceptBind_error] at h; exact absurd h (by simp)
    | ok a =>
      rw [hj, exceptBind_ok] at h
      exact (ih a r h).trans (processPubMissing_ok_shape acc j a hj).1

/-- The dead-reckoning loop leaves the output entries of unvisited ids
untouched. -/
theorem phase4_fold_preserve :
    ∀ (ids : List TrackId) (acc r : Predict2) (id : TrackId),
      ids.foldlM processPubMissing acc = .ok r → id ∉ ids →
      alGet r.pos id = alGet acc.pos id ∧ alGet r.vel id = alGet acc.vel id := by
  intro ids
  induction ids with
  | nil =>
    intro acc r id h hid
    rw [List.foldlM_nil] at h
    injection h with h
    rw [h]
    exact ⟨rfl, rfl⟩
  | cons j rest ih =>
    intro acc r id h hid
    rw [List.foldlM_cons] at h
    cases hj : processPubMissing acc j with
    | error e => rw [hj, exceptBind_error] at h; exact absurd h (by simp)
    | ok a =>
      rw [hj, exceptBind_ok] at h
      have hne : id ≠ j := fun hh => hid (by simp [hh])
      have ha := ih a r id h (fun hh => hid (by simp [hh]))
      rcases (processPubMissing_ok_shape acc j a hj).2 with ⟨hpos, hvel⟩ | ⟨lp, v, hpos, hvel⟩
      · exact ⟨ha.1.trans (by rw [hpos]), ha.2.trans (by rw [hvel])⟩
      · exact ⟨ha.1.trans (by rw [hpos, alGet_alSet_ne _ _ _ _ hne]),
          ha.2.trans (by rw [hvel, alGet_alSet_ne _ _ _ _ hne])⟩

/-- A visited id owning a filter ends with the dead-reckoned output: last raw
queued position and last filter velocity scaled by the recorded fps. -/
theorem phase4_fold_at :
    ∀ (ids : List TrackId) (acc r : Predict2) (id : TrackId) (t : KalmanFilter)
      (f : ℚ) (q : List (ℚ × ℚ × ℚ)) (c : ℚ × ℚ × ℚ),
      ids.foldlM processPubMissing acc = .ok r → id ∈ ids →
      alGet acc.st.track_id_kf_model_dict id = some t →
      alGet acc.st.track_predict_fps id = some f →
      alGet acc.st.track_input_queue_dict id = some q →
      q.getLast? = some c →
      alGet r.pos id = some (c.1, c.2.1) ∧
      alGet r.vel id = some (t.x 1 * f, t.x 3 * f) := by
  intro ids
  induction ids with
  | nil => intro acc r id t f q c h hmem; simp at hmem
  | cons j rest ih =>
    intro acc r id t f q c h hmem hkf hf hq hc
    rw [List.foldlM_cons] at h
    cases hj : processPubMissing acc j with
    | error e => rw [hj, exceptBind_error] at h; exact absurd h (by simp)
    | ok a =>
      rw [hj, exceptBind_ok] at h
      have hst := (processPubMissing_ok_shape acc j a hj).1
      by_cases hji : j = id
      · subst hji
        rw [processPubMissing_some_eq acc j t f q c hkf hf hq hc] at hj
        injection hj with hj
        by_cases hjr : j ∈ rest
        · refine ih a r j t f q c h hjr ?_ ?_ ?_ hc
          · rw [hst, hkf]
          · rw [hst, hf]
          · rw [hst, hq]
        · have hmain := phase4_fold_preserve rest a r j h hjr
          rw [hj.symm] at hmain
          exact ⟨hmain.1.trans (by rw [alGet_alSet_self]),
            hmain.2.trans (by rw [alGet_alSet_self])⟩
      · have hmem2 : id ∈ rest := by
          rcases List.mem_cons.mp hmem with hh | hh
          · exact absurd hh.symm hji
          · exact hh
        refine ih a r id t f q c h hmem2 ?_ ?_ ?_ hc
        · rw [hst, hkf]
        · rw [hst, hf]
        · rw [hst, hq]

/-! ### Cycle decomposition -/

/-- A successful cycle decomposes into its four loop stages. -/
theorem tracked_boxes_cb_ok_elim (cfg : Config) (s : TState) (msg : Batch)
    (r : TState × CycleOutput) (h : tracked_boxes_cb cfg s msg = .ok r) :
    ∃ i1 p2 c3 p4,
      msg.tracked_boxes.foldlM (processBox cfg msg.stamp) ⟨s, []⟩ = .ok i1 ∧
      i1.alive.foldlM (processAlive cfg) ⟨i1.st, [], []⟩ = .ok p2 ∧
      ((alKeys p2.st.track_input_queue_dict).filter
          (fun id => decide (id ∉ i1.alive))).foldlM
        (processMissing cfg msg.stamp) ⟨p2.st, []⟩ = .ok c3 ∧
      (((alKeys p2.st.track_input_queue_dict).filter
          (fun id => decide (id ∉ i1.alive))).filter
            (fun id => decide (id ∉ c3.stopList))).foldlM
        processPubMissing ⟨c3.st, p2.pos, p2.vel⟩ = .ok p4 ∧
      r = (p4.st,
        { alive_track_id_list := i1.alive
          track_pos_dict := p4.pos
          track_vel_dict := p4.vel
          track_vel_hist_dict := p4.st.track_vel_hist_dict }) := by
  simp only [tracked_boxes_cb, bind, Except.bind] at h
  cases h1 : msg.tracked_boxes.foldlM (processBox cfg msg.stamp) ⟨s, []⟩ with
  | error e => rw [h1] at h; exact absurd h (by simp)
  | ok i1 =>
    rw [h1] at h
    simp only at h
    cases h2 : i1.alive.foldlM (processAlive cfg) ⟨i1.st, [], []⟩ with
    | error e => rw [h2] at h; exact absurd h (by simp)
    | ok p2 =>
      rw [h2] at h
      simp only at h
      cases h3 : ((alKeys p2.st.track_input_queue_dict).filter
          (fun id => decide (id ∉ i1.alive))).foldlM
            (processMissing cfg msg.stamp) ⟨p2.st, []⟩ with
      | error e => rw [h3] at h; exact absurd h (by simp)
      | ok c3 =>
        rw [h3] at h
        simp only at h
        cases h4 : (((alKeys p2.st.track_input_queue_dict).filter
            (fun id => decide (id ∉ i1.alive))).filter
              (fun id => decide (id ∉ c3.stopList))).foldlM
            processPubMissing ⟨c3.st, p2.pos, p2.vel⟩ with
        | error e => rw [h4] at h; exact absurd h (by simp)
        | ok p4 =>
          rw [h4] at h
          simp only [pure] at h
          injection h with h
          exact ⟨i1, p2, c3, p4, rfl, h2, h3, h4, h.symm⟩

theorem alGet_alSet_isSome_mono {α : Type} (m : List (TrackId × α)) (k : TrackId)
    (v : α) (id : TrackId) (h : (alGet m id).isSome) :
    (alGet (alSet m k v) id).isSome := by
  by_cases hk : id = k
  · subst hk
    rw [alGet_alSet_self]
    rfl
  · rw [alGet_alSet_ne _ _ _ _ hk]
    exact h

/-- A successful dead-reckoning iteration on an id that owns a filter found
an fps entry and a nonempty queue, and wrote the position and velocity
entries for that id. -/
theorem processPubMissing_some_ok_cases (acc : Predict2) (id : TrackId)
    (t : KalmanFilter) (p : Predict2)
    (hkf : alGet acc.st.track_id_kf_model_dict id = some t)
    (h : processPubMissing acc id = .ok p) :
    ∃ f q c, alGet acc.st.track_predict_fps id = some f ∧
      alGet acc.st.track_input_queue_dict id = some q ∧ q.getLast? = some c ∧
      p = { acc with
            pos := alSet acc.pos id (c.1, c.2.1)
            vel := alSet acc.vel id (t.x 1 * f, t.x 3 * f) } := by
  simp only [processPubMissing, hkf] at h
  split at h
  case h_1 => exact absurd h (by simp)
  case h_2 f hf =>
    split at h
    case h_1 => exact absurd h (by simp)
    case h_2 q hq =>
      split at h
      case h_1 => exact absurd h (by simp)
      case h_2 c hc =>
        injection h with h
        exact ⟨f, q, c, hf, hq, hc, h.symm⟩

/-- The dead-reckoning loop never erases an output entry. -/
theorem phase4_fold_isSome_mono :
    ∀ (ids : List TrackId) (acc r : Predict2) (id : TrackId),
      ids.foldlM processPubMissing acc = .ok r →
      ((alGet acc.pos id).isSome → (alGet r.pos id).isSome) ∧
      ((alGet acc.vel id).isSome → (alGet r.vel id).isSome) := by
  intro ids
  induction ids with
  | nil =>
    intro acc r id h
    rw [List.foldlM_nil] at h
    injection h with h
    rw [h]
    exact ⟨fun hh => hh, fun hh => hh⟩
  | cons j rest ih =>
    intro acc r id h
    rw [List.foldlM_cons] at h
    cases hj : processPubMissing acc j with
    | error e => rw [hj, exceptBind_error] at h; exact absurd h (by simp)
    | ok a =>
      rw [hj, exceptBind_ok] at h
      have ha := ih a r id h
      rcases (processPubMissing_ok_shape acc j a hj).2 with ⟨hpos, hvel⟩ |
        ⟨lp, v, hpos, hvel⟩
      · exact ⟨fun hh => ha.1 (by rw [hpos]; exact hh),
          fun hh => ha.2 (by rw [hvel]; exact hh)⟩
      · exact ⟨fun hh => ha.1 (by rw [hpos]; exact alGet_alSet_isSome_mono _ _ _ _ hh),
          fun hh => ha.2 (by rw [hvel]; exact alGet_alSet_isSome_mono _ _ _ _ hh)⟩

/-- A visited id owning a filter ends the dead-reckoning loop with a position
and a velocity entry. -/
theorem phase4_fold_at_isSome :
    ∀ (ids : List TrackId) (acc r : Predict2) (id : TrackId) (t : KalmanFilter),
      ids.foldlM processPubMissing acc = .ok r → id ∈ ids →
      alGet acc.st.track_id_kf_model_dict id = some t →
      (alGet r.pos id).isSome ∧ (alGet r.vel id).isSome := by
  intro ids
  induction ids with
  | nil => intro acc r id t h hmem; simp at hmem
  | cons j rest ih =>
    intro acc r id t h hmem hkf
    rw [List.foldlM_cons] at h
    cases hj : processPubMissing acc j with
    | error e => rw [hj, exceptBind_error] at h; exact absurd h (by simp)
    | ok a =>
      rw [hj, exceptBind_ok] at h
      have hst := (processPubMissing_ok_shape acc j a hj).1
      by_cases hji : j = id
      · subst hji
        obtain ⟨f, q, c, hf, hq, hc, hp⟩ := processPubMissing_some_ok_cases acc j t a hkf hj
        have hmono := phase4_fold_isSome_mono rest a r j h
        constructor
        · exact hmono.1 (by rw [hp]; simp [alGet_alSet_self])
        · exact hmono.2 (by rw [hp]; simp [alGet_alSet_self])
      · have hmem2 : id ∈ rest := by
          rcases List.mem_cons.mp hmem with hh | hh
          · exact absurd hh.symm hji
          · exact hh
        exact ih a r id t h hmem2 (by rw [hst]; exact hkf)

/-- A known track that is not detected in the current batch passes through
the ingestion and predict loops untouched and lands on the missing list. -/
theorem missing_id_facts (cfg : Config) (s : TState) (msg : Batch)
    (i1 : Ingest1) (p2 : Predict2)
    (h1 : msg.tracked_boxes.foldlM (processBox cfg msg.stamp) ⟨s, []⟩ = .ok i1)
    (h2 : i1.alive.foldlM (processAlive cfg) ⟨i1.st, [], []⟩ = .ok p2)
    (id : TrackId) (hq : (alGet s.track_input_queue_dict id).isSome = true)
    (hnd : id ∉ detectedIds msg) :
    i1.alive = detectedIds msg ∧
    alGet p2.st.track_input_queue_dict id = alGet s.track_input_queue_dict id ∧
    alGet p2.st.track_color_dict id = alGet s.track_color_dict id ∧
    alGet p2.st.track_id_kf_model_dict id = alGet s.track_id_kf_model_dict id ∧
    alGet p2.st.track_predict_fps id = alGet s.track_predict_fps id ∧
    alGet p2.st.track_prev_predict_timestamp id =
      alGet s.track_prev_predict_timestamp id ∧
    alGet p2.st.track_id_missing_time_dict id =
      alGet s.track_id_missing_time_dict id ∧
    alGet p2.st.track_vel_hist_dict id = alGet s.track_vel_hist_dict id ∧
    id ∈ (alKeys p2.st.track_input_queue_dict).filter
      (fun i => decide (i ∉ i1.alive)) ∧
    alGet p2.pos id = none ∧ alGet p2.vel id = none := by
  have halive : i1.alive = detectedIds msg := by
    have := phase1_fold_alive cfg msg.stamp msg.tracked_boxes ⟨s, []⟩ i1 h1
    simpa [detectedIds] using this
  have hnda : id ∉ i1.alive := by rw [halive]; exact hnd
  have hpres1 := phase1_fold_preserve cfg msg.stamp msg.tracked_boxes ⟨s, []⟩ i1 id h1
    (by exact hnd)
  have hkv1 := phase1_fold_kf_velhist cfg msg.stamp msg.tracked_boxes ⟨s, []⟩ i1 h1
  have hshape2 := phase2_fold_shape cfg i1.alive ⟨i1.st, [], []⟩ p2 h2
  have hpres2 := phase2_fold_preserve cfg i1.alive ⟨i1.st, [], []⟩ p2 id h2 hnda
  have hqp : alGet p2.st.track_input_queue_dict id = alGet s.track_input_queue_dict id := by
    rw [hshape2.1]; exact hpres1.1
  refine ⟨halive, hqp, ?_, ?_, ?_, ?_, ?_, ?_, ?_, ?_, ?_⟩
  · rw [hshape2.2.1]; exact hpres1.2.1
  · rw [hpres2.1, hkv1.1]
  · rw [hshape2.2.2.2.1]; exact hpres1.2.2.2.1
  · rw [hshape2.2.2.2.2]; exact hpres1.2.2.2.2
  · rw [hshape2.2.2.1]; exact hpres1.2.2.1
  · rw [hpres2.2.1, hkv1.2]
  · rw [List.mem_filter]
    refine ⟨?_, by simpa using hnda⟩
    apply mem_alKeys_of_alGet_isSome
    rw [hqp]
    exact hq
  · exact hpres2.2.2.1
  · exact hpres2.2.2.2

/-- The result of a cycle that is known to succeed. -/
def runOk (cfg : Config) (s : TState) (msg : Batch) : TState × CycleOutput :=
  match tracked_boxes_cb cfg s msg with
  | .ok r => r
  | .error _ => (initialState, ⟨[], [], [], []⟩)

/-- Whether a cycle succeeds without raising. -/
def cycleOk (cfg : Config) (s : TState) (msg : Batch) : Bool :=
  match tracked_boxes_cb cfg s msg with
  | .ok _ => true
  | .error _ => false

/-- A cycle known to succeed returns exactly `runOk`. -/
theorem runOk_spec (cfg : Config) (s : TState) (msg : Batch)
    (h : cycleOk cfg s msg = true) :
    tracked_boxes_cb cfg s msg = .ok (runOk cfg s msg) := by
  unfold cycleOk at h
  unfold runOk
  cases hc : tracked_boxes_cb cfg s msg with
  | ok r => rfl
  | error e => rw [hc] at h; simp at h

/-! ### Totality machinery -/

theorem mem_of_getLast?_eq {α : Type} (l : List α) (a : α) (h : l.getLast? = some a) :
    a ∈ l := by
  obtain ⟨hne, hx⟩ := List.mem_getLast?_eq_getLast (l := l) (x := a) (by rw [h]; rfl)
  rw [hx]
  exact List.getLast_mem hne

theorem head?_mem {α : Type} (l : List α) (a : α) (h : l.head? = some a) : a ∈ l :=
  List.mem_of_mem_head? (by rw [h]; rfl)

/-- Wellformedness of a registry state: timestamp windows and queues are
nonempty, a filter implies an fps entry and a queue, a queue implies a
timestamp window and a color, and queue keys are unique.  Every reachable
state of the node satisfies this. -/
def Sane (s : TState) : Prop :=
  (∀ id ts, alGet s.track_prev_predict_timestamp id = some ts → ts ≠ []) ∧
  (∀ id, (alGet s.track_id_kf_model_dict id).isSome = true →
    (alGet s.track_predict_fps id).isSome = true) ∧
  (∀ id, (alGet s.track_input_queue_dict id).isSome = true →
    (alGet s.track_prev_predict_timestamp id).isSome = true) ∧
  (∀ id, (alGet s.track_input_queue_dict id).isSome = true →
    (alGet s.track_color_dict id).isSome = true) ∧
  (alKeys s.track_input_queue_dict).Nodup ∧
  (∀ id, (alGet s.track_id_kf_model_dict id).isSome = true →
    (alGet s.track_input_queue_dict id).isSome = true) ∧
  (∀ id q, alGet s.track_input_queue_dict id = some q → q ≠ [])

/-- One tracked box whose stamp is the batch stamp and whose track's recorded
timestamps are all strictly older cannot make `processBox` raise, and it only
touches the timestamp window of its own id. -/
theorem processBox_total_of (cfg : Config) (ms : Time) (acc : Ingest1) (b : Box)
    (ht : isTracked b = true) (hstamp : b.stamp = ms)
    (hts : ∀ ts, alGet acc.st.track_prev_predict_timestamp b.track_id = some ts →
      ts ≠ [] ∧ ∀ t ∈ ts, t < ms) :
    ∃ a, processBox cfg ms acc b = .ok a ∧
      ∀ id, id ≠ b.track_id →
        alGet a.st.track_prev_predict_timestamp id =
          alGet acc.st.track_prev_predict_timestamp id := by
  cases hp : alGet acc.st.track_prev_predict_timestamp b.track_id with
  | none =>
    refine ⟨_, processBox_fresh_eq cfg ms acc b ht hp, ?_⟩
    intro id hne
    simp only
    rw [alGet_alSet_ne _ _ _ _ hne]
  | some ts =>
    obtain ⟨htsne, htslt⟩ := hts ts hp
    cases hl : ts.getLast? with
    | none => exact absurd (List.getLast?_eq_none_iff.mp hl) htsne
    | some l =>
      have hllt : l < ms := htslt l (mem_of_getLast?_eq ts l hl)
      have hnlt : ¬ b.stamp < l := by
        rw [hstamp]
        exact not_lt.mpr (le_of_lt hllt)
      cases hf : ts.head? with
      | none => exact absurd (List.head?_eq_none_iff.mp hf) htsne
      | some f =>
        have hflt : f < ms := htslt f (head?_mem ts f hf)
        have hne0 : ¬ ms - f = 0 := by
          intro hh
          have : ms = f := by linarith [sub_eq_zero.mp hh]
          exact absurd (this ▸ hflt) (lt_irrefl f)
        refine ⟨_, processBox_accept_eq cfg ms acc b ts l f ht hp hl hnlt hf hne0, ?_⟩
        intro id hne
        simp only
        rw [alGet_alSet_ne _ _ _ _ hne]

/-- The ingestion loop cannot raise when the detected ids are distinct, every
tracked box carries the batch stamp, and all previously recorded timestamps
are strictly older than the batch stamp. -/
theorem phase1_total (cfg : Config) (ms : Time) :
    ∀ (boxes : List Box) (acc : Ingest1),
      (detIds boxes).Nodup →
      (∀ b ∈ boxes, isTracked b = true → b.stamp = ms) →
      (∀ b ∈ boxes, isTracked b = true →
        ∀ ts, alGet acc.st.track_prev_predict_timestamp b.track_id = some ts →
          ts ≠ [] ∧ ∀ t ∈ ts, t < ms) →
      ∃ r, boxes.foldlM (processBox cfg ms) acc = .ok r := by
  intro boxes
  induction boxes with
  | nil =>
    intro acc _ _ _
    exact ⟨acc, by rw [List.foldlM_nil]; rfl⟩
  | cons b rest ih =>
    intro acc hnd hstamps hts
    by_cases ht : isTracked b = true
    · have hnd2 : (detIds rest).Nodup := by
        rw [detIds_cons, if_pos ht] at hnd
        exact (List.nodup_cons.mp hnd).2
      have hbnotin : b.track_id ∉ detIds rest := by
        rw [detIds_cons, if_pos ht] at hnd
        exact (List.nodup_cons.mp hnd).1
      obtain ⟨a, ha, hpres⟩ := processBox_total_of cfg ms acc b ht
        (hstamps b (by simp) ht) (hts b (by simp) ht)
      obtain ⟨r, hr⟩ := ih a hnd2 (fun b' hb' ht' => hstamps b' (by simp [hb']) ht')
        (fun b' hb' ht' ts hts' => by
          have hne : b'.track_id ≠ b.track_id := by
            intro hh
            exact hbnotin (hh ▸ mem_detIds_of_mem b' rest hb' ht')
          refine hts b' (by simp [hb']) ht' ts ?_
          rw [hpres b'.track_id hne] at hts'
          exact hts')
      exact ⟨r, by rw [List.foldlM_cons, ha, exceptBind_ok, hr]⟩
    · have heq := processBox_untracked cfg ms acc b ht
      have hnd2 : (detIds rest).Nodup := by rwa [detIds_cons, if_neg ht] at hnd
      obtain ⟨r, hr⟩ := ih acc hnd2 (fun b' hb' ht' => hstamps b' (by simp [hb']) ht')
        (fun b' hb' ht' => hts b' (by simp [hb']) ht')
      exact ⟨r, by rw [List.foldlM_cons, heq, exceptBind_ok, hr]⟩

/-- The first loop never deletes an fps entry. -/
theorem phase1_fold_fps_isSome_mono (cfg : Config) (ms : Time) :
    ∀ (boxes : List Box) (acc r : Ingest1) (id : TrackId),
      boxes.foldlM (processBox cfg ms) acc = .ok r →
      (alGet acc.st.track_predict_fps id).isSome = true →
      (alGet r.st.track_predict_fps id).isSome = true := by
  intro boxes
  induction boxes with
  | nil =>
    intro acc r id h hsome
    rw [List.foldlM_nil] at h
    injection h with h
    exact h ▸ hsome
  | cons b rest ih =>
    intro acc r id h hsome
    rw [List.foldlM_cons] at h
    cases hb : processBox cfg ms acc b with
    | error e => rw [hb, exceptBind_error] at h; exact absurd h (by simp)
    | ok a =>
      rw [hb, exceptBind_ok] at h
      rcases processBox_ok_cases cfg ms acc b a hb with ⟨_, he⟩ | ⟨_, _, _, _, _, _, _, hf, _⟩
      · rw [he] at h
        exact ih acc r id h hsome
      · refine ih a r id h ?_
        rcases hf with hf | ⟨v, hf⟩
        · rw [hf]; exact hsome
        · rw [hf]; exact alGet_alSet_isSome_mono _ _ _ _ hsome

/-- After the first loop, a detected id (appearing once, with good stamps)
has a nonempty timestamp window, and an fps entry whenever it had any
recorded timestamp before the batch. -/
theorem phase1_fold_fps_prevTs_at (cfg : Config) (ms : Time) :
    ∀ (boxes : List Box) (acc r : Ingest1) (b : Box),
      boxes.foldlM (processBox cfg ms) acc = .ok r →
      b ∈ boxes → isTracked b = true → (detIds boxes).Nodup →
      (∀ b' ∈ boxes, isTracked b' = true → b'.stamp = ms) →
      (∀ ts, alGet acc.st.track_prev_predict_timestamp b.track_id = some ts →
        ts ≠ [] ∧ ∀ t ∈ ts, t < ms) →
      1 ≤ cfg.fps_est_time →
      (∃ ts', alGet r.st.track_prev_predict_timestamp b.track_id = some ts' ∧ ts' ≠ []) ∧
      ((alGet acc.st.track_prev_predict_timestamp b.track_id).isSome = true →
        (alGet r.st.track_predict_fps b.track_id).isSome = true) := by
  intro boxes
  induction boxes with
  | nil => intro acc r b h hb; simp at hb
  | cons c rest ih =>
    intro acc r b h hb ht hnd hstamps hts hfe
    rw [List.foldlM_cons] at h
    cases hc : processBox cfg ms acc c with
    | error e => rw [hc, exceptBind_error] at h; exact absurd h (by simp)
    | ok a =>
      rw [hc, exceptBind_ok] at h
      rcases List.mem_cons.mp hb with hbc | hbr
      · subst hbc
        have hbnotin : b.track_id ∉ detIds rest := by
          rw [detIds_cons, if_pos ht] at hnd
          exact (List.nodup_cons.mp hnd).1
        have hpres := (phase1_fold_preserve cfg ms rest a r b.track_id h hbnotin).2.2.2.2
        cases hp : alGet acc.st.track_prev_predict_timestamp b.track_id with
        | none =>
          have heq := processBox_fresh_eq cfg ms acc b ht hp
          rw [heq] at hc
          injection hc with hc
          constructor
          · refine ⟨dequeAppend cfg.fps_est_time [] ms, ?_, dequeAppend_ne_nil _ _ _ hfe⟩
            rw [hpres, hc.symm]
            simp only
            rw [alGet_alSet_self]
          · intro hsome
            simp at hsome
        | some ts =>
          obtain ⟨htsne, htslt⟩ := hts ts hp
          cases hl : ts.getLast? with
          | none => exact absurd (List.getLast?_eq_none_iff.mp hl) htsne
          | some l =>
            have hnlt : ¬ b.stamp < l := by
              rw [hstamps b (by simp) ht]
              exact not_lt.mpr (le_of_lt (htslt l (mem_of_getLast?_eq ts l hl)))
            cases hf : ts.head? with
            | none => exact absurd (List.head?_eq_none_iff.mp hf) htsne
            | some f =>
              have hne0 : ¬ ms - f = 0 := by
                intro hh
                have hmsf : ms = f := by linarith [sub_eq_zero.mp hh]
                exact absurd (hmsf ▸ htslt f (head?_mem ts f hf)) (lt_irrefl f)
              have heq := processBox_accept_eq cfg ms acc b ts l f ht hp hl hnlt hf hne0
              rw [heq] at hc
              injection hc with hc
              constructor
              · refine ⟨dequeAppend cfg.fps_est_time ts ms, ?_,
                  dequeAppend_ne_nil _ _ _ hfe⟩
                rw [hpres, hc.symm]
                simp only
                rw [alGet_alSet_self]
              · intro _
                refine phase1_fold_fps_isSome_mono cfg ms rest a r b.track_id h ?_
                rw [hc.symm]
                simp only
                rw [alGet_alSet_self]
                rfl
      · have hbid : b.track_id ∈ detIds rest := mem_detIds_of_mem b rest hbr ht
        have hndr : (detIds rest).Nodup := by
          by_cases hct : isTracked c
          · rw [detIds_cons, if_pos hct] at hnd
            exact (List.nodup_cons.mp hnd).2
          · rwa [detIds_cons, if_neg hct] at hnd
        have hpres : alGet a.st.track_prev_predict_timestamp b.track_id =
            alGet acc.st.track_prev_predict_timestamp b.track_id := by
          rcases processBox_ok_cases cfg ms acc c a hc with ⟨_, he⟩ | ⟨hct, _, _, _, _, _, _, _, hp⟩
          · rw [he]
          · have hne : b.track_id ≠ c.track_id := by
              rw [detIds_cons, if_pos hct] at hnd
              intro hh
              exact (List.nodup_cons.mp hnd).1 (hh ▸ hbid)
            rcases hp with hp | ⟨w, hp⟩
            · rw [hp]
            · rw [hp, alGet_alSet_ne _ _ _ _ hne]
        have hmain := ih a r b h hbr ht hndr
          (fun b' hb' ht' => hstamps b' (by simp [hb']) ht')
          (fun ts hts' => hts ts (by rw [hpres] at hts'; exact hts')) hfe
        exact ⟨hmain.1, fun hsome => hmain.2 (by rw [hpres]; exact hsome)⟩

/-- Readiness of an id for the predict loop: a nonempty queue, a nonempty
timestamp window, and either the skip condition or an fps entry. -/
def AliveReady (cfg : Config) (st : TState) (id : TrackId) : Prop :=
  ∃ q, alGet st.track_input_queue_dict id = some q ∧ q ≠ [] ∧
    (∃ ts, alGet st.track_prev_predict_timestamp id = some ts ∧ ts ≠ []) ∧
    ((alGet st.track_id_kf_model_dict id = none ∧ q.length < cfg.input_time) ∨
      (alGet st.track_predict_fps id).isSome = true)

/-- `finishAlive` cannot raise when the fps entry and a nonempty timestamp
window are present. -/
theorem finishAlive_total (cfg : Config) (acc : Predict2) (id : TrackId)
    (lastp : ℚ × ℚ) (t1 : KalmanFilter)
    (hf : (alGet acc.st.track_predict_fps id).isSome = true)
    (hts : ∃ ts, alGet acc.st.track_prev_predict_timestamp id = some ts ∧ ts ≠ []) :
    ∃ p, finishAlive cfg acc id lastp t1 = .ok p := by
  obtain ⟨f, hfv⟩ := Option.isSome_iff_exists.mp hf
  obtain ⟨ts, htsv, htsne⟩ := hts
  cases hl : ts.getLast? with
  | none => exact absurd (List.getLast?_eq_none_iff.mp hl) htsne
  | some lt =>
    cases hres : finishAlive cfg acc id lastp t1 with
    | ok p => exact ⟨p, rfl⟩
    | error e =>
      simp only [finishAlive, hfv, htsv, hl] at hres
      exact absurd hres (by simp)

/-- The predict-loop body cannot raise on a ready id. -/
theorem processAlive_total_of (cfg : Config) (acc : Predict2) (id : TrackId)
    (hR : AliveReady cfg acc.st id) :
    ∃ p, processAlive cfg acc id = .ok p := by
  obtain ⟨q, hq, hqne, hts, hdisj⟩ := hR
  have hlast : ∃ lastp, (q.map (fun c => (c.1, c.2.1))).getLast? = some lastp := by
    cases hl : (q.map (fun c => (c.1, c.2.1))).getLast? with
    | none =>
      have := List.getLast?_eq_none_iff.mp hl
      rw [List.map_eq_nil_iff] at this
      exact absurd this hqne
    | some lastp => exact ⟨lastp, rfl⟩
  obtain ⟨lastp, hlastv⟩ := hlast
  cases hkf : alGet acc.st.track_id_kf_model_dict id with
  | some t0 =>
    have hf : (alGet acc.st.track_predict_fps id).isSome = true := by
      rcases hdisj with ⟨hnone, _⟩ | hf
      · rw [hkf] at hnone
        exact absurd hnone (by simp)
      · exact hf
    obtain ⟨p, hp⟩ := finishAlive_total cfg acc id lastp
      (kfUpdate ![lastp.1, lastp.2] (kfPredict t0)) hf hts
    exact ⟨p, by rw [processAlive_steady_eq cfg acc id q t0 hq hkf lastp hlastv]; exact hp⟩
  | none =>
    by_cases hlen : q.length < cfg.input_time
    · exact ⟨acc, processAlive_skip cfg acc id q hq hkf hlen⟩
    · have hf : (alGet acc.st.track_predict_fps id).isSome = true := by
        rcases hdisj with ⟨_, hlt⟩ | hf
        · exact absurd hlt hlen
        · exact hf
      obtain ⟨p, hp⟩ := finishAlive_total cfg acc id lastp
        ((q.map (fun c => (c.1, c.2.1))).foldl
          (fun t p => kfUpdate ![p.1, p.2] (kfPredict t)) (kfInit lastp.1 lastp.2)) hf hts
      exact ⟨p, by
        rw [processAlive_boot_eq cfg acc id q hq hkf hlen lastp hlastv]; exact hp⟩

/-- The predict loop cannot raise when every processed id is ready. -/
theorem phase2_total (cfg : Config) :
    ∀ (ids : List TrackId) (acc : Predict2), ids.Nodup →
      (∀ id ∈ ids, AliveReady cfg acc.st id) →
      ∃ r, ids.foldlM (processAlive cfg) acc = .ok r := by
  intro ids
  induction ids with
  | nil =>
    intro acc _ _
    exact ⟨acc, by rw [List.foldlM_nil]; rfl⟩
  | cons id rest ih =>
    intro acc hnd hready
    obtain ⟨p, hp⟩ := processAlive_total_of cfg acc id (hready id (by simp))
    have hs := processAlive_ok_shape cfg acc id p hp
    obtain ⟨r, hr⟩ := ih p (List.nodup_cons.mp hnd).2 (fun id' hid' => by
      have hne : id' ≠ id := by
        intro hh
        exact (List.nodup_cons.mp hnd).1 (hh ▸ hid')
      obtain ⟨q, hq, hqne, ⟨ts, htsv, htsne⟩, hdisj⟩ := hready id' (by simp [hid'])
      refine ⟨q, by rw [hs.1]; exact hq, hqne, ⟨ts, by rw [hs.2.2.2.2.1]; exact htsv, htsne⟩, ?_⟩
      rcases hdisj with ⟨hnone, hlt⟩ | hf
      · refine Or.inl ⟨?_, hlt⟩
        rcases hs.2.2.2.2.2 with ⟨hk, _⟩ | ⟨t1, w, lp, v, hk, _⟩
        · rw [hk]; exact hnone
        · rw [hk, alGet_alSet_ne _ _ _ _ hne]; exact hnone
      · refine Or.inr ?_
        rw [hs.2.2.2.1]
        exact hf)
    exact ⟨r, by rw [List.foldlM_cons, hp, exceptBind_ok, hr]⟩

/-- The cleanup loop cannot raise when every visited id (they are distinct)
has a queue and a color entry. -/
theorem phase3_total (cfg : Config) (now : Time) :
    ∀ (ids : List TrackId) (acc : Cleanup3), ids.Nodup →
      (∀ id ∈ ids, (alGet acc.st.track_input_queue_dict id).isSome = true ∧
        (alGet acc.st.track_color_dict id).isSome = true) →
      ∃ r, ids.foldlM (processMissing cfg now) acc = .ok r := by
  intro ids
  induction ids with
  | nil =>
    intro acc _ _
    exact ⟨acc, by rw [List.foldlM_nil]; rfl⟩
  | cons id rest ih =>
    intro acc hnd hpres
    have hqc := hpres id (by simp)
    have hone : ∃ a, processMissing cfg now acc id = .ok a := by
      simp only [processMissing]
      by_cases hrem : now - (alGet acc.st.track_id_missing_time_dict id).getD now >
          cfg.duration_inactive_to_remove
      · rw [if_pos hrem, if_pos ⟨hqc.1, hqc.2⟩]
        exact ⟨_, rfl⟩
      · rw [if_neg hrem]
        exact ⟨_, rfl⟩
    obtain ⟨a, ha⟩ := hone
    obtain ⟨hvh, hstop, hcase⟩ := processMissing_ok_cases cfg now acc id a ha
    obtain ⟨r, hr⟩ := ih a (List.nodup_cons.mp hnd).2 (fun id' hid' => by
      have hne : id' ≠ id := by
        intro hh
        exact (List.nodup_cons.mp hnd).1 (hh ▸ hid')
      have hqc' := hpres id' (by simp [hid'])
      rcases hcase with ⟨_, hq, hc, _⟩ | ⟨_, hq, hc, _⟩
      · exact ⟨by rw [hq]; exact hqc'.1, by rw [hc]; exact hqc'.2⟩
      · exact ⟨by rw [hq, alGet_alErase_ne _ _ _ hne]; exact hqc'.1,
          by rw [hc, alGet_alErase_ne _ _ _ hne]; exact hqc'.2⟩)
    exact ⟨r, by rw [List.foldlM_cons, ha, exceptBind_ok, hr]⟩

/-- The dead-reckoning loop cannot raise when every visited id that owns a
filter also has an fps entry and a nonempty queue. -/
theorem phase4_total :
    ∀ (ids : List TrackId) (acc : Predict2),
      (∀ id ∈ ids, ∀ t, alGet acc.st.track_id_kf_model_dict id = some t →
        (alGet acc.st.track_predict_fps id).isSome = true ∧
        ∃ q, alGet acc.st.track_input_queue_dict id = some q ∧ q ≠ []) →
      ∃ r, ids.foldlM processPubMissing acc = .ok r := by
  intro ids
  induction ids with
  | nil =>
    intro acc _
    exact ⟨acc, by rw [List.foldlM_nil]; rfl⟩
  | cons id rest ih =>
    intro acc hpres
    have hone : ∃ a, processPubMissing acc id = .ok a := by
      cases hkf : alGet acc.st.track_id_kf_model_dict id with
      | none => exact ⟨acc, processPubMissing_none acc id hkf⟩
      | some t =>
        obtain ⟨hfsome, q, hq, hqne⟩ := hpres id (by simp) t hkf
        obtain ⟨f, hfv⟩ := Option.isSome_iff_exists.mp hfsome
        cases hl : q.getLast? with
        | none => exact absurd (List.getLast?_eq_none_iff.mp hl) hqne
        | some c =>
          exact ⟨_, processPubMissing_some_eq acc id t f q c hkf hfv hq hl⟩
    obtain ⟨a, ha⟩ := hone
    have hst := (processPubMissing_ok_shape acc id a ha).1
    obtain ⟨r, hr⟩ := ih a (fun id' hid' t hkf => by
      rw [hst] at hkf ⊢
      exact hpres id' (by simp [hid']) t hkf)
    exact ⟨r, by rw [List.foldlM_cons, ha, exceptBind_ok, hr]⟩

/-! ### Claim C1 -/

/-- C1 (amended): for every processed batch, the id list delivered to
`pub_result` (the `alive_track_id_list` argument) contains exactly the ids
detected this batch with class person or obstacle; a missing track that has
been absent for at most `duration_inactive_to_stop_publish` and owns a filter
is NOT in that list, although it does receive entries in the emitted
positions and velocities maps. -/
theorem c1_alive_list_detected_only (cfg : Config) (s : TState) (msg : Batch)
    (r : TState × CycleOutput) (id : TrackId) (t : KalmanFilter)
    (h : tracked_boxes_cb cfg s msg = .ok r)
    (hq : (alGet s.track_input_queue_dict id).isSome = true)
    (hnd : id ∉ detectedIds msg)
    (hel : msg.stamp - (alGet s.track_id_missing_time_dict id).getD msg.stamp ≤
      cfg.duration_inactive_to_stop_publish)
    (hcfg : cfg.duration_inactive_to_stop_publish ≤ cfg.duration_inactive_to_remove)
    (hkf : alGet s.track_id_kf_model_dict id = some t) :
    r.2.alive_track_id_list = detectedIds msg ∧
    id ∉ r.2.alive_track_id_list ∧
    (alGet r.2.track_pos_dict id).isSome = true ∧
    (alGet r.2.track_vel_dict id).isSome = true := by
  obtain ⟨i1, p2, c3, p4, h1, h2, h3, h4, hr⟩ := tracked_boxes_cb_ok_elim cfg s msg r h
  obtain ⟨halive, hqp, hcp, hkp, hfp, hpp, hmp, hvp, hmem, hpos0, hvel0⟩ :=
    missing_id_facts cfg s msg i1 p2 h1 h2 id hq hnd
  have hkeep : ¬ msg.stamp -
      (alGet (⟨p2.st, []⟩ : Cleanup3).st.track_id_missing_time_dict id).getD msg.stamp >
      cfg.duration_inactive_to_remove := by
    simp only [hmp]
    intro hgt
    exact absurd hgt (not_lt.mpr (le_trans hel hcfg))
  obtain ⟨hq3, hc3, hk3, hf3, hp3, hm3, hstop3⟩ :=
    phase3_fold_at_keep cfg msg.stamp _ ⟨p2.st, []⟩ c3 id h3 hmem hkeep
  have hkf3 : alGet c3.st.track_id_kf_model_dict id = some t := by
    rw [hk3]
    simp only
    rw [hkp]
    exact hkf
  have hnstop : id ∉ c3.stopList := by
    intro hin
    rcases hstop3.mp hin with hin2 | hin2
    · simp at hin2
    · simp only [hmp] at hin2
      exact absurd hin2 (not_lt.mpr hel)
  have hmem4 : id ∈ ((alKeys p2.st.track_input_queue_dict).filter
      (fun i => decide (i ∉ i1.alive))).filter (fun i => decide (i ∉ c3.stopList)) := by
    rw [List.mem_filter]
    exact ⟨hmem, by simpa using hnstop⟩
  have hfin := phase4_fold_at_isSome _ ⟨c3.st, p2.pos, p2.vel⟩ p4 id t h4 hmem4 hkf3
  rw [hr]
  refine ⟨halive, ?_, hfin.1, hfin.2⟩
  rw [halive]
  exact hnd

/-- Shared concrete configuration for the lifecycle scenarios:
`input_time = 2`, removal after 5 s of absence, publish stop after 2 s,
`fps_est_time = 4`. -/
def wCfg : Config :=
  { input_time := 2
    duration_inactive_to_remove := 5
    duration_inactive_to_stop_publish := 2
    fps_est_time := 4 }

/-- A registry holding one fully bootstrapped track with id 7: two queued
positions, a filter, an fps estimate of 1, timestamps 0 and 1, and one
velocity-history entry. -/
def wS : TState :=
  { track_input_queue_dict := [(7, [(0, 0, 0), (1, 0, 0)])]
    track_color_dict := [(7, (1, 0, 0))]
    track_id_kf_model_dict := [(7, kfInit 1 0)]
    track_id_missing_time_dict := []
    track_predict_fps := [(7, 1)]
    track_prev_predict_timestamp := [(7, [0, 1])]
    track_vel_hist_dict := [(7, [(1, (0, 0))])] }

/-- An empty batch at t = 2: track 7 is absent for the first time. -/
def wMsg2 : Batch := { stamp := 2, tracked_boxes := [] }

theorem c1_alive_list_detected_only_witness :
    ((alGet wS.track_input_queue_dict 7).isSome = true ∧
      (7 : TrackId) ∉ detectedIds wMsg2 ∧
      wMsg2.stamp - (alGet wS.track_id_missing_time_dict 7).getD wMsg2.stamp ≤
        wCfg.duration_inactive_to_stop_publish ∧
      wCfg.duration_inactive_to_stop_publish ≤ wCfg.duration_inactive_to_remove ∧
      alGet wS.track_id_kf_model_dict 7 = some (kfInit 1 0)) ∧
    ((runOk wCfg wS wMsg2).2.alive_track_id_list = detectedIds wMsg2 ∧
      (7 : TrackId) ∉ (runOk wCfg wS wMsg2).2.alive_track_id_list ∧
      (alGet (runOk wCfg wS wMsg2).2.track_pos_dict 7).isSome = true ∧
      (alGet (runOk wCfg wS wMsg2).2.track_vel_dict 7).isSome = true) :=
  ⟨⟨by simp [wS, alGet], by simp [detectedIds, detIds, wMsg2],
      by norm_num [wS, wMsg2, wCfg, alGet],
      by norm_num [wCfg], by simp [wS, alGet]⟩,
    c1_alive_list_detected_only wCfg wS wMsg2 (runOk wCfg wS wMsg2) 7 (kfInit 1 0)
      (runOk_spec wCfg wS wMsg2 (by
        norm_num [cycleOk, tracked_boxes_cb, wCfg, wS, wMsg2, alGet, alSet, alErase, alKeys,
          processMissing, processPubMissing, List.foldlM, List.filter, detIds, isTracked,
          List.getLast?, bind, Except.bind, pure, Except.pure, Option.getD]))
      (by simp [wS, alGet]) (by simp [detectedIds, detIds, wMsg2])
      (by norm_num [wS, wMsg2, wCfg, alGet]) (by norm_num [wCfg])
      (by simp [wS, alGet])⟩

/-- C1 (counterexample to the original claim): at t = 2 track 7 has been
absent for 0 s (at most the 2 s stop-publish threshold) and owns a filter, so
the original claim would put 7 in the emitted alive id set; but the cycle
emits an empty `alive_track_id_list`, even though 7 does get a position
entry. -/
theorem c1_original_refuted :
    tracked_boxes_cb wCfg wS wMsg2 = .ok (runOk wCfg wS wMsg2) ∧
    (alGet wS.track_id_kf_model_dict 7).isSome = true ∧
    wMsg2.stamp - (alGet wS.track_id_missing_time_dict 7).getD wMsg2.stamp ≤
      wCfg.duration_inactive_to_stop_publish ∧
    (alGet (runOk wCfg wS wMsg2).2.track_pos_dict 7).isSome = true ∧
    (runOk wCfg wS wMsg2).2.alive_track_id_list = [] :=
by
  refine ⟨runOk_spec wCfg wS wMsg2 ?h1, by simp [wS, alGet],
    by norm_num [wS, wMsg2, wCfg, alGet], ?h2, ?h3⟩
  case h1 =>
    norm_num [cycleOk, tracked_boxes_cb, wCfg, wS, wMsg2, alGet, alSet, alErase, alKeys,
      processMissing, processPubMissing, List.foldlM, List.filter, detIds, isTracked,
      List.getLast?, bind, Except.bind, pure, Except.pure, Option.getD]
  case h2 =>
    norm_num [runOk, tracked_boxes_cb, wCfg, wS, wMsg2, alGet, alSet, alErase, alKeys,
      processMissing, processPubMissing, List.foldlM, List.filter, detIds, isTracked,
      List.getLast?, bind, Except.bind, pure, Except.pure, Option.getD]
  case h3 =>
    norm_num [runOk, tracked_boxes_cb, wCfg, wS, wMsg2, alGet, alSet, alErase, alKeys,
      processMissing, processPubMissing, List.foldlM, List.filter, detIds, isTracked,
      List.getLast?, bind, Except.bind, pure, Except.pure, Option.getD]

/-! ### Claim C2 -/

/-- C2 (amended): the cycle that purges a track whose absence exceeded
`duration_inactive_to_remove` deletes its position queue, color, missing
timestamp, Kalman filter, estimated fps and timestamp window — but NOT its
velocity history, which the source never deletes: `track_vel_hist_dict`
still maps the purged id afterwards, so a later detection with the same id
starts with a fresh queue yet inherits the old velocity history. -/
theorem c2_purge_removes_state (cfg : Config) (s : TState) (msg : Batch)
    (r : TState × CycleOutput) (id : TrackId)
    (h : tracked_boxes_cb cfg s msg = .ok r)
    (hnodup : (alKeys s.track_input_queue_dict).Nodup)
    (hq : (alGet s.track_input_queue_dict id).isSome = true)
    (hnd : id ∉ detectedIds msg)
    (hel : msg.stamp - (alGet s.track_id_missing_time_dict id).getD msg.stamp >
      cfg.duration_inactive_to_remove) :
    alGet r.1.track_input_queue_dict id = none ∧
    alGet r.1.track_color_dict id = none ∧
    alGet r.1.track_id_missing_time_dict id = none ∧
    alGet r.1.track_id_kf_model_dict id = none ∧
    alGet r.1.track_predict_fps id = none ∧
    alGet r.1.track_prev_predict_timestamp id = none ∧
    alGet r.1.track_vel_hist_dict id = alGet s.track_vel_hist_dict id := by
  obtain ⟨i1, p2, c3, p4, h1, h2, h3, h4, hr⟩ := tracked_boxes_cb_ok_elim cfg s msg r h
  obtain ⟨halive, hqp, hcp, hkp, hfp, hpp, hmp, hvp, hmem, hpos0, hvel0⟩ :=
    missing_id_facts cfg s msg i1 p2 h1 h2 id hq hnd
  have hnodup2 : ((alKeys p2.st.track_input_queue_dict).filter
      (fun i => decide (i ∉ i1.alive))).Nodup := by
    refine List.Nodup.filter _ ?_
    rw [phase2_fold_shape cfg i1.alive ⟨i1.st, [], []⟩ p2 h2 |>.1]
    exact phase1_fold_queue_keys_nodup cfg msg.stamp msg.tracked_boxes ⟨s, []⟩ i1 h1 hnodup
  have hgt : msg.stamp -
      (alGet (⟨p2.st, []⟩ : Cleanup3).st.track_id_missing_time_dict id).getD msg.stamp >
      cfg.duration_inactive_to_remove := by
    simp only [hmp]
    exact hel
  obtain ⟨hq3, hc3, hk3, hf3, hp3, hm3⟩ :=
    phase3_fold_at_purge cfg msg.stamp _ ⟨p2.st, []⟩ c3 id h3 hmem hnodup2 hgt
  have hvh3 := phase3_fold_velhist cfg msg.stamp _ ⟨p2.st, []⟩ c3 h3
  have hst4 := phase4_fold_st _ ⟨c3.st, p2.pos, p2.vel⟩ p4 h4
  have hr1 : r.1 = c3.st := by rw [hr]; exact hst4
  rw [hr1]
  refine ⟨hq3, hc3, hm3, hk3, hf3, hp3, ?_⟩
  rw [hvh3]
  simp only
  exact hvp

/-- A registry like `wS` whose track 7 has already been missing since t = 0. -/
def wSm : TState := { wS with track_id_missing_time_dict := [(7, 0)] }

/-- An empty batch at t = 9: track 7 has then been absent for 9 s. -/
def wMsg9 : Batch := { stamp := 9, tracked_boxes := [] }

theorem c2_purge_removes_state_witness :
    ((alKeys wSm.track_input_queue_dict).Nodup ∧
      (alGet wSm.track_input_queue_dict 7).isSome = true ∧
      (7 : TrackId) ∉ detectedIds wMsg9 ∧
      wMsg9.stamp - (alGet wSm.track_id_missing_time_dict 7).getD wMsg9.stamp >
        wCfg.duration_inactive_to_remove) ∧
    (alGet (runOk wCfg wSm wMsg9).1.track_input_queue_dict 7 = none ∧
      alGet (runOk wCfg wSm wMsg9).1.track_color_dict 7 = none ∧
      alGet (runOk wCfg wSm wMsg9).1.track_id_missing_time_dict 7 = none ∧
      alGet (runOk wCfg wSm wMsg9).1.track_id_kf_model_dict 7 = none ∧
      alGet (runOk wCfg wSm wMsg9).1.track_predict_fps 7 = none ∧
      alGet (runOk wCfg wSm wMsg9).1.track_prev_predict_timestamp 7 = none ∧
      alGet (runOk wCfg wSm wMsg9).1.track_vel_hist_dict 7 =
        alGet wSm.track_vel_hist_dict 7) :=
  ⟨⟨by simp [wSm, wS, alKeys], by simp [wSm, wS, alGet],
      by simp [detectedIds, detIds, wMsg9],
      by norm_num [wSm, wS, wMsg9, wCfg, alGet]⟩,
    c2_purge_removes_state wCfg wSm wMsg9 (runOk wCfg wSm wMsg9) 7
      (runOk_spec wCfg wSm wMsg9 (by
        norm_num [cycleOk, tracked_boxes_cb, wCfg, wSm, wS, wMsg9, alGet, alSet, alErase,
          alKeys, processMissing, processPubMissing, List.foldlM, List.filter, detIds,
          isTracked, List.getLast?, bind, Except.bind, pure, Except.pure, Option.getD]))
      (by simp [wSm, wS, alKeys]) (by simp [wSm, wS, alGet])
      (by simp [detectedIds, detIds, wMsg9])
      (by norm_num [wSm, wS, wMsg9, wCfg, alGet])⟩

/-- C2 (counterexample to the original claim): at t = 9, track 7 (absent
since t = 0, removal threshold 5 s) is purged in this cycle, yet
`track_vel_hist_dict` still maps id 7 afterwards — the velocity history is
not deleted, contradicting "no per-track container in the registry maps that
id". -/
theorem c2_original_refuted :
    tracked_boxes_cb wCfg wSm wMsg9 = .ok (runOk wCfg wSm wMsg9) ∧
    wMsg9.stamp - (alGet wSm.track_id_missing_time_dict 7).getD wMsg9.stamp >
      wCfg.duration_inactive_to_remove ∧
    alGet (runOk wCfg wSm wMsg9).1.track_input_queue_dict 7 = none ∧
    (alGet (runOk wCfg wSm wMsg9).1.track_vel_hist_dict 7).isSome = true := by
  refine ⟨runOk_spec wCfg wSm wMsg9 ?h1, by norm_num [wSm, wS, wMsg9, wCfg, alGet],
    ?h2, ?h3⟩
  case h1 =>
    norm_num [cycleOk, tracked_boxes_cb, wCfg, wSm, wS, wMsg9, alGet, alSet, alErase,
      alKeys, processMissing, processPubMissing, List.foldlM, List.filter, detIds,
      isTracked, List.getLast?, bind, Except.bind, pure, Except.pure, Option.getD]
  case h2 =>
    norm_num [runOk, tracked_boxes_cb, wCfg, wSm, wS, wMsg9, alGet, alSet, alErase,
      alKeys, processMissing, processPubMissing, List.foldlM, List.filter, detIds,
      isTracked, List.getLast?, bind, Except.bind, pure, Except.pure, Option.getD]
  case h3 =>
    norm_num [runOk, tracked_boxes_cb, wCfg, wSm, wS, wMsg9, alGet, alSet, alErase,
      alKeys, processMissing, processPubMissing, List.foldlM, List.filter, detIds,
      isTracked, List.getLast?, bind, Except.bind, pure, Except.pure, Option.getD]

/-! ### Claim C7 -/

/-- C7: lifecycle of a missing track.  (a) On the first absent cycle the
missing time is set to the batch stamp.  (b) The moment the track is detected
again its missing time is cleared.  (c) While the absence exceeds the
stop-publish threshold but not the removal threshold, the queue and the
filter are retained yet the track gets no entry in the emitted positions or
velocities.  (d) In the first cycle whose absence exceeds the removal
threshold the track's registry state (queue, filter, fps, timestamps, color,
missing time) is removed. -/
theorem c7_missing_lifecycle (cfg : Config) (s : TState) (msg : Batch)
    (r : TState × CycleOutput) (id : TrackId)
    (h : tracked_boxes_cb cfg s msg = .ok r)
    (hrem0 : 0 ≤ cfg.duration_inactive_to_remove)
    (hnodup : (alKeys s.track_input_queue_dict).Nodup) :
    ((alGet s.track_input_queue_dict id).isSome = true → id ∉ detectedIds msg →
      alGet s.track_id_missing_time_dict id = none →
      alGet r.1.track_id_missing_time_dict id = some msg.stamp) ∧
    (id ∈ detectedIds msg → alGet r.1.track_id_missing_time_dict id = none) ∧
    ((alGet s.track_input_queue_dict id).isSome = true → id ∉ detectedIds msg →
      msg.stamp - (alGet s.track_id_missing_time_dict id).getD msg.stamp >
        cfg.duration_inactive_to_stop_publish →
      msg.stamp - (alGet s.track_id_missing_time_dict id).getD msg.stamp ≤
        cfg.duration_inactive_to_remove →
      alGet r.1.track_input_queue_dict id = alGet s.track_input_queue_dict id ∧
      alGet r.1.track_id_kf_model_dict id = alGet s.track_id_kf_model_dict id ∧
      alGet r.2.track_pos_dict id = none ∧
      alGet r.2.track_vel_dict id = none) ∧
    ((alGet s.track_input_queue_dict id).isSome = true → id ∉ detectedIds msg →
      msg.stamp - (alGet s.track_id_missing_time_dict id).getD msg.stamp >
        cfg.duration_inactive_to_remove →
      alGet r.1.track_input_queue_dict id = none ∧
      alGet r.1.track_id_kf_model_dict id = none ∧
      alGet r.1.track_predict_fps id = none ∧
      alGet r.1.track_prev_predict_timestamp id = none ∧
      alGet r.1.track_color_dict id = none ∧
      alGet r.1.track_id_missing_time_dict id = none) := by
  obtain ⟨i1, p2, c3, p4, h1, h2, h3, h4, hr⟩ := tracked_boxes_cb_ok_elim cfg s msg r h
  have hst4 := phase4_fold_st _ ⟨c3.st, p2.pos, p2.vel⟩ p4 h4
  have hr1 : r.1 = c3.st := by rw [hr]; exact hst4
  have halive : i1.alive = detectedIds msg := by
    have := phase1_fold_alive cfg msg.stamp msg.tracked_boxes ⟨s, []⟩ i1 h1
    simpa [detectedIds] using this
  refine ⟨?parta, ?partb, ?partc, ?partd⟩
  case parta =>
    intro hq hnd hm0
    obtain ⟨_, hqp, hcp, hkp, hfp, hpp, hmp, hvp, hmem, hpos0, hvel0⟩ :=
      missing_id_facts cfg s msg i1 p2 h1 h2 id hq hnd
    have hkeep : ¬ msg.stamp -
        (alGet (⟨p2.st, []⟩ : Cleanup3).st.track_id_missing_time_dict id).getD msg.stamp >
        cfg.duration_inactive_to_remove := by
      simp only [hmp, hm0, Option.getD_none]
      simp only [sub_self]
      exact not_lt.mpr hrem0
    obtain ⟨_, _, _, _, _, hm3, _⟩ :=
      phase3_fold_at_keep cfg msg.stamp _ ⟨p2.st, []⟩ c3 id h3 hmem hkeep
    rw [hr1, hm3]
    simp only [hmp, hm0, Option.getD_none]
  case partb =>
    intro hdet
    have hm1 := phase1_fold_missing_none cfg msg.stamp msg.tracked_boxes ⟨s, []⟩ i1 id h1
      (by simpa [detectedIds] using hdet)
    have hm2 : alGet p2.st.track_id_missing_time_dict id = none := by
      rw [(phase2_fold_shape cfg i1.alive ⟨i1.st, [], []⟩ p2 h2).2.2.1]
      exact hm1
    have hnotmiss : id ∉ (alKeys p2.st.track_input_queue_dict).filter
        (fun i => decide (i ∉ i1.alive)) := by
      intro hin
      have := (List.mem_filter.mp hin).2
      simp [halive] at this
      exact this hdet
    have hm3 := (phase3_fold_preserve cfg msg.stamp _ ⟨p2.st, []⟩ c3 id h3 hnotmiss).2.2.2.2.2.1
    rw [hr1, hm3]
    exact hm2
  case partc =>
    intro hq hnd hgtstop hlerem
    obtain ⟨_, hqp, hcp, hkp, hfp, hpp, hmp, hvp, hmem, hpos0, hvel0⟩ :=
      missing_id_facts cfg s msg i1 p2 h1 h2 id hq hnd
    have hkeep : ¬ msg.stamp -
        (alGet (⟨p2.st, []⟩ : Cleanup3).st.track_id_missing_time_dict id).getD msg.stamp >
        cfg.duration_inactive_to_remove := by
      simp only [hmp]
      exact not_lt.mpr hlerem
    obtain ⟨hq3, hc3, hk3, hf3, hp3, hm3, hstop3⟩ :=
      phase3_fold_at_keep cfg msg.stamp _ ⟨p2.st, []⟩ c3 id h3 hmem hkeep
    have hinstop : id ∈ c3.stopList := by
      refine hstop3.mpr (Or.inr ?_)
      simp only [hmp]
      exact hgtstop
    have hnotpub : id ∉ ((alKeys p2.st.track_input_queue_dict).filter
        (fun i => decide (i ∉ i1.alive))).filter (fun i => decide (i ∉ c3.stopList)) := by
      intro hin
      have := (List.mem_filter.mp hin).2
      simp at this
      exact this hinstop
    have hpv := phase4_fold_preserve _ ⟨c3.st, p2.pos, p2.vel⟩ p4 id h4 hnotpub
    have hrpos : r.2.track_pos_dict = p4.pos := by rw [hr]
    have hrvel : r.2.track_vel_dict = p4.vel := by rw [hr]
    refine ⟨?_, ?_, ?_, ?_⟩
    · rw [hr1, hq3]
      simp only
      exact hqp
    · rw [hr1, hk3]
      simp only
      exact hkp
    · rw [hrpos, hpv.1]
      exact hpos0
    · rw [hrvel, hpv.2]
      exact hvel0
  case partd =>
    intro hq hnd hgt
    obtain ⟨_, hqp, hcp, hkp, hfp, hpp, hmp, hvp, hmem, hpos0, hvel0⟩ :=
      missing_id_facts cfg s msg i1 p2 h1 h2 id hq hnd
    have hnodup2 : ((alKeys p2.st.track_input_queue_dict).filter
        (fun i => decide (i ∉ i1.alive))).Nodup := by
      refine List.Nodup.filter _ ?_
      rw [(phase2_fold_shape cfg i1.alive ⟨i1.st, [], []⟩ p2 h2).1]
      exact phase1_fold_queue_keys_nodup cfg msg.stamp msg.tracked_boxes ⟨s, []⟩ i1 h1 hnodup
    have hgt2 : msg.stamp -
        (alGet (⟨p2.st, []⟩ : Cleanup3).st.track_id_missing_time_dict id).getD msg.stamp >
        cfg.duration_inactive_to_remove := by
      simp only [hmp]
      exact hgt
    obtain ⟨hq3, hc3, hk3, hf3, hp3, hm3⟩ :=
      phase3_fold_at_purge cfg msg.stamp _ ⟨p2.st, []⟩ c3 id h3 hmem hnodup2 hgt2
    rw [hr1]
    exact ⟨hq3, hk3, hf3, hp3, hc3, hm3⟩

/-- A person box for track 7 at t = 4. -/
def wBox4 : Box :=
  { class_name := "person", track_id := 7, center3d := (2, 0, 0), color := (1, 0, 0)
    stamp := 4 }

/-- A batch at t = 4 detecting track 7. -/
def wMsgDet4 : Batch := { stamp := 4, tracked_boxes := [wBox4] }

/-- An empty batch at t = 4. -/
def wMsg4 : Batch := { stamp := 4, tracked_boxes := [] }

theorem c7_missing_lifecycle_witness :
    ((0 : ℚ) ≤ wCfg.duration_inactive_to_remove ∧
      (alKeys wS.track_input_queue_dict).Nodup ∧
      (alKeys wSm.track_input_queue_dict).Nodup ∧
      (alGet wS.track_input_queue_dict 7).isSome = true ∧
      (7 : TrackId) ∉ detectedIds wMsg2 ∧
      alGet wS.track_id_missing_time_dict 7 = none ∧
      (7 : TrackId) ∈ detectedIds wMsgDet4 ∧
      wMsg4.stamp - (alGet wSm.track_id_missing_time_dict 7).getD wMsg4.stamp >
        wCfg.duration_inactive_to_stop_publish ∧
      wMsg4.stamp - (alGet wSm.track_id_missing_time_dict 7).getD wMsg4.stamp ≤
        wCfg.duration_inactive_to_remove ∧
      wMsg9.stamp - (alGet wSm.track_id_missing_time_dict 7).getD wMsg9.stamp >
        wCfg.duration_inactive_to_remove) ∧
    (alGet (runOk wCfg wS wMsg2).1.track_id_missing_time_dict 7 = some wMsg2.stamp ∧
      alGet (runOk wCfg wSm wMsgDet4).1.track_id_missing_time_dict 7 = none ∧
      (alGet (runOk wCfg wSm wMsg4).1.track_input_queue_dict 7 =
          alGet wSm.track_input_queue_dict 7 ∧
        alGet (runOk wCfg wSm wMsg4).1.track_id_kf_model_dict 7 =
          alGet wSm.track_id_kf_model_dict 7 ∧
        alGet (runOk wCfg wSm wMsg4).2.track_pos_dict 7 = none ∧
        alGet (runOk wCfg wSm wMsg4).2.track_vel_dict 7 = none) ∧
      (alGet (runOk wCfg wSm wMsg9).1.track_input_queue_dict 7 = none ∧
        alGet (runOk wCfg wSm wMsg9).1.track_id_kf_model_dict 7 = none ∧
        alGet (runOk wCfg wSm wMsg9).1.track_predict_fps 7 = none ∧
        alGet (runOk wCfg wSm wMsg9).1.track_prev_predict_timestamp 7 = none ∧
        alGet (runOk wCfg wSm wMsg9).1.track_color_dict 7 = none ∧
        alGet (runOk wCfg wSm wMsg9).1.track_id_missing_time_dict 7 = none)) :=
  ⟨⟨by norm_num [wCfg], by simp [wS, alKeys], by simp [wSm, wS, alKeys],
      by simp [wS, alGet], by simp [detectedIds, detIds, wMsg2],
      by simp [wS, alGet],
      by simp [detectedIds, detIds, wMsgDet4, wBox4, isTracked],
      by norm_num [wSm, wS, wMsg4, wCfg, alGet],
      by norm_num [wSm, wS, wMsg4, wCfg, alGet],
      by norm_num [wSm, wS, wMsg9, wCfg, alGet]⟩,
    (c7_missing_lifecycle wCfg wS wMsg2 (runOk wCfg wS wMsg2) 7
        (runOk_spec wCfg wS wMsg2 (by
          norm_num [cycleOk, tracked_boxes_cb, wCfg, wS, wMsg2, alGet, alSet, alErase,
            alKeys, processMissing, processPubMissing, List.foldlM, List.filter, detIds,
            isTracked, List.getLast?, bind, Except.bind, pure, Except.pure, Option.getD]))
        (by norm_num [wCfg]) (by simp [wS, alKeys])).1
      (by simp [wS, alGet]) (by simp [detectedIds, detIds, wMsg2]) (by simp [wS, alGet]),
    (c7_missing_lifecycle wCfg wSm wMsgDet4 (runOk wCfg wSm wMsgDet4) 7
        (runOk_spec wCfg wSm wMsgDet4 (by
          norm_num [cycleOk, tracked_boxes_cb, wCfg, wSm, wS, wMsgDet4, wBox4, alGet,
            alSet, alErase, alKeys, processBox, processAlive, finishAlive, processMissing,
            processPubMissing, dequeAppend, List.foldlM, List.filter, detIds, isTracked,
            List.getLast?, bind, Except.bind, pure, Except.pure, Option.getD]))
        (by norm_num [wCfg]) (by simp [wSm, wS, alKeys])).2.1
      (by simp [detectedIds, detIds, wMsgDet4, wBox4, isTracked]),
    (c7_missing_lifecycle wCfg wSm wMsg4 (runOk wCfg wSm wMsg4) 7
        (runOk_spec wCfg wSm wMsg4 (by
          norm_num [cycleOk, tracked_boxes_cb, wCfg, wSm, wS, wMsg4, alGet, alSet,
            alErase, alKeys, processMissing, processPubMissing, List.foldlM, List.filter,
            detIds, isTracked, List.getLast?, bind, Except.bind, pure, Except.pure,
            Option.getD]))
        (by norm_num [wCfg]) (by simp [wSm, wS, alKeys])).2.2.1
      (by simp [wSm, wS, alGet]) (by simp [detectedIds, detIds, wMsg4])
      (by norm_num [wSm, wS, wMsg4, wCfg, alGet])
      (by norm_num [wSm, wS, wMsg4, wCfg, alGet]),
    (c7_missing_lifecycle wCfg wSm wMsg9 (runOk wCfg wSm wMsg9) 7
        (runOk_spec wCfg wSm wMsg9 (by
          norm_num [cycleOk, tracked_boxes_cb, wCfg, wSm, wS, wMsg9, alGet, alSet,
            alErase, alKeys, processMissing, processPubMissing, List.foldlM, List.filter,
            detIds, isTracked, List.getLast?, bind, Except.bind, pure, Except.pure,
            Option.getD]))
        (by norm_num [wCfg]) (by simp [wSm, wS, alKeys])).2.2.2
      (by simp [wSm, wS, alGet]) (by simp [detectedIds, detIds, wMsg9])
      (by norm_num [wSm, wS, wMsg9, wCfg, alGet])⟩

/-! ### Claim C8 -/

/-- C8: a missing-but-still-published track owning a filter receives no
predict and no update step during the cycle (its stored filter is
unchanged); its emitted velocity is the filter's last velocity state scaled
by the last known estimated fps, and its emitted position is the last raw
observed position — not extrapolated forward. -/
theorem c8_dead_reckoning (cfg : Config) (s : TState) (msg : Batch)
    (r : TState × CycleOutput) (id : TrackId) (t : KalmanFilter) (f : ℚ)
    (q : List (ℚ × ℚ × ℚ)) (c : ℚ × ℚ × ℚ)
    (h : tracked_boxes_cb cfg s msg = .ok r)
    (hq : alGet s.track_input_queue_dict id = some q)
    (hnd : id ∉ detectedIds msg)
    (hel : msg.stamp - (alGet s.track_id_missing_time_dict id).getD msg.stamp ≤
      cfg.duration_inactive_to_stop_publish)
    (hcfg : cfg.duration_inactive_to_stop_publish ≤ cfg.duration_inactive_to_remove)
    (hkf : alGet s.track_id_kf_model_dict id = some t)
    (hf : alGet s.track_predict_fps id = some f)
    (hc : q.getLast? = some c) :
    alGet r.1.track_id_kf_model_dict id = some t ∧
    alGet r.2.track_pos_dict id = some (c.1, c.2.1) ∧
    alGet r.2.track_vel_dict id = some (t.x 1 * f, t.x 3 * f) := by
  obtain ⟨i1, p2, c3, p4, h1, h2, h3, h4, hr⟩ := tracked_boxes_cb_ok_elim cfg s msg r h
  obtain ⟨halive, hqp, hcp, hkp, hfp, hpp, hmp, hvp, hmem, hpos0, hvel0⟩ :=
    missing_id_facts cfg s msg i1 p2 h1 h2 id (by rw [hq]; rfl) hnd
  have hkeep : ¬ msg.stamp -
      (alGet (⟨p2.st, []⟩ : Cleanup3).st.track_id_missing_time_dict id).getD msg.stamp >
      cfg.duration_inactive_to_remove := by
    simp only [hmp]
    exact not_lt.mpr (le_trans hel hcfg)
  obtain ⟨hq3, hc3, hk3, hf3, hp3, hm3, hstop3⟩ :=
    phase3_fold_at_keep cfg msg.stamp _ ⟨p2.st, []⟩ c3 id h3 hmem hkeep
  have hnstop : id ∉ c3.stopList := by
    intro hin
    rcases hstop3.mp hin with hin2 | hin2
    · simp at hin2
    · simp only [hmp] at hin2
      exact absurd hin2 (not_lt.mpr hel)
  have hmem4 : id ∈ ((alKeys p2.st.track_input_queue_dict).filter
      (fun i => decide (i ∉ i1.alive))).filter (fun i => decide (i ∉ c3.stopList)) := by
    rw [List.mem_filter]
    exact ⟨hmem, by simpa using hnstop⟩
  have hkf3 : alGet c3.st.track_id_kf_model_dict id = some t := by
    rw [hk3]
    simp only
    rw [hkp]
    exact hkf
  have hf3v : alGet c3.st.track_predict_fps id = some f := by
    rw [hf3]
    simp only
    rw [hfp]
    exact hf
  have hq3v : alGet c3.st.track_input_queue_dict id = some q := by
    rw [hq3]
    simp only
    rw [hqp]
    exact hq
  have hfin := phase4_fold_at _ ⟨c3.st, p2.pos, p2.vel⟩ p4 id t f q c h4 hmem4
    hkf3 hf3v hq3v hc
  have hst4 := phase4_fold_st _ ⟨c3.st, p2.pos, p2.vel⟩ p4 h4
  have hr1 : r.1 = c3.st := by rw [hr]; exact hst4
  refine ⟨by rw [hr1]; exact hkf3, ?_, ?_⟩
  · have : r.2.track_pos_dict = p4.pos := by rw [hr]
    rw [this]
    exact hfin.1
  · have : r.2.track_vel_dict = p4.vel := by rw [hr]
    rw [this]
    exact hfin.2

theorem c8_dead_reckoning_witness :
    (alGet wS.track_input_queue_dict 7 = some [(0, 0, 0), (1, 0, 0)] ∧
      (7 : TrackId) ∉ detectedIds wMsg2 ∧
      wMsg2.stamp - (alGet wS.track_id_missing_time_dict 7).getD wMsg2.stamp ≤
        wCfg.duration_inactive_to_stop_publish ∧
      wCfg.duration_inactive_to_stop_publish ≤ wCfg.duration_inactive_to_remove ∧
      alGet wS.track_id_kf_model_dict 7 = some (kfInit 1 0) ∧
      alGet wS.track_predict_fps 7 = some 1 ∧
      ([(0, 0, 0), (1, 0, 0)] : List (ℚ × ℚ × ℚ)).getLast? = some (1, 0, 0)) ∧
    (alGet (runOk wCfg wS wMsg2).1.track_id_kf_model_dict 7 = some (kfInit 1 0) ∧
      alGet (runOk wCfg wS wMsg2).2.track_pos_dict 7 =
        some (((1 : ℚ), (0 : ℚ), (0 : ℚ)).1, ((1 : ℚ), (0 : ℚ), (0 : ℚ)).2.1) ∧
      alGet (runOk wCfg wS wMsg2).2.track_vel_dict 7 =
        some ((kfInit 1 0).x 1 * 1, (kfInit 1 0).x 3 * 1)) :=
  ⟨⟨by simp [wS, alGet], by simp [detectedIds, detIds, wMsg2],
      by norm_num [wS, wMsg2, wCfg, alGet], by norm_num [wCfg],
      by simp [wS, alGet], by simp [wS, alGet], by simp [List.getLast?]⟩,
    c8_dead_reckoning wCfg wS wMsg2 (runOk wCfg wS wMsg2) 7 (kfInit 1 0) 1
      [(0, 0, 0), (1, 0, 0)] (1, 0, 0)
      (runOk_spec wCfg wS wMsg2 (by
        norm_num [cycleOk, tracked_boxes_cb, wCfg, wS, wMsg2, alGet, alSet, alErase,
          alKeys, processMissing, processPubMissing, List.foldlM, List.filter, detIds,
          isTracked, List.getLast?, bind, Except.bind, pure, Except.pure, Option.getD]))
      (by simp [wS, alGet]) (by simp [detectedIds, detIds, wMsg2])
      (by norm_num [wS, wMsg2, wCfg, alGet]) (by norm_num [wCfg])
      (by simp [wS, alGet]) (by simp [wS, alGet]) (by simp [List.getLast?])⟩

/-! ### Claim C9 -/

/-- C9: an already-bootstrapped track (its filter exists) detected in the
current batch gets exactly one predict step followed by one update step,
consuming only the most recent queued observation — the newly appended
position — and its emitted position is that raw observed position, not the
filter's position estimate. -/
theorem c9_steady_one_predict_update (cfg : Config) (s : TState) (msg : Batch)
    (r : TState × CycleOutput) (b : Box) (t0 : KalmanFilter)
    (h : tracked_boxes_cb cfg s msg = .ok r)
    (hb : b ∈ msg.tracked_boxes) (ht : isTracked b = true)
    (hnd : (detIds msg.tracked_boxes).Nodup)
    (hit : 1 ≤ cfg.input_time)
    (hkf : alGet s.track_id_kf_model_dict b.track_id = some t0) :
    alGet r.1.track_id_kf_model_dict b.track_id =
      some (kfUpdate ![b.center3d.1, b.center3d.2.1] (kfPredict t0)) ∧
    alGet r.2.track_pos_dict b.track_id = some (b.center3d.1, b.center3d.2.1) := by
  obtain ⟨i1, p2, c3, p4, h1, h2, h3, h4, hr⟩ := tracked_boxes_cb_ok_elim cfg s msg r h
  have halive : i1.alive = detectedIds msg := by
    have := phase1_fold_alive cfg msg.stamp msg.tracked_boxes ⟨s, []⟩ i1 h1
    simpa [detectedIds] using this
  obtain ⟨hq1, hm1⟩ :=
    phase1_fold_at_detected cfg msg.stamp msg.tracked_boxes ⟨s, []⟩ i1 b h1 hb ht hnd
  have hkf1 : alGet i1.st.track_id_kf_model_dict b.track_id = some t0 := by
    rw [(phase1_fold_kf_velhist cfg msg.stamp msg.tracked_boxes ⟨s, []⟩ i1 h1).1]
    exact hkf
  have hmem2 : b.track_id ∈ i1.alive := by
    rw [halive]
    exact mem_detIds_of_mem b msg.tracked_boxes hb ht
  have hnd2 : i1.alive.Nodup := by rw [halive]; exact hnd
  have hlast : ((dequeAppend cfg.input_time
      ((alGet (⟨s, []⟩ : Ingest1).st.track_input_queue_dict b.track_id).getD [])
      b.center3d).map (fun c => (c.1, c.2.1))).getLast? =
      some (b.center3d.1, b.center3d.2.1) := by
    rw [List.getLast?_map, getLast?_dequeAppend _ _ _ hit]
    rfl
  obtain ⟨f, hf, hkf2, hpos2, hvel2⟩ :=
    phase2_fold_at_steady cfg i1.alive ⟨i1.st, [], []⟩ p2 b.track_id _ t0
      (b.center3d.1, b.center3d.2.1) h2 hnd2 hmem2 hq1 hkf1 hlast
  have hnotmiss : b.track_id ∉ (alKeys p2.st.track_input_queue_dict).filter
      (fun i => decide (i ∉ i1.alive)) := by
    intro hin
    have := (List.mem_filter.mp hin).2
    simp at this
    exact this hmem2
  have hkf3 := (phase3_fold_preserve cfg msg.stamp _ ⟨p2.st, []⟩ c3 b.track_id h3
    hnotmiss).2.2.1
  have hnotpub : b.track_id ∉ ((alKeys p2.st.track_input_queue_dict).filter
      (fun i => decide (i ∉ i1.alive))).filter (fun i => decide (i ∉ c3.stopList)) := by
    intro hin
    exact hnotmiss (List.mem_filter.mp hin).1
  have hpv := phase4_fold_preserve _ ⟨c3.st, p2.pos, p2.vel⟩ p4 b.track_id h4 hnotpub
  have hst4 := phase4_fold_st _ ⟨c3.st, p2.pos, p2.vel⟩ p4 h4
  have hr1 : r.1 = c3.st := by rw [hr]; exact hst4
  constructor
  · rw [hr1, hkf3]
    exact hkf2
  · have : r.2.track_pos_dict = p4.pos := by rw [hr]
    rw [this, hpv.1]
    exact hpos2

theorem c9_steady_one_predict_update_witness :
    (wBox4 ∈ wMsgDet4.tracked_boxes ∧ isTracked wBox4 = true ∧
      (detIds wMsgDet4.tracked_boxes).Nodup ∧ 1 ≤ wCfg.input_time ∧
      alGet wS.track_id_kf_model_dict wBox4.track_id = some (kfInit 1 0)) ∧
    (alGet (runOk wCfg wS wMsgDet4).1.track_id_kf_model_dict wBox4.track_id =
      some (kfUpdate ![wBox4.center3d.1, wBox4.center3d.2.1] (kfPredict (kfInit 1 0))) ∧
      alGet (runOk wCfg wS wMsgDet4).2.track_pos_dict wBox4.track_id =
        some (wBox4.center3d.1, wBox4.center3d.2.1)) :=
  ⟨⟨by simp [wMsgDet4], by simp [isTracked, wBox4],
      by simp [detIds, wMsgDet4, wBox4, isTracked], by norm_num [wCfg],
      by simp [wS, alGet, wBox4]⟩,
    c9_steady_one_predict_update wCfg wS wMsgDet4 (runOk wCfg wS wMsgDet4) wBox4
      (kfInit 1 0)
      (runOk_spec wCfg wS wMsgDet4 (by
        norm_num [cycleOk, tracked_boxes_cb, wCfg, wS, wMsgDet4, wBox4, alGet, alSet,
          alErase, alKeys, processBox, processAlive, finishAlive, processMissing,
          processPubMissing, dequeAppend, List.foldlM, List.filter, detIds, isTracked,
          List.getLast?, bind, Except.bind, pure, Except.pure, Option.getD]))
      (by simp [wMsgDet4]) (by simp [isTracked, wBox4])
      (by simp [detIds, wMsgDet4, wBox4, isTracked]) (by norm_num [wCfg])
      (by simp [wS, alGet, wBox4])⟩

/-! ### Claim C10 -/

/-- C10 (amended): a detected person/obstacle track whose queue is still
below `input_time` and which has no filter is included in the emitted alive
id list while receiving no entry in the emitted positions or velocities and
no new velocity-history entry this cycle; its slot in the emitted
velocity-history map is exactly what it was before the cycle (which is
`none` for a genuinely new id, but can be a leftover history if a previous
incarnation of the id was purged). -/
theorem c10_new_track_alive_but_silent (cfg : Config) (s : TState) (msg : Batch)
    (r : TState × CycleOutput) (b : Box)
    (h : tracked_boxes_cb cfg s msg = .ok r)
    (hb : b ∈ msg.tracked_boxes) (ht : isTracked b = true)
    (hnd : (detIds msg.tracked_boxes).Nodup)
    (hkf : alGet s.track_id_kf_model_dict b.track_id = none)
    (hlen : ((alGet s.track_input_queue_dict b.track_id).getD []).length + 1 <
      cfg.input_time) :
    b.track_id ∈ r.2.alive_track_id_list ∧
    alGet r.2.track_pos_dict b.track_id = none ∧
    alGet r.2.track_vel_dict b.track_id = none ∧
    alGet r.2.track_vel_hist_dict b.track_id = alGet s.track_vel_hist_dict b.track_id := by
  obtain ⟨i1, p2, c3, p4, h1, h2, h3, h4, hr⟩ := tracked_boxes_cb_ok_elim cfg s msg r h
  have halive : i1.alive = detectedIds msg := by
    have := phase1_fold_alive cfg msg.stamp msg.tracked_boxes ⟨s, []⟩ i1 h1
    simpa [detectedIds] using this
  obtain ⟨hq1, hm1⟩ :=
    phase1_fold_at_detected cfg msg.stamp msg.tracked_boxes ⟨s, []⟩ i1 b h1 hb ht hnd
  have hkv1 := phase1_fold_kf_velhist cfg msg.stamp msg.tracked_boxes ⟨s, []⟩ i1 h1
  have hkf1 : alGet i1.st.track_id_kf_model_dict b.track_id = none := by
    rw [hkv1.1]
    exact hkf
  have hmem2 : b.track_id ∈ i1.alive := by
    rw [halive]
    exact mem_detIds_of_mem b msg.tracked_boxes hb ht
  have hlen2 : (dequeAppend cfg.input_time
      ((alGet (⟨s, []⟩ : Ingest1).st.track_input_queue_dict b.track_id).getD [])
      b.center3d).length < cfg.input_time := by
    rw [length_dequeAppend]
    simp only
    omega
  obtain ⟨hkf2, hvh2, hpos2, hvel2⟩ :=
    phase2_fold_at_skip cfg i1.alive ⟨i1.st, [], []⟩ p2 b.track_id _ h2 hmem2 hq1
      hkf1 hlen2
  have hnotmiss : b.track_id ∉ (alKeys p2.st.track_input_queue_dict).filter
      (fun i => decide (i ∉ i1.alive)) := by
    intro hin
    have := (List.mem_filter.mp hin).2
    simp at this
    exact this hmem2
  have hnotpub : b.track_id ∉ ((alKeys p2.st.track_input_queue_dict).filter
      (fun i => decide (i ∉ i1.alive))).filter (fun i => decide (i ∉ c3.stopList)) := by
    intro hin
    exact hnotmiss (List.mem_filter.mp hin).1
  have hpv := phase4_fold_preserve _ ⟨c3.st, p2.pos, p2.vel⟩ p4 b.track_id h4 hnotpub
  have hvh3 := phase3_fold_velhist cfg msg.stamp _ ⟨p2.st, []⟩ c3 h3
  have hst4 := phase4_fold_st _ ⟨c3.st, p2.pos, p2.vel⟩ p4 h4
  refine ⟨?_, ?_, ?_, ?_⟩
  · have : r.2.alive_track_id_list = i1.alive := by rw [hr]
    rw [this]
    exact hmem2
  · have : r.2.track_pos_dict = p4.pos := by rw [hr]
    rw [this, hpv.1, hpos2]
    rfl
  · have : r.2.track_vel_dict = p4.vel := by rw [hr]
    rw [this, hpv.2, hvel2]
    rfl
  · have hrv : r.2.track_vel_hist_dict = p4.st.track_vel_hist_dict := by rw [hr]
    rw [hrv, hst4]
    simp only
    rw [hvh3]
    simp only
    rw [hvh2]
    simp only
    rw [hkv1.2]

/-- A person box for a brand-new track 8 at t = 2. -/
def wBox8 : Box :=
  { class_name := "person", track_id := 8, center3d := (3, 1, 0), color := (0, 1, 0)
    stamp := 2 }

/-- A batch at t = 2 detecting only the new track 8. -/
def wMsgDet8 : Batch := { stamp := 2, tracked_boxes := [wBox8] }

theorem c10_new_track_alive_but_silent_witness :
    (wBox8 ∈ wMsgDet8.tracked_boxes ∧ isTracked wBox8 = true ∧
      (detIds wMsgDet8.tracked_boxes).Nodup ∧
      alGet wS.track_id_kf_model_dict wBox8.track_id = none ∧
      ((alGet wS.track_input_queue_dict wBox8.track_id).getD []).length + 1 <
        wCfg.input_time) ∧
    (wBox8.track_id ∈ (runOk wCfg wS wMsgDet8).2.alive_track_id_list ∧
      alGet (runOk wCfg wS wMsgDet8).2.track_pos_dict wBox8.track_id = none ∧
      alGet (runOk wCfg wS wMsgDet8).2.track_vel_dict wBox8.track_id = none ∧
      alGet (runOk wCfg wS wMsgDet8).2.track_vel_hist_dict wBox8.track_id =
        alGet wS.track_vel_hist_dict wBox8.track_id) :=
  ⟨⟨by simp [wMsgDet8], by simp [isTracked, wBox8],
      by simp [detIds, wMsgDet8, wBox8, isTracked],
      by simp [wS, alGet, wBox8], by norm_num [wS, wCfg, wBox8, alGet]⟩,
    c10_new_track_alive_but_silent wCfg wS wMsgDet8 (runOk wCfg wS wMsgDet8) wBox8
      (runOk_spec wCfg wS wMsgDet8 (by
        norm_num [cycleOk, tracked_boxes_cb, wCfg, wS, wMsgDet8, wBox8, alGet, alSet,
          alErase, alKeys, processBox, processAlive, finishAlive, processMissing,
          processPubMissing, dequeAppend, List.foldlM, List.filter, detIds, isTracked,
          List.getLast?, bind, Except.bind, pure, Except.pure, Option.getD]))
      (by simp [wMsgDet8]) (by simp [isTracked, wBox8])
      (by simp [detIds, wMsgDet8, wBox8, isTracked])
      (by simp [wS, alGet, wBox8]) (by norm_num [wS, wCfg, wBox8, alGet])⟩

/-- The registry as the velocity-history leak leaves it after track 7 was
purged: every per-track dict empty except the surviving velocity history. -/
def wSp : TState :=
  { initialState with track_vel_hist_dict := [(7, [(1, (0, 0))])] }

/-- A person box re-observing id 7 at t = 10, after its purge. -/
def wBox10 : Box :=
  { class_name := "person", track_id := 7, center3d := (5, 0, 0), color := (1, 0, 0)
    stamp := 10 }

/-- A batch at t = 10 re-detecting id 7. -/
def wMsgDet10 : Batch := { stamp := 10, tracked_boxes := [wBox10] }

/-- C10 (counterexample to the original claim): a re-observed id 7 whose
previous incarnation was purged has queue length 1 < input_time and no
filter, is in the alive list with no positions/velocities entry — but its
velocity-history entry from before the purge is still in the emitted
velocity-history map, so it is not absent from all three output maps. -/
theorem c10_original_refuted :
    tracked_boxes_cb wCfg wSp wMsgDet10 = .ok (runOk wCfg wSp wMsgDet10) ∧
    alGet wSp.track_id_kf_model_dict 7 = none ∧
    alGet wSp.track_input_queue_dict 7 = none ∧
    (7 : TrackId) ∈ (runOk wCfg wSp wMsgDet10).2.alive_track_id_list ∧
    alGet (runOk wCfg wSp wMsgDet10).2.track_pos_dict 7 = none ∧
    (alGet (runOk wCfg wSp wMsgDet10).2.track_vel_hist_dict 7).isSome = true := by
  refine ⟨runOk_spec wCfg wSp wMsgDet10 ?h1, by simp [wSp, initialState, alGet],
    by simp [wSp, initialState, alGet], ?h2, ?h3, ?h4⟩
  case h1 =>
    norm_num [cycleOk, tracked_boxes_cb, wCfg, wSp, initialState, wMsgDet10, wBox10,
      alGet, alSet, alErase, alKeys, processBox, processAlive, finishAlive,
      processMissing, processPubMissing, dequeAppend, List.foldlM, List.filter, detIds,
      isTracked, List.getLast?, bind, Except.bind, pure, Except.pure, Option.getD]
  case h2 =>
    norm_num [runOk, tracked_boxes_cb, wCfg, wSp, initialState, wMsgDet10, wBox10,
      alGet, alSet, alErase, alKeys, processBox, processAlive, finishAlive,
      processMissing, processPubMissing, dequeAppend, List.foldlM, List.filter, detIds,
      isTracked, List.getLast?, bind, Except.bind, pure, Except.pure, Option.getD]
  case h3 =>
    norm_num [runOk, tracked_boxes_cb, wCfg, wSp, initialState, wMsgDet10, wBox10,
      alGet, alSet, alErase, alKeys, processBox, processAlive, finishAlive,
      processMissing, processPubMissing, dequeAppend, List.foldlM, List.filter, detIds,
      isTracked, List.getLast?, bind, Except.bind, pure, Except.pure, Option.getD]
  case h4 =>
    norm_num [runOk, tracked_boxes_cb, wCfg, wSp, initialState, wMsgDet10, wBox10,
      alGet, alSet, alErase, alKeys, processBox, processAlive, finishAlive,
      processMissing, processPubMissing, dequeAppend, List.foldlM, List.filter, detIds,
      isTracked, List.getLast?, bind, Except.bind, pure, Except.pure, Option.getD]

/-! ### Claim C4 -/

/-- C4 (amended): only a strictly earlier per-box stamp triggers the
stale-sample skip — the timestamp window and fps are left alone while the
position is still enqueued.  A stamp identical to the most recent recorded
timestamp does NOT trigger the skip: the batch stamp is appended to the
window a second time and the fps is recomputed (so ingesting the same batch
twice does double-count frequency-window entries, or divides by zero when
the window's oldest entry equals the batch stamp). -/
theorem c4_stale_skip_strict (cfg : Config) (ms : Time) (acc : Ingest1) (b : Box)
    (ts : List Time) (l f : Time)
    (h1 : isTracked b = true)
    (h2 : alGet acc.st.track_prev_predict_timestamp b.track_id = some ts)
    (h3 : ts.getLast? = some l) (h5 : ts.head? = some f) :
    (b.stamp < l →
      ∃ a, processBox cfg ms acc b = .ok a ∧
        alGet a.st.track_prev_predict_timestamp b.track_id = some ts ∧
        a.st.track_predict_fps = acc.st.track_predict_fps ∧
        alGet a.st.track_input_queue_dict b.track_id =
          some (dequeAppend cfg.input_time
            ((alGet acc.st.track_input_queue_dict b.track_id).getD []) b.center3d)) ∧
    (b.stamp = l → ms - f ≠ 0 →
      ∃ a, processBox cfg ms acc b = .ok a ∧
        alGet a.st.track_prev_predict_timestamp b.track_id =
          some (dequeAppend cfg.fps_est_time ts ms) ∧
        alGet a.st.track_predict_fps b.track_id = some ((ts.length : ℚ) / (ms - f)) ∧
        alGet a.st.track_input_queue_dict b.track_id =
          some (dequeAppend cfg.input_time
            ((alGet acc.st.track_input_queue_dict b.track_id).getD []) b.center3d)) := by
  constructor
  · intro hlt
    refine ⟨_, processBox_stale_eq cfg ms acc b ts l h1 h2 h3 hlt, ?_, rfl, ?_⟩
    · simpa using h2
    · simp only
      rw [alGet_alSet_self]
  · intro heq hne
    have hnlt : ¬ b.stamp < l := not_lt.mpr (le_of_eq heq.symm)
    refine ⟨_, processBox_accept_eq cfg ms acc b ts l f h1 h2 h3 hnlt h5 hne, ?_, ?_, ?_⟩
    · simp only
      rw [alGet_alSet_self]
    · simp only
      rw [alGet_alSet_self]
    · simp only
      rw [alGet_alSet_self]

/-- An ingestion accumulator with track 7 observed before at t = 0 and t = 1,
fps 1, one queued position and no filter. -/
def wAcc : Ingest1 :=
  ⟨{ track_input_queue_dict := [(7, [(0, 0, 0)])]
     track_color_dict := [(7, (1, 0, 0))]
     track_id_kf_model_dict := []
     track_id_missing_time_dict := []
     track_predict_fps := [(7, 1)]
     track_prev_predict_timestamp := [(7, [0, 1])]
     track_vel_hist_dict := [] }, []⟩

/-- A box for track 7 whose stamp equals the newest recorded timestamp. -/
def wBoxEq : Box :=
  { class_name := "person", track_id := 7, center3d := (1, 0, 0), color := (1, 0, 0)
    stamp := 1 }

/-- A box for track 7 whose stamp is strictly older than the newest recorded
timestamp. -/
def wBoxStale : Box :=
  { class_name := "person", track_id := 7, center3d := (1, 0, 0), color := (1, 0, 0)
    stamp := 1/2 }

theorem c4_stale_skip_strict_witness :
    (isTracked wBoxStale = true ∧
      alGet wAcc.st.track_prev_predict_timestamp 7 = some [0, 1] ∧
      ([0, 1] : List Time).getLast? = some 1 ∧ ([0, 1] : List Time).head? = some 0 ∧
      wBoxStale.stamp < 1 ∧ wBoxEq.stamp = (1 : ℚ) ∧ (1 : ℚ) - 0 ≠ 0) ∧
    ((∃ a, processBox wCfg 1 wAcc wBoxStale = .ok a ∧
        alGet a.st.track_prev_predict_timestamp 7 = some [0, 1] ∧
        a.st.track_predict_fps = wAcc.st.track_predict_fps ∧
        alGet a.st.track_input_queue_dict 7 =
          some (dequeAppend wCfg.input_time
            ((alGet wAcc.st.track_input_queue_dict 7).getD []) wBoxStale.center3d)) ∧
      (∃ a, processBox wCfg 1 wAcc wBoxEq = .ok a ∧
        alGet a.st.track_prev_predict_timestamp 7 =
          some (dequeAppend wCfg.fps_est_time [0, 1] 1) ∧
        alGet a.st.track_predict_fps 7 = some ((([0, 1] : List Time).length : ℚ) / (1 - 0)) ∧
        alGet a.st.track_input_queue_dict 7 =
          some (dequeAppend wCfg.input_time
            ((alGet wAcc.st.track_input_queue_dict 7).getD []) wBoxEq.center3d))) :=
  ⟨⟨by simp [isTracked, wBoxStale], by simp [wAcc, alGet],
      by simp [List.getLast?], by simp, by norm_num [wBoxStale], by norm_num [wBoxEq],
      by norm_num⟩,
    (c4_stale_skip_strict wCfg 1 wAcc wBoxStale [0, 1] 1 0
        (by simp [isTracked, wBoxStale]) (by simp [wAcc, wBoxStale, alGet])
        (by simp [List.getLast?]) (by simp)).1 (by norm_num [wBoxStale]),
    (c4_stale_skip_strict wCfg 1 wAcc wBoxEq [0, 1] 1 0
        (by simp [isTracked, wBoxEq]) (by simp [wAcc, wBoxEq, alGet])
        (by simp [List.getLast?]) (by simp)).2 (by norm_num [wBoxEq]) (by norm_num)⟩

/-- A registry with track 7 whose single queued position was recorded with
timestamps 0 and 1 and fps 1, under a large `input_time` so that no filter
is ever involved. -/
def wSs : TState := wAcc.st

/-- The configuration of `wCfg` with `input_time = 5`. -/
def wCfg5 : Config := { wCfg with input_time := 5 }

/-- A batch at t = 1 re-detecting track 7 with the identical stamp 1. -/
def wMsgEq : Batch := { stamp := 1, tracked_boxes := [wBoxEq] }

/-- C4 (counterexample to the original claim): ingesting a batch whose stamp
is identical to the most recent recorded timestamp does NOT trigger the
stale-sample skip: `track_prev_predict_timestamp` for track 7 grows from
`[0, 1]` to `[0, 1, 1]` — the window gains a second entry for stamp 1 — and
the fps is recomputed to 2. -/
theorem c4_original_refuted :
    tracked_boxes_cb wCfg5 wSs wMsgEq = .ok (runOk wCfg5 wSs wMsgEq) ∧
    alGet wSs.track_prev_predict_timestamp 7 = some [0, 1] ∧
    wMsgEq.stamp = (1 : ℚ) ∧
    alGet (runOk wCfg5 wSs wMsgEq).1.track_prev_predict_timestamp 7 = some [0, 1, 1] ∧
    alGet (runOk wCfg5 wSs wMsgEq).1.track_predict_fps 7 = some 2 := by
  refine ⟨runOk_spec wCfg5 wSs wMsgEq ?h1, by simp [wSs, wAcc, alGet],
    by norm_num [wMsgEq], ?h2, ?h3⟩
  case h1 =>
    norm_num [cycleOk, tracked_boxes_cb, wCfg5, wCfg, wSs, wAcc, wMsgEq, wBoxEq, alGet,
      alSet, alErase, alKeys, processBox, processAlive, finishAlive, processMissing,
      processPubMissing, dequeAppend, List.foldlM, List.filter, detIds, isTracked,
      List.getLast?, bind, Except.bind, pure, Except.pure, Option.getD]
  case h2 =>
    norm_num [runOk, tracked_boxes_cb, wCfg5, wCfg, wSs, wAcc, wMsgEq, wBoxEq, alGet,
      alSet, alErase, alKeys, processBox, processAlive, finishAlive, processMissing,
      processPubMissing, dequeAppend, List.foldlM, List.filter, detIds, isTracked,
      List.getLast?, bind, Except.bind, pure, Except.pure, Option.getD]
  case h3 =>
    norm_num [runOk, tracked_boxes_cb, wCfg5, wCfg, wSs, wAcc, wMsgEq, wBoxEq, alGet,
      alSet, alErase, alKeys, processBox, processAlive, finishAlive, processMissing,
      processPubMissing, dequeAppend, List.foldlM, List.filter, detIds, isTracked,
      List.getLast?, bind, Except.bind, pure, Except.pure, Option.getD]

/-! ### Claim C5 -/

/-- C5 (amended): with no recorded timestamps for a track (the window would
have fewer than 2 entries), the fps update is withheld — the fps dict is
unchanged.  With zero elapsed time over the window, however, the update is
not withheld: the computation raises a division-by-zero error.  No NaN or
infinity is ever stored (fps values are exact rationals and the erroring
cycle stores nothing). -/
theorem c5_fps_failsafe (cfg : Config) (ms : Time) (acc : Ingest1) (b : Box)
    (ts : List Time) (l f : Time)
    (h1 : isTracked b = true) :
    (alGet acc.st.track_prev_predict_timestamp b.track_id = none →
      ∃ a, processBox cfg ms acc b = .ok a ∧
        a.st.track_predict_fps = acc.st.track_predict_fps) ∧
    (alGet acc.st.track_prev_predict_timestamp b.track_id = some ts →
      ts.getLast? = some l → ¬ b.stamp < l → ts.head? = some f → ms - f = 0 →
      processBox cfg ms acc b = .error .zeroDivisionError) := by
  constructor
  · intro h2
    exact ⟨_, processBox_fresh_eq cfg ms acc b h1 h2, rfl⟩
  · intro h2 h3 h4 h5 h6
    exact processBox_zerodiv cfg ms acc b ts l f h1 h2 h3 h4 h5 h6

/-- A box observing the brand-new track 9. -/
def wBox9 : Box :=
  { class_name := "person", track_id := 9, center3d := (4, 4, 0), color := (0, 0, 1)
    stamp := 1 }

/-- A box re-observing track 7 with stamp 5 when its whole window is [5]. -/
def wBox5 : Box :=
  { class_name := "person", track_id := 7, center3d := (1, 0, 0), color := (1, 0, 0)
    stamp := 5 }

/-- An ingestion accumulator whose track-7 window is the single stamp 5. -/
def wAcc5 : Ingest1 :=
  ⟨{ wAcc.st with track_prev_predict_timestamp := [(7, [5])] }, []⟩

theorem c5_fps_failsafe_witness :
    (isTracked wBox9 = true ∧ isTracked wBox5 = true ∧
      alGet wAcc.st.track_prev_predict_timestamp 9 = none ∧
      alGet wAcc5.st.track_prev_predict_timestamp 7 = some [5] ∧
      ([5] : List Time).getLast? = some 5 ∧ ¬ wBox5.stamp < 5 ∧
      ([5] : List Time).head? = some 5 ∧ (5 : ℚ) - 5 = 0) ∧
    ((∃ a, processBox wCfg 1 wAcc wBox9 = .ok a ∧
        a.st.track_predict_fps = wAcc.st.track_predict_fps) ∧
      processBox wCfg 5 wAcc5 wBox5 = .error .zeroDivisionError) :=
  ⟨⟨by simp [isTracked, wBox9], by simp [isTracked, wBox5],
      by simp [wAcc, alGet], by simp [wAcc5, wAcc, alGet],
      by simp [List.getLast?], by norm_num [wBox5], by simp, by norm_num⟩,
    (c5_fps_failsafe wCfg 1 wAcc wBox9 [] 0 0 (by simp [isTracked, wBox9])).1
      (by simp [wAcc, wBox9, alGet]),
    (c5_fps_failsafe wCfg 5 wAcc5 wBox5 [5] 5 5 (by simp [isTracked, wBox5])).2
      (by simp [wAcc5, wAcc, wBox5, alGet]) (by simp [List.getLast?])
      (by norm_num [wBox5]) (by simp) (by norm_num)⟩

/-- A registry whose track-7 timestamp window is the single stamp 5. -/
def wSz : TState := wAcc5.st

/-- A batch at t = 5 re-observing track 7 at the identical stamp 5. -/
def wMsgZ : Batch := { stamp := 5, tracked_boxes := [wBox5] }

/-- C5 (counterexample to the original claim): with zero elapsed time over
the window (window [5], batch stamp 5) the estimator does not withhold the
update — the whole cycle raises `ZeroDivisionError` instead of failing
safe. -/
theorem c5_original_refuted :
    alGet wSz.track_prev_predict_timestamp 7 = some [5] ∧
    wMsgZ.stamp = (5 : ℚ) ∧
    tracked_boxes_cb wCfg5 wSz wMsgZ = .error .zeroDivisionError := by
  refine ⟨by simp [wSz, wAcc5, wAcc, alGet], by norm_num [wMsgZ], ?h1⟩
  case h1 =>
    norm_num [tracked_boxes_cb, wCfg5, wCfg, wSz, wAcc5, wAcc, wMsgZ, wBox5, alGet,
      alSet, alErase, alKeys, processBox, List.foldlM, List.filter, detIds, isTracked,
      List.getLast?, bind, Except.bind, pure, Except.pure, Option.getD]

/-! ### Claim C6 -/

/-- The frequency-estimator contract of the specification (§4.3), stated over
the timestamp window including the accepted incoming sample:
`(count_of_timestamps_in_window − 1) / (newest − oldest)`. -/
def specEstimatedFps (window : List Time) : ℚ :=
  ((window.length : ℚ) - 1) / ((window.getLast?.getD 0) - (window.head?.getD 0))

/-- C6: for a track whose new observation is accepted for a frequency
update, the recomputed fps equals
`(count_of_timestamps_in_window − 1) / (newest − oldest)` over the window
consisting of the recorded timestamps together with the accepted batch
stamp (the batch stamp being the newest entry, the window head the oldest);
in particular observations at exactly t = 0, 1, 2, 3 yield fps 1. -/
theorem c6_fps_formula (cfg : Config) (ms : Time) (acc : Ingest1) (b : Box)
    (ts : List Time) (l f : Time)
    (h1 : isTracked b = true)
    (h2 : alGet acc.st.track_prev_predict_timestamp b.track_id = some ts)
    (h3 : ts.getLast? = some l) (h4 : ¬ b.stamp < l) (h5 : ts.head? = some f)
    (hnewest : ∀ x ∈ ts, x ≤ ms) (holdest : ∀ x ∈ ts, f ≤ x) (hlt : f < ms) :
    ∃ a, processBox cfg ms acc b = .ok a ∧
      alGet a.st.track_predict_fps b.track_id =
        some (specEstimatedFps (ts ++ [ms])) := by
  have hne : ms - f ≠ 0 := by
    intro hh
    have : ms = f := by linarith [sub_eq_zero.mp hh]
    exact absurd (this ▸ hlt) (lt_irrefl f)
  refine ⟨_, processBox_accept_eq cfg ms acc b ts l f h1 h2 h3 h4 h5 hne, ?_⟩
  simp only
  rw [alGet_alSet_self]
  congr 1
  have htsne : ts ≠ [] := by
    intro hh
    rw [hh] at h5
    simp at h5
  have hhead : (ts ++ [ms]).head? = some f := by
    cases ts with
    | nil => exact absurd rfl htsne
    | cons x rest =>
      simp only [List.head?] at h5 ⊢
      simpa using h5
  rw [specEstimatedFps, List.getLast?_concat, hhead]
  simp only [Option.getD_some, List.length_append, List.length_singleton]
  push_cast
  ring_nf

theorem c6_fps_formula_witness :
    (isTracked wBoxEq = true ∧
      alGet wAcc.st.track_prev_predict_timestamp 7 = some [0, 1] ∧
      ([0, 1] : List Time).getLast? = some 1 ∧ ¬ wBoxEq.stamp < 1 ∧
      ([0, 1] : List Time).head? = some 0 ∧
      (∀ x ∈ ([0, 1] : List Time), x ≤ 3) ∧
      (∀ x ∈ ([0, 1] : List Time), (0 : ℚ) ≤ x) ∧ (0 : ℚ) < 3) ∧
    ((∃ a, processBox wCfg 3 wAcc wBoxEq = .ok a ∧
        alGet a.st.track_predict_fps 7 =
          some (specEstimatedFps ([0, 1] ++ [3]))) ∧
      specEstimatedFps [0, 1, 2, 3] = 1) :=
  ⟨⟨by simp [isTracked, wBoxEq], by simp [wAcc, alGet], by simp [List.getLast?],
      by norm_num [wBoxEq], by simp, by norm_num, by norm_num, by norm_num⟩,
    c6_fps_formula wCfg 3 wAcc wBoxEq [0, 1] 1 0
      (by simp [isTracked, wBoxEq]) (by simp [wAcc, wBoxEq, alGet]) (by simp [List.getLast?])
      (by norm_num [wBoxEq]) (by simp) (by norm_num) (by norm_num) (by norm_num),
    by norm_num [specEstimatedFps, List.getLast?, List.head?]⟩

/-! ### Claim C3 -/

/-- C3 (amended): ingestion is total only conditionally.  On a wellformed
registry state (nonempty windows and queues, filter implies fps and queue,
queue implies window and color, unique queue keys), a batch whose detected
ids are distinct, whose tracked boxes carry the batch stamp, with
`input_time` at least 2, `fps_est_time` at least 1, and every previously
recorded timestamp strictly older than the batch stamp, the whole
`tracked_boxes_cb` cycle raises no error. -/
theorem c3_totality (cfg : Config) (s : TState) (msg : Batch)
    (hS : Sane s)
    (hnd : (detectedIds msg).Nodup)
    (hstamps : ∀ b ∈ msg.tracked_boxes, isTracked b = true → b.stamp = msg.stamp)
    (hin : 2 ≤ cfg.input_time)
    (hfe : 1 ≤ cfg.fps_est_time)
    (hlt : ∀ id ts, alGet s.track_prev_predict_timestamp id = some ts →
      ∀ t ∈ ts, t < msg.stamp) :
    cycleOk cfg s msg = true := by
  obtain ⟨w1, w2, w3, w4, w5, w6, w7⟩ := hS
  have hts1 : ∀ b ∈ msg.tracked_boxes, isTracked b = true →
      ∀ ts, alGet s.track_prev_predict_timestamp b.track_id = some ts →
        ts ≠ [] ∧ ∀ t ∈ ts, t < msg.stamp :=
    fun _ _ _ ts hts => ⟨w1 _ _ hts, hlt _ _ hts⟩
  obtain ⟨i1, h1⟩ := phase1_total cfg msg.stamp msg.tracked_boxes ⟨s, []⟩ hnd hstamps hts1
  have halive : i1.alive = detectedIds msg := by
    have := phase1_fold_alive cfg msg.stamp msg.tracked_boxes ⟨s, []⟩ i1 h1
    simpa [detectedIds] using this
  have hkv1 : i1.st.track_id_kf_model_dict = s.track_id_kf_model_dict ∧
      i1.st.track_vel_hist_dict = s.track_vel_hist_dict :=
    phase1_fold_kf_velhist cfg msg.stamp msg.tracked_boxes ⟨s, []⟩ i1 h1
  have hready : ∀ id ∈ i1.alive, AliveReady cfg i1.st id := by
    intro id hid
    rw [halive] at hid
    simp only [detectedIds, detIds, List.mem_map] at hid
    obtain ⟨b, hbf, hbid⟩ := hid
    rw [List.mem_filter] at hbf
    obtain ⟨hb, ht⟩ := hbf
    have hatd := phase1_fold_at_detected cfg msg.stamp msg.tracked_boxes ⟨s, []⟩ i1 b
      h1 hb ht hnd
    have hfp := phase1_fold_fps_prevTs_at cfg msg.stamp msg.tracked_boxes ⟨s, []⟩ i1 b
      h1 hb ht hnd hstamps (fun ts hts => ⟨w1 _ _ hts, hlt _ _ hts⟩) hfe
    rw [hbid] at hatd hfp
    have hatd' : alGet i1.st.track_input_queue_dict id =
        some (dequeAppend cfg.input_time
          ((alGet s.track_input_queue_dict id).getD []) b.center3d) := hatd.1
    have hfp' : (∃ ts', alGet i1.st.track_prev_predict_timestamp id = some ts' ∧ ts' ≠ []) ∧
        ((alGet s.track_prev_predict_timestamp id).isSome = true →
          (alGet i1.st.track_predict_fps id).isSome = true) := hfp
    refine ⟨_, hatd', dequeAppend_ne_nil _ _ _ (by omega), hfp'.1, ?_⟩
    cases hkf : alGet s.track_id_kf_model_dict id with
    | some t =>
      refine Or.inr (phase1_fold_fps_isSome_mono cfg msg.stamp msg.tracked_boxes ⟨s, []⟩
        i1 id h1 ?_)
      exact w2 id (by rw [hkf]; rfl)
    | none =>
      cases hqs : alGet s.track_input_queue_dict id with
      | some q0 =>
        exact Or.inr (hfp'.2 (w3 id (by rw [hqs]; rfl)))
      | none =>
        refine Or.inl ⟨by rw [hkv1.1]; exact hkf, ?_⟩
        simp only [Option.getD_none]
        rw [length_dequeAppend]
        simp only [List.length_nil]
        omega
  have hnda : i1.alive.Nodup := by rw [halive]; exact hnd
  obtain ⟨p2, h2⟩ := phase2_total cfg i1.alive ⟨i1.st, [], []⟩ hnda hready
  have hshape2 := phase2_fold_shape cfg i1.alive ⟨i1.st, [], []⟩ p2 h2
  have hqdict2 : p2.st.track_input_queue_dict = i1.st.track_input_queue_dict := hshape2.1
  have hcdict2 : p2.st.track_color_dict = i1.st.track_color_dict := hshape2.2.1
  have hfdict2 : p2.st.track_predict_fps = i1.st.track_predict_fps := hshape2.2.2.2.1
  have hqnodup1 : (alKeys i1.st.track_input_queue_dict).Nodup :=
    phase1_fold_queue_keys_nodup cfg msg.stamp msg.tracked_boxes ⟨s, []⟩ i1 h1 w5
  have hnd3 : ((alKeys p2.st.track_input_queue_dict).filter
      (fun id => decide (id ∉ i1.alive))).Nodup := by
    rw [hqdict2]
    exact hqnodup1.filter _
  have hpre3 : ∀ id ∈ (alKeys p2.st.track_input_queue_dict).filter
      (fun id => decide (id ∉ i1.alive)),
      (alGet p2.st.track_input_queue_dict id).isSome = true ∧
      (alGet p2.st.track_color_dict id).isSome = true := by
    intro id hid
    rw [List.mem_filter] at hid
    obtain ⟨hidk, hnal⟩ := hid
    have hq2 : (alGet p2.st.track_input_queue_dict id).isSome = true :=
      alGet_isSome_of_mem_alKeys _ _ hidk
    have hnal' : id ∉ i1.alive := by simpa using hnal
    have hnd' : id ∉ detIds msg.tracked_boxes := by
      rw [halive] at hnal'
      exact hnal'
    have hpres1 := phase1_fold_preserve cfg msg.stamp msg.tracked_boxes ⟨s, []⟩ i1 id h1 hnd'
    have hq1 : alGet i1.st.track_input_queue_dict id = alGet s.track_input_queue_dict id :=
      hpres1.1
    have hc1 : alGet i1.st.track_color_dict id = alGet s.track_color_dict id :=
      hpres1.2.1
    have hqs : (alGet s.track_input_queue_dict id).isSome = true := by
      rw [← hq1, ← hqdict2]
      exact hq2
    refine ⟨hq2, ?_⟩
    rw [hcdict2, hc1]
    exact w4 id hqs
  obtain ⟨c3, h3⟩ := phase3_total cfg msg.stamp
    ((alKeys p2.st.track_input_queue_dict).filter (fun id => decide (id ∉ i1.alive)))
    ⟨p2.st, []⟩ hnd3 hpre3
  have hpre4 : ∀ id ∈ ((alKeys p2.st.track_input_queue_dict).filter
      (fun id => decide (id ∉ i1.alive))).filter (fun id => decide (id ∉ c3.stopList)),
      ∀ t, alGet c3.st.track_id_kf_model_dict id = some t →
        (alGet c3.st.track_predict_fps id).isSome = true ∧
        ∃ q, alGet c3.st.track_input_queue_dict id = some q ∧ q ≠ [] := by
    intro id hid t hkf
    rw [List.mem_filter] at hid
    obtain ⟨hidm, _⟩ := hid
    have hidm2 := hidm
    rw [List.mem_filter] at hidm2
    obtain ⟨hidk, hnal⟩ := hidm2
    have hnal' : id ∉ i1.alive := by simpa using hnal
    have hnd' : id ∉ detIds msg.tracked_boxes := by
      rw [halive] at hnal'
      exact hnal'
    have hpres1 := phase1_fold_preserve cfg msg.stamp msg.tracked_boxes ⟨s, []⟩ i1 id h1 hnd'
    have hq1 : alGet i1.st.track_input_queue_dict id = alGet s.track_input_queue_dict id :=
      hpres1.1
    have hf1 : alGet i1.st.track_predict_fps id = alGet s.track_predict_fps id :=
      hpres1.2.2.2.1
    have hpres2 := phase2_fold_preserve cfg i1.alive ⟨i1.st, [], []⟩ p2 id h2 hnal'
    have hk2 : alGet p2.st.track_id_kf_model_dict id =
        alGet i1.st.track_id_kf_model_dict id := hpres2.1
    by_cases hpurge : msg.stamp -
        (alGet p2.st.track_id_missing_time_dict id).getD msg.stamp >
        cfg.duration_inactive_to_remove
    · have hp := phase3_fold_at_purge cfg msg.stamp
        ((alKeys p2.st.track_input_queue_dict).filter (fun id => decide (id ∉ i1.alive)))
        ⟨p2.st, []⟩ c3 id h3 hidm hnd3 hpurge
      have hpk : alGet c3.st.track_id_kf_model_dict id = none := hp.2.2.1
      rw [hpk] at hkf
      exact absurd hkf (by simp)
    · have hk := phase3_fold_at_keep cfg msg.stamp
        ((alKeys p2.st.track_input_queue_dict).filter (fun id => decide (id ∉ i1.alive)))
        ⟨p2.st, []⟩ c3 id h3 hidm hpurge
      have hkq : alGet c3.st.track_input_queue_dict id =
          alGet p2.st.track_input_queue_dict id := hk.1
      have hkk : alGet c3.st.track_id_kf_model_dict id =
          alGet p2.st.track_id_kf_model_dict id := hk.2.2.1
      have hkf2 : alGet s.track_id_kf_model_dict id = some t := by
        rw [← hkv1.1, ← hk2, ← hkk]
        exact hkf
      have hfps_s : (alGet s.track_predict_fps id).isSome = true :=
        w2 id (by rw [hkf2]; rfl)
      have hkfps : alGet c3.st.track_predict_fps id =
          alGet p2.st.track_predict_fps id := hk.2.2.2.1
      have hq2 : (alGet p2.st.track_input_queue_dict id).isSome = true :=
        alGet_isSome_of_mem_alKeys _ _ hidk
      obtain ⟨q, hqv⟩ := Option.isSome_iff_exists.mp hq2
      have hqs : alGet s.track_input_queue_dict id = some q := by
        rw [← hq1, ← hqdict2]
        exact hqv
      refine ⟨?_, q, ?_, w7 id q hqs⟩
      · rw [hkfps, hfdict2, hf1]
        exact hfps_s
      · rw [hkq]
        exact hqv
  obtain ⟨p4, h4⟩ := phase4_total
    (((alKeys p2.st.track_input_queue_dict).filter (fun id => decide (id ∉ i1.alive))).filter
      (fun id => decide (id ∉ c3.stopList)))
    ⟨c3.st, p2.pos, p2.vel⟩ hpre4
  unfold cycleOk
  have hcb : tracked_boxes_cb cfg s msg = .ok
      (p4.st,
        { alive_track_id_list := i1.alive
          track_pos_dict := p4.pos
          track_vel_dict := p4.vel
          track_vel_hist_dict := p4.st.track_vel_hist_dict }) := by
    simp only [tracked_boxes_cb, bind, Except.bind]
    rw [h1]
    simp only
    rw [h2]
    simp only
    rw [h3]
    simp only
    rw [h4]
    simp only [pure, Except.pure]
  rw [hcb]

/-- A person box first seen at t = 0, for the refutation of unconditional
totality. -/
def wBoxC3 : Box :=
  { class_name := "person", track_id := 7, center3d := (1, 0, 0), color := (1, 0, 0)
    stamp := 0 }

/-- A batch at t = 0 detecting the fresh track 7. -/
def wMsgC3 : Batch := { stamp := 0, tracked_boxes := [wBoxC3] }

/-- A configuration with `input_time = 1`: a single observation already
bootstraps a filter. -/
def wCfgC3 : Config := { wCfg with input_time := 1 }

/-- C3 as stated is false: with `input_time = 1` the very first detection of
a fresh track bootstraps a Kalman filter, and publishing it looks up
`self.track_predict_fps[track_id]` (line 307) before any fps was ever
computed for that track, raising `KeyError` on an empty initial registry. -/
theorem c3_original_refuted :
    tracked_boxes_cb wCfgC3 initialState wMsgC3 = .error .keyError := by
  norm_num [tracked_boxes_cb, wCfgC3, wCfg, initialState, wMsgC3, wBoxC3,
    alGet, alSet, alErase, alKeys, processBox, processAlive, finishAlive,
    processMissing, processPubMissing, dequeAppend, List.foldlM, List.filter, detIds,
    isTracked, List.getLast?, bind, Except.bind, pure, Except.pure, Option.getD]

/-- C3 witness: the wellformed one-track registry `wS` satisfies `Sane`, and
the detection batch at t = 4 is processed by `c3_totality` without error. -/
theorem c3_totality_witness :
    Sane wS ∧ cycleOk wCfg wS wMsgDet4 = true := by
  have hS : Sane wS := by
    refine ⟨?_, ?_, ?_, ?_, ?_, ?_, ?_⟩
    · intro id ts h
      by_cases h7 : (7 : TrackId) = id
      · simp [wS, alGet, h7] at h
        rw [← h]
        simp
      · simp [wS, alGet, h7] at h
    · intro id h
      by_cases h7 : (7 : TrackId) = id
      · simp [wS, alGet, h7]
      · simp [wS, alGet, h7] at h
    · intro id h
      by_cases h7 : (7 : TrackId) = id
      · simp [wS, alGet, h7]
      · simp [wS, alGet, h7] at h
    · intro id h
      by_cases h7 : (7 : TrackId) = id
      · simp [wS, alGet, h7]
      · simp [wS, alGet, h7] at h
    · simp [wS, alKeys]
    · intro id h
      by_cases h7 : (7 : TrackId) = id
      · simp [wS, alGet, h7]
      · simp [wS, alGet, h7] at h
    · intro id q h
      by_cases h7 : (7 : TrackId) = id
      · simp [wS, alGet, h7] at h
        rw [← h]
        simp
      · simp [wS, alGet, h7] at h
  refine ⟨hS, c3_totality wCfg wS wMsgDet4 hS ?_ ?_ ?_ ?_ ?_⟩
  · simp [detectedIds, detIds, wMsgDet4, wBox4, isTracked]
  · intro b hb _
    simp only [wMsgDet4, List.mem_singleton] at hb
    rw [hb]
    rfl
  · norm_num [wCfg]
  · norm_num [wCfg]
  · intro id ts h t ht
    by_cases h7 : (7 : TrackId) = id
    · simp [wS, alGet, h7] at h
      rw [← h] at ht
      simp at ht
      rcases ht with ht | ht <;> rw [ht] <;> norm_num [wMsgDet4]
    · simp [wS, alGet, h7] at h

end CabotTrack
